import Mathlib

/-! go-i18n (v2-beta / v2): language preference expansion, bundle registration
and the localization loop.

A shallow embedding of `v2-beta/i18n/localizer.go`, `v2-beta/i18n/bundle.go`
and `v2-beta/i18n/message_template.go`, followed by theorems about it.

Go strings are modelled as lists of runes (`Str`).  Go maps are modelled as
functions into `Option`, a nil pointer or a missing key being `none`; a map
value that may itself be nil (the zero value of a struct field) is an `Option`
of such a function.
-/

namespace I18n

/-- A Go string, as the sequence of its runes. -/
abbrev Str := List Char

/-! ## `localizer.go`: `LanguageTagRegex`, `NewLocalizer`, `expandTag`, `dedupe` -/

/-- The character class `[\-_]` of `LanguageTagRegex`; also the test
`r == '-' || r == '_'` of `expandTag` and `AddMessageTemplates`. -/
def isSep (c : Char) : Bool := c == '-' || c == '_'

/-- The piece `[a-zA-Z]{2,}` of `LanguageTagRegex`, anchored at the head of `s`.
The repetition is greedy, so it takes the whole run of letters; it fails when
that run has fewer than two letters.  Returns the run and the remaining input. -/
def letters2 (s : Str) : Option (Str × Str) :=
  if 2 ≤ (s.takeWhile Char.isAlpha).length then
    some (s.takeWhile Char.isAlpha, s.dropWhile Char.isAlpha)
  else none

/-- The piece `([\-_][a-zA-Z]{2,})*` of `LanguageTagRegex`, anchored at the head
of the input.  The star is greedy: it takes another separator-plus-letters
group as long as one is there, and stops (successfully, with what it has) at
the first place where no further group matches.  Returns the text matched and
the remaining input.  The first argument bounds the number of groups; the
length of the input is always enough. -/
def groupStar : Nat → Str → Str × Str
  | 0, s => ([], s)
  | _ + 1, [] => ([], [])
  | fuel + 1, c :: r =>
    if isSep c then
      match letters2 r with
      | some (w, r1) => (c :: w ++ (groupStar fuel r1).1, (groupStar fuel r1).2)
      | none => ([], c :: r)
    else ([], c :: r)

/-- A match of `LanguageTagRegex` = `[a-zA-Z]{2,}([\-_][a-zA-Z]{2,})*` anchored
at the head of `s` (leftmost-first semantics of Go's `regexp`): the match that
the greedy choices give, which exists exactly when `s` starts with two
letters.  Returns the matched text and the remaining input. -/
def matchPrefix (s : Str) : Option (Str × Str) :=
  match letters2 s with
  | none => none
  | some (w, r) => some (w ++ (groupStar r.length r).1, (groupStar r.length r).2)

/-- The scan of `FindAllString`: at each position try an anchored match; on
success record it and continue right after it (matches are never empty), on
failure move one rune to the right.  The first argument bounds the number of
steps; the length of the input is always enough. -/
def findAllAux : Nat → Str → List Str
  | 0, _ => []
  | _ + 1, [] => []
  | fuel + 1, c :: r =>
    match matchPrefix (c :: r) with
    | some (m, rest) => m :: findAllAux fuel rest
    | none => findAllAux fuel r

/-- The call `LanguageTagRegex.FindAllString(s, -1)`: all successive
non-overlapping matches of the regular expression in `s`, left to right. -/
def FindAllString (s : Str) : List Str := findAllAux s.length s

/-- The predicate `unicode.IsSpace`, which `strings.TrimSpace` uses. -/
def isSpace (c : Char) : Bool :=
  c == '\t' || c == '\n' || c.toNat == 0x0B || c.toNat == 0x0C || c == '\r' || c == ' ' ||
  c.toNat == 0x85 || c.toNat == 0xA0 || c.toNat == 0x1680 ||
  (0x2000 ≤ c.toNat && c.toNat ≤ 0x200A) || c.toNat == 0x2028 || c.toNat == 0x2029 ||
  c.toNat == 0x202F || c.toNat == 0x205F || c.toNat == 0x3000

/-- The function `strings.TrimSpace`: drop leading and trailing white space. -/
def TrimSpace (s : Str) : Str :=
  ((s.dropWhile isSpace).reverse.dropWhile isSpace).reverse

/-- The function `strings.ToLower` on the strings `expandTag` receives.  Its
argument is always a match of `LanguageTagRegex`, whose runes are ASCII; on
ASCII `strings.ToLower` maps `A`..`Z` to `a`..`z` and keeps every other rune,
which is what `Char.toLower` does. -/
def ToLower (s : Str) : Str := s.map Char.toLower

/-- The loop of `expandTag`, `for i := len(tag) - 1; i > 0; { ... }`.  The
first argument is the loop variable `i`.  One round reads the last rune `r` of
`tag[:i]`, steps `i` back over it, and appends `tag[:i]` when `r` is a
separator.  (The runes of a tag are ASCII, one byte each, so byte offsets and
rune offsets agree.) -/
def expandLoop (tag : Str) : Nat → List Str → List Str
  | 0, tags => tags
  | i + 1, tags =>
    match tag[i]? with
    | some r => if isSep r then expandLoop tag i (tags ++ [tag.take i]) else expandLoop tag i tags
    | none => expandLoop tag i tags

/-- The function `expandTag`: the trimmed, lowercased tag followed by what is
left of it before each separator, from the last separator to the first. -/
def expandTag (tag : Str) : List Str :=
  expandLoop (ToLower (TrimSpace tag)) ((ToLower (TrimSpace tag)).length - 1)
    [ToLower (TrimSpace tag)]

/-- The loop of `dedupe`: `found` is the set of strings seen so far, `deduped`
the output built so far. -/
def dedupeLoop : List Str → List Str → List Str → List Str
  | _, deduped, [] => deduped
  | found, deduped, str :: strs =>
    if str ∈ found then dedupeLoop found deduped strs
    else dedupeLoop (str :: found) (deduped ++ [str]) strs

/-- The function `dedupe`. -/
def dedupe (strs : List Str) : List Str := dedupeLoop [] [] strs

/-- The loop of `NewLocalizer` over the matches: `tags = append(tags, expandTag(langTag)...)`. -/
def expandAll : List Str → List Str → List Str
  | tags, [] => tags
  | tags, langTag :: langTags => expandAll (tags ++ expandTag langTag) langTags

/-- The field `LanguageTags` of the `Localizer` that `NewLocalizer(bundle, prefs)`
returns; it does not depend on the bundle. -/
def languageTags (prefs : Str) : List Str :=
  dedupe (expandAll [] (FindAllString prefs))

/-! ## Plural forms, rules, templates (declarations used by the files above) -/

/-- Modelled from the spec: the type `PluralForm` (its declaration is not in
the files embedded here).  The six CLDR categories and the sentinel `Invalid`,
meaning that no rule exists for the language. -/
inductive PluralForm where
  | Invalid | Zero | One | Two | Few | Many | Other
  deriving DecidableEq, Repr

/-- Modelled from the spec: the type `PluralRule` (its declaration is not in
the files embedded here); the code reads its field `PluralFormFunc`, a function
from operands to a plural form.  `Operands` is the type of the operands derived
from a quantity. -/
structure PluralRule (Operands : Type) where
  PluralFormFunc : Operands → PluralForm

/-- Modelled from the spec: the compiled template type `Template` (its
declaration is not in the files embedded here), represented by what its method
`Execute` returns on each template data. -/
structure Template (Data : Type) where
  Execute : Data → Str

/-- Modelled from the spec: the call `tmpl.Execute(data)` on a `*Template` that
may be nil.  Rendering a category with no compiled content returns the empty
string rather than faulting. -/
def Template.ExecuteNilSafe {Data : Type} (tmpl : Option (Template Data)) (data : Data) : Str :=
  match tmpl with
  | none => []
  | some t => t.Execute data

/-! ## `message_template.go` -/

/-- The struct `MessageTemplate`. -/
structure MessageTemplate (Data : Type) where
  ID : Str
  Description : Str
  PluralForms : PluralForm → Option (Template Data)

/-- The method `MessageTemplate.Execute`. -/
def MessageTemplate.Execute {Data : Type} (t : MessageTemplate Data) (pluralForm : PluralForm)
    (data : Data) : Str :=
  Template.ExecuteNilSafe (t.PluralForms pluralForm) data

/-! ## `bundle.go` -/

/-- The errors built with `fmt.Errorf` in `AddMessageTemplates` and `localize`,
with the arguments of their format strings. -/
inductive Error where
  /-- The error "no plural rule registered for %s". -/
  | noPluralRule (pluralID : Str)
  /-- The error "unable to pluralize %q because there no plural rule for %q". -/
  | unableToPluralize (id : Str) (langTag : Str)
  /-- An `invocationError` of `DefaultLocalizer.Localize`, with its name and its
  reason; its `args` are the arguments of the call. -/
  | invocation (name : Str) (reason : Str)
  /-- An error returned by a function whose source is not among the embedded
  files (`newOperands`, `NewPluralForm`, `NewTemplate`), with its message. -/
  | external (msg : Str)
  /-- The error "no unmarshaler registered for %s". -/
  | noUnmarshaler (format : Str)
  /-- The error "expected [%s][%s][%s] to be a string but got %#v", without the
  value. -/
  | expectedString (path : Str) (id : Str) (key : Str)
  /-- The error "[%s][%s] has a non-string key %#v", without the key. -/
  | nonStringKey (path : Str) (id : Str)
  /-- The error "[%s][%s][%s] has a non-string value %#v", without the value. -/
  | nonStringValue (path : Str) (id : Str) (key : Str)
  /-- The error "translation key %s in %s has invalid value: %#v", without the
  value. -/
  | invalidValue (id : Str) (path : Str)
  /-- The error "no language tag found in path: %s". -/
  | noLanguageTag (path : Str)
  deriving DecidableEq, Repr

/-- The struct `Bundle`.  `Operands`, `Data` and `UnmarshalFunc` are the types of
plural operands, of template data and of unmarshal functions.  A field is `none`
when the Go map is nil. -/
structure Bundle (Operands Data UnmarshalFunc : Type) where
  MessageTemplates : Option (Str → Option (Str → Option (MessageTemplate Data)))
  PluralRules : Option (Str → Option (PluralRule Operands))
  UnmarshalFuncs : Option (Str → Option UnmarshalFunc)

section
variable {Operands Data UnmarshalFunc : Type}

/-- The expression `b.PluralRules[langTag]` (nil when the map is nil). -/
def Bundle.rule (b : Bundle Operands Data UnmarshalFunc) (langTag : Str) :
    Option (PluralRule Operands) :=
  match b.PluralRules with
  | none => none
  | some rules => rules langTag

/-- The expression `b.MessageTemplates[langTag]` (nil when the map is nil). -/
def Bundle.templates (b : Bundle Operands Data UnmarshalFunc) (langTag : Str) :
    Option (Str → Option (MessageTemplate Data)) :=
  match b.MessageTemplates with
  | none => none
  | some m => m langTag

/-- The expression `b.MessageTemplates[langTag][id]` (nil when a map is nil). -/
def Bundle.template (b : Bundle Operands Data UnmarshalFunc) (langTag id : Str) :
    Option (MessageTemplate Data) :=
  match b.templates langTag with
  | none => none
  | some templates => templates id

/-- The loop of `AddMessageTemplates` that finds the plural id:
`for i, r := range langTag { if r == '-' || r == '_' { pluralID = langTag[:i]; break } }`.
The second argument is the index `i`, the third what is left to range over. -/
def pluralIDLoop (langTag : Str) : Nat → Str → Str
  | _, [] => langTag
  | i, r :: rs => if isSep r then langTag.take i else pluralIDLoop langTag (i + 1) rs

/-- The value of `pluralID` in `AddMessageTemplates` after its loop. -/
def pluralID (langTag : Str) : Str := pluralIDLoop langTag 0 langTag

/-- The assignment `m[key] = value` on a Go map. -/
def mapSet {V : Type} (m : Str → Option V) (key : Str) (value : V) : Str → Option V :=
  fun k => if k = key then some value else m k

/-- The last loop of `AddMessageTemplates`:
`for _, t := range messageTemplates { b.MessageTemplates[langTag][t.ID] = t }`,
on the inner map. -/
def addTemplatesLoop (inner : Str → Option (MessageTemplate Data)) :
    List (MessageTemplate Data) → Str → Option (MessageTemplate Data)
  | [] => inner
  | t :: ts => addTemplatesLoop (mapSet inner t.ID t) ts

/-- The rule table `AddMessageTemplates` works on: `b.PluralRules`, or the
built-in table `CLDRPluralRules()` (here `cldr`) when `b.PluralRules` is nil. -/
def Bundle.rulesOrDefault (cldr : Str → Option (PluralRule Operands))
    (b : Bundle Operands Data UnmarshalFunc) : Str → Option (PluralRule Operands) :=
  match b.PluralRules with
  | none => cldr
  | some rules => rules

/-- The method `Bundle.AddMessageTemplates`.  Returns the bundle after the call
and the error (`none` for nil).  `cldr` is the table that `CLDRPluralRules()`
returns (the function is not in the files embedded here). -/
def Bundle.AddMessageTemplates (cldr : Str → Option (PluralRule Operands))
    (b : Bundle Operands Data UnmarshalFunc) (langTag : Str)
    (messageTemplates : List (MessageTemplate Data)) :
    Bundle Operands Data UnmarshalFunc × Option Error :=
  match b.rulesOrDefault cldr (pluralID langTag) with
  | none =>
    ({ b with PluralRules := some (b.rulesOrDefault cldr) },
      some (Error.noPluralRule (pluralID langTag)))
  | some pluralRule =>
    ({ b with
        PluralRules := some (mapSet (b.rulesOrDefault cldr) langTag pluralRule)
        MessageTemplates :=
          some (mapSet (b.MessageTemplates.getD (fun _ => none)) langTag
            (addTemplatesLoop ((b.templates langTag).getD (fun _ => none)) messageTemplates)) },
      none)

/-! ## `localizer.go`: `Localizer`, `localize`, `pluralForm` -/

/-- The struct `Localizer`. -/
structure Localizer (Operands Data UnmarshalFunc : Type) where
  Bundle : Bundle Operands Data UnmarshalFunc
  LanguageTags : List Str

/-- The function `NewLocalizer`. -/
def NewLocalizer (bundle : Bundle Operands Data UnmarshalFunc) (prefs : Str) :
    Localizer Operands Data UnmarshalFunc :=
  { Bundle := bundle, LanguageTags := languageTags prefs }

/-- The method `Localizer.pluralForm`; `operands` is `none` for a nil pointer. -/
def Localizer.pluralForm (l : Localizer Operands Data UnmarshalFunc) (langTag : Str)
    (operands : Option Operands) : PluralForm :=
  match operands with
  | none => PluralForm.Other
  | some ops =>
    match l.Bundle.rule langTag with
    | none => PluralForm.Invalid
    | some pluralRule => pluralRule.PluralFormFunc ops

/-- The loop of `Localizer.localize` over the language tags still to try,
with the `return "", nil` that follows it. -/
def Localizer.localizeLoop (l : Localizer Operands Data UnmarshalFunc) (id : Str)
    (operands : Option Operands) (templateData : Data) : List Str → Str × Option Error
  | [] => ([], none)
  | langTag :: rest =>
    match l.Bundle.templates langTag with
    | none => localizeLoop l id operands templateData rest
    | some templates =>
      match templates id with
      | none => localizeLoop l id operands templateData rest
      | some template =>
        if l.pluralForm langTag operands = PluralForm.Invalid then
          ([], some (Error.unableToPluralize id langTag))
        else if template.Execute (l.pluralForm langTag operands) templateData ≠ [] then
          (template.Execute (l.pluralForm langTag operands) templateData, none)
        else localizeLoop l id operands templateData rest

/-- The method `Localizer.localize`: the text and the error (`none` for nil). -/
def Localizer.localize (l : Localizer Operands Data UnmarshalFunc) (id : Str)
    (operands : Option Operands) (templateData : Data) : Str × Option Error :=
  l.localizeLoop id operands templateData l.LanguageTags

end

/-! ## `localizer.go`: `parseArgs`, `isNumber`, `toMap`, `structToMap` -/

/-- The signed integer types that `isNumber` lists. -/
inductive IntKind where
  | int | int8 | int16 | int32 | int64
  deriving DecidableEq, Repr

/-- A field of a struct value, as reflection sees it: its name, whether it is
exported (`PkgPath == ""`), and its value. -/
structure Field (V : Type) where
  Name : Str
  Exported : Bool
  Value : V

/-- A Go value held in an `interface{}`, as far as `parseArgs` and `toMap` tell
values apart. -/
inductive Value where
  /-- The nil interface value. -/
  | nil : Value
  /-- A value of type `int`, `int8`, `int16`, `int32` or `int64`. -/
  | int (kind : IntKind) (n : Int) : Value
  /-- A value of type `string`. -/
  | str (s : Str) : Value
  /-- A non-nil `map[string]interface{}`. -/
  | map (m : Str → Option Value) : Value
  /-- The nil map of type `map[string]interface{}`. -/
  | nilMap : Value
  /-- A struct value, with its top-level fields in declaration order. -/
  | struct (fields : List (Field Value)) : Value
  /-- A non-nil pointer, with the value it points to. -/
  | ptr (elem : Value) : Value
  /-- A nil pointer. -/
  | nilPtr : Value
  /-- A value of any other type (unsigned integer, float, bool, slice, a map of
  another type, ...), named by its type. -/
  | other (typeName : Str) : Value

/-- The test `v == nil` on an `interface{}`. -/
def Value.isNil : Value → Bool
  | Value.nil => true
  | _ => false

/-- The function `isNumber`. -/
def isNumber : Value → Bool
  | Value.int _ _ => true
  | Value.str _ => true
  | _ => false

/-- The call `v.FieldByName(name).Interface()` on a struct value whose field
names are distinct: the value of the field with that name. -/
def fieldByName (fields : List (Field Value)) (name : Str) : Option Value :=
  (fields.find? (fun f => decide (f.Name = name))).map (fun f => f.Value)

/-- The loop of `structToMap` over the fields still to visit; `out` is the map
built so far and `all` the fields of the struct. -/
def structToMapLoop (all : List (Field Value)) :
    (Str → Option Value) → List (Field Value) → Str → Option Value
  | out, [] => out
  | out, field :: rest =>
    if field.Exported then
      match fieldByName all field.Name with
      | some v => structToMapLoop all (mapSet out field.Name v) rest
      | none => structToMapLoop all out rest
    else structToMapLoop all out rest

/-- The function `structToMap`. -/
def structToMap (fields : List (Field Value)) : Str → Option Value :=
  structToMapLoop fields (fun _ => none) fields

/-- The function `toMap`.  The outer `none` is a run-time panic (`Interface` called
on the zero `reflect.Value` that `Elem` returns for a nil pointer); the inner
`none` is the nil map. -/
def toMap : Value → Option (Option (Str → Option Value))
  | Value.map m => some (some m)
  | Value.nilMap => some none
  | Value.ptr elem => toMap elem
  | Value.nilPtr => none
  | Value.struct fields => some (some (structToMap fields))
  | _ => some none

/-- The function `indexOrNil` (`default_localizer.go`). -/
def indexOrNil (slice : List Value) (idx : Nat) : Value :=
  match slice[idx]? with
  | some v => v
  | none => Value.nil

/-- The first statement of `parseArgs`: the values of `count` and `data` after
`if argc := len(args); argc > 0 { ... }`. -/
def splitArgs : List Value → Value × Value
  | [] => (Value.nil, Value.nil)
  | a :: rest =>
    if isNumber a then
      (a, match rest with
        | [] => Value.nil
        | d :: _ => d)
    else (Value.nil, a)

/-- The second statement of `parseArgs`, on the values of `count` and `data`
after the first.  The result is `none` when the code panics: in `toMap`, or on
the assignment `dataMap["Count"] = count` to a nil map. -/
def mergeCount (count data : Value) : Option (Value × Value) :=
  if count.isNil = false then
    if data.isNil then some (count, Value.map (mapSet (fun _ => none) "Count".toList count))
    else
      match toMap data with
      | none => none
      | some none => none
      | some (some dataMap) => some (count, Value.map (mapSet dataMap "Count".toList count))
  else
    match toMap data with
    | none => none
    | some none => some (count, data)
    | some (some dataMap) =>
      match dataMap "Count".toList with
      | some c => some (c, data)
      | none => some (count, data)

/-- The function `parseArgs`: the quantity and the template data, or `none` when
the code panics. -/
def parseArgs (args : List Value) : Option (Value × Value) :=
  mergeCount (splitArgs args).1 (splitArgs args).2

/-! ## Functions of the package whose source is not among the embedded files -/

/-- The functions `newOperands`, `NewPluralForm` and `NewTemplate`, which the
embedded files call and whose source is not among them, taken as parameters. -/
structure Env (Operands : Type) where
  newOperands : Value → Option Operands × Option Error
  NewPluralForm : Str → Except Error PluralForm
  NewTemplate : Str → Except Error (Template Value)

/-- Modelled from the spec: what `NewPluralForm` answers on the six category
names that `Message.Template` passes to it (its source is not among the
embedded files). -/
def Env.RecognizesCategories {Operands : Type} (env : Env Operands) : Prop :=
  env.NewPluralForm "zero".toList = Except.ok PluralForm.Zero ∧
  env.NewPluralForm "one".toList = Except.ok PluralForm.One ∧
  env.NewPluralForm "two".toList = Except.ok PluralForm.Two ∧
  env.NewPluralForm "few".toList = Except.ok PluralForm.Few ∧
  env.NewPluralForm "many".toList = Except.ok PluralForm.Many ∧
  env.NewPluralForm "other".toList = Except.ok PluralForm.Other

/-! ## `message_template.go`: `NewMessageTemplate`; `message.go` -/

/-- The assignment `translation.PluralForms[pluralForm] = tmpl`. -/
def formSet {T : Type} (m : PluralForm → Option T) (key : PluralForm) (value : T) :
    PluralForm → Option T :=
  fun k => if k = key then some value else m k

/-- The loop of `NewMessageTemplate` over the entries of `data` still to visit,
in the order in which `range` visits them; `translation` is the template built
so far. -/
def newMessageTemplateLoop {Operands : Type} (env : Env Operands) :
    MessageTemplate Value → List (Str × Str) → Except Error (MessageTemplate Value)
  | translation, [] => Except.ok translation
  | translation, (k, v) :: rest =>
    if k = "description".toList then
      newMessageTemplateLoop env { translation with Description := v } rest
    else
      match env.NewPluralForm k with
      | Except.error err => Except.error err
      | Except.ok pluralForm =>
        match env.NewTemplate v with
        | Except.error err => Except.error err
        | Except.ok tmpl =>
          newMessageTemplateLoop env
            { translation with PluralForms := formSet translation.PluralForms pluralForm tmpl } rest

/-- The function `NewMessageTemplate`; `data` lists the entries of the map in
the order in which `range` visits them. -/
def NewMessageTemplate {Operands : Type} (env : Env Operands) (id : Str)
    (data : List (Str × Str)) : Except Error (MessageTemplate Value) :=
  newMessageTemplateLoop env { ID := id, Description := [], PluralForms := fun _ => none } data

/-- The struct `Message`. -/
structure Message where
  ID : Str
  Description : Str := []
  Zero : Str := []
  One : Str := []
  Two : Str := []
  Few : Str := []
  Many : Str := []
  Other : Str := []

/-- The map literal of `Message.Template`, its entries in the order of the
source.  (Go visits the entries of a map in an unspecified order; the keys are
distinct, so the order only decides which error is returned when several
contents fail to compile.) -/
def Message.entries (m : Message) : List (Str × Str) :=
  [("description".toList, m.Description), ("zero".toList, m.Zero), ("one".toList, m.One),
    ("two".toList, m.Two), ("few".toList, m.Few), ("many".toList, m.Many),
    ("other".toList, m.Other)]

/-- The method `Message.Template`. -/
def Message.Template {Operands : Type} (env : Env Operands) (m : Message) :
    Except Error (MessageTemplate Value) :=
  NewMessageTemplate env m.ID m.entries

/-- The content of a message for a plural form; none for `Invalid`. -/
def Message.content (m : Message) : PluralForm → Option Str
  | PluralForm.Invalid => none
  | PluralForm.Zero => some m.Zero
  | PluralForm.One => some m.One
  | PluralForm.Two => some m.Two
  | PluralForm.Few => some m.Few
  | PluralForm.Many => some m.Many
  | PluralForm.Other => some m.Other

/-! ## `localizer.go`: `Localize`; `default_localizer.go` -/

section
variable {Operands UnmarshalFunc : Type}

/-- The method `Localizer.Localize`; `none` when `parseArgs` panics. -/
def Localizer.Localize (env : Env Operands) (l : Localizer Operands Value UnmarshalFunc)
    (id : Str) (args : List Value) : Option (Str × Option Error) :=
  match parseArgs args with
  | none => none
  | some (pluralCount, templateData) =>
    some (l.localize id (env.newOperands pluralCount).1 templateData)

/-- The struct `DefaultLocalizer`. -/
structure DefaultLocalizer (Operands UnmarshalFunc : Type) where
  Localizer : Localizer Operands Value UnmarshalFunc
  DefaultLanguageTag : Str

/-- The function `NewDefaultLocalizer`. -/
def NewDefaultLocalizer (bundle : Bundle Operands Value UnmarshalFunc)
    (prefs defaultLanguageTag : Str) : DefaultLocalizer Operands UnmarshalFunc :=
  { Localizer := NewLocalizer bundle prefs, DefaultLanguageTag := defaultLanguageTag }

/-- The method `DefaultLocalizer.localize`. -/
def DefaultLocalizer.localize (env : Env Operands) (l : DefaultLocalizer Operands UnmarshalFunc)
    (message : Message) (pluralCount templateData : Value) : Str × Option Error :=
  match (l.Localizer.localize message.ID (env.newOperands pluralCount).1 templateData).2 with
  | some err => ([], some err)
  | none =>
    if (l.Localizer.localize message.ID (env.newOperands pluralCount).1 templateData).1 ≠ [] then
      ((l.Localizer.localize message.ID (env.newOperands pluralCount).1 templateData).1, none)
    else
      match message.Template env with
      | Except.error err => ([], some err)
      | Except.ok template =>
        if l.Localizer.pluralForm l.DefaultLanguageTag (env.newOperands pluralCount).1 =
            PluralForm.Invalid then
          ([], some (Error.unableToPluralize message.ID l.DefaultLanguageTag))
        else
          (template.Execute
            (l.Localizer.pluralForm l.DefaultLanguageTag (env.newOperands pluralCount).1)
            templateData, none)

/-- The first argument of `DefaultLocalizer.Localize`, by its dynamic type. -/
inductive IdOrMessage where
  /-- A `string`. -/
  | id (s : Str) : IdOrMessage
  /-- A non-nil `*Message`. -/
  | message (m : Message) : IdOrMessage
  /-- The nil `*Message`. -/
  | nilMessage : IdOrMessage
  /-- A value of any other type. -/
  | other (v : Value) : IdOrMessage

/-- The method `DefaultLocalizer.Localize`; `none` when the code panics (in
`parseArgs`, or on the nil `*Message`). -/
def DefaultLocalizer.Localize (env : Env Operands) (l : DefaultLocalizer Operands UnmarshalFunc)
    (idOrMessage : IdOrMessage) (args : List Value) : Option (Str × Option Error) :=
  match idOrMessage with
  | IdOrMessage.id v =>
    match indexOrNil args 0 with
    | Value.str defaultMessage =>
      some (l.localize env { ID := v, Other := defaultMessage } (Value.int IntKind.int 0)
        (indexOrNil args 1))
    | _ =>
      some ([], some (Error.invocation "Localize".toList
        "expected second parameter to be a string".toList))
  | IdOrMessage.message v =>
    match parseArgs args with
    | none => none
    | some (pluralCount, templateData) => some (l.localize env v pluralCount templateData)
  | IdOrMessage.nilMessage => none
  | IdOrMessage.other _ =>
    some ([], some (Error.invocation "Localize".toList
      "expected first argument to be of type string, *SingleMessage, or *PluralMessage".toList))

/-- The function `NewBundle`; `json` is `json.Unmarshal` and `cldr` the table
that `CLDRPluralRules()` returns. -/
def NewBundle {Data : Type} (cldr : Str → Option (PluralRule Operands)) (json : UnmarshalFunc) :
    Bundle Operands Data UnmarshalFunc :=
  { MessageTemplates := none
    PluralRules := some cldr
    UnmarshalFuncs := some (fun format => if format = "json".toList then some json else none) }

/-- The bundles reached from an empty `Bundle` or from `NewBundle()` by a
sequence of calls of `AddMessageTemplates`, successful or not. -/
inductive Reachable {Data : Type} (cldr : Str → Option (PluralRule Operands)) :
    Bundle Operands Data UnmarshalFunc → Prop where
  | empty : Reachable cldr { MessageTemplates := none, PluralRules := none, UnmarshalFuncs := none }
  | newBundle (json : UnmarshalFunc) : Reachable cldr (NewBundle cldr json)
  | add (b : Bundle Operands Data UnmarshalFunc) (langTag : Str)
      (messageTemplates : List (MessageTemplate Data)) :
      Reachable cldr b → Reachable cldr (b.AddMessageTemplates cldr langTag messageTemplates).1

end

/-- Modelled from the spec: the rules of the table that `CLDRPluralRules()` returns
(its source is not among the embedded files) are plural rules in the sense of
the data model, functions from operands to a category that never return
`Invalid`. -/
def ValidRuleTable {Operands : Type} (cldr : Str → Option (PluralRule Operands)) : Prop :=
  ∀ t r, cldr t = some r → ∀ ops, r.PluralFormFunc ops ≠ PluralForm.Invalid

/-! ## `bundle.go`: message files -/

/-- The value that an unmarshal function stores under an id of
`map[string]interface{}`, by the cases of the type switch of
`ParseMessageFileBytes`.  The entries of a map come in the order in which
`range` visits them. -/
inductive Raw where
  /-- A `string`. -/
  | str (s : Str)
  /-- A `map[string]interface{}`. -/
  | strMap (entries : List (Str × Value))
  /-- A `map[interface{}]interface{}`. -/
  | anyMap (entries : List (Value × Value))
  /-- A value of any other type. -/
  | other

/-- The type `UnmarshalFunc`: the function fills `raw` from the bytes or returns
an error.  The list holds the entries of `raw` in the order in which `range`
visits them. -/
abbrev UnmarshalFn : Type := List Nat → Except Error (List (Str × Raw))

/-- The loop over a `map[string]interface{}` in `ParseMessageFileBytes`. -/
def strdataStrMap (path id : Str) : List (Str × Value) → Except Error (List (Str × Str))
  | [] => Except.ok []
  | (k, Value.str vstr) :: rest =>
    match strdataStrMap path id rest with
    | Except.error e => Except.error e
    | Except.ok strdata => Except.ok ((k, vstr) :: strdata)
  | (k, _) :: _ => Except.error (Error.expectedString path id k)

/-- The loop over a `map[interface{}]interface{}` in `ParseMessageFileBytes`. -/
def strdataAnyMap (path id : Str) : List (Value × Value) → Except Error (List (Str × Str))
  | [] => Except.ok []
  | (Value.str kstr, Value.str vstr) :: rest =>
    match strdataAnyMap path id rest with
    | Except.error e => Except.error e
    | Except.ok strdata => Except.ok ((kstr, vstr) :: strdata)
  | (Value.str kstr, _) :: _ => Except.error (Error.nonStringValue path id kstr)
  | (_, _) :: _ => Except.error (Error.nonStringKey path id)

/-- The type switch of `ParseMessageFileBytes`: the string data built from the
value under an id, its entries in the order in which the loops above visit
them.  (The keys of a map are distinct, and `NewMessageTemplate` visits the
entries of `strdata` in an order of its own; the order only decides which
error is returned when several entries are refused.) -/
def strdataOf (path id : Str) : Raw → Except Error (List (Str × Str))
  | Raw.str value => Except.ok [("other".toList, value)]
  | Raw.strMap entries => strdataStrMap path id entries
  | Raw.anyMap entries => strdataAnyMap path id entries
  | Raw.other => Except.error (Error.invalidValue id path)

/-- The loop `for id, data := range raw` of `ParseMessageFileBytes` and of
`ParseTranslationFileBytes`; `mk` is `NewMessageTemplate` or `NewTranslation`. -/
def parseRawLoop {T : Type} (mk : Str → List (Str × Str) → Except Error T) (path : Str) :
    List (Str × Raw) → Except Error (List T)
  | [] => Except.ok []
  | (id, data) :: rest =>
    match strdataOf path id data with
    | Except.error e => Except.error e
    | Except.ok strdata =>
      match mk id strdata with
      | Except.error e => Except.error e
      | Except.ok t =>
        match parseRawLoop mk path rest with
        | Except.error e => Except.error e
        | Except.ok ts => Except.ok (t :: ts)

/-- The loop of `parseFormat` in `v2-beta`, entered with `i + 1` for the index
`i`; `isPathSeparator` is `os.IsPathSeparator`. -/
def parseFormatLoop (isPathSeparator : Char → Bool) (path : Str) : Nat → Str
  | 0 => []
  | i + 1 =>
    match path.get? i with
    | none => []
    | some c =>
      if isPathSeparator c then []
      else if c = '.' then path.drop (i + 1)
      else parseFormatLoop isPathSeparator path i

/-- The function `parseFormat` of `v2-beta`. -/
def parseFormat (isPathSeparator : Char → Bool) (path : Str) : Str :=
  parseFormatLoop isPathSeparator path path.length

/-- The expression `path[:len(path)-len(format)]` of `ParseMessageFileBytes`. -/
def pathNoFormat (isPathSeparator : Char → Bool) (path : Str) : Str :=
  path.take (path.length - (parseFormat isPathSeparator path).length)

/-- The lookup `b.UnmarshalFuncs[format]`. -/
def Bundle.unmarshalFunc {Operands Data UnmarshalFunc : Type}
    (b : Bundle Operands Data UnmarshalFunc) (format : Str) : Option UnmarshalFunc :=
  match b.UnmarshalFuncs with
  | none => none
  | some m => m format

/-- The method `RegisterUnmarshalFunc`. -/
def Bundle.RegisterUnmarshalFunc {Operands Data UnmarshalFunc : Type}
    (b : Bundle Operands Data UnmarshalFunc) (format : Str) (unmarshalFunc : UnmarshalFunc) :
    Bundle Operands Data UnmarshalFunc :=
  { b with
    UnmarshalFuncs := some (mapSet (b.UnmarshalFuncs.getD (fun _ => none)) format unmarshalFunc) }

/-- The method `ParseMessageFileBytes` of `v2-beta`: the bundle after the call and
the error returned. -/
def Bundle.ParseMessageFileBytes {Operands : Type} (env : Env Operands)
    (cldr : Str → Option (PluralRule Operands)) (isPathSeparator : Char → Bool)
    (b : Bundle Operands Value UnmarshalFn) (buf : List Nat) (path : Str) :
    Bundle Operands Value UnmarshalFn × Option Error :=
  if buf.length = 0 then (b, none)
  else
    match b.unmarshalFunc (parseFormat isPathSeparator path) with
    | none => (b, some (Error.noUnmarshaler (parseFormat isPathSeparator path)))
    | some unmarshalFunc =>
      match unmarshalFunc buf with
      | Except.error e => (b, some e)
      | Except.ok raw =>
        match parseRawLoop (NewMessageTemplate env) path raw with
        | Except.error e => (b, some e)
        | Except.ok messageTemplates =>
          match (FindAllString (pathNoFormat isPathSeparator path)).getLast? with
          | none => (b, some (Error.noLanguageTag path))
          | some langTag => b.AddMessageTemplates cldr langTag messageTemplates

/-! ## `v2/i18n/bundle.go` -/

namespace V2

/-- The loop of `parseFormat` in `v2`, entered with `i + 1` for the index `i`. -/
def parseFormatLoop (path : Str) : Nat → Str
  | 0 => path
  | i + 1 =>
    match path.get? i with
    | none => path
    | some c =>
      if c = '/' then path
      else if c = '.' then path.drop (i + 1)
      else parseFormatLoop path i

/-- The function `parseFormat` of `v2`. -/
def parseFormat (path : Str) : Str := parseFormatLoop path path.length

/-- The method `AddTranslations` of `v2`, which is `AddMessageTemplates` with
`Translation` for `MessageTemplate` and `Translations` for `MessageTemplates`. -/
def AddTranslations {Operands : Type} (cldr : Str → Option (PluralRule Operands))
    (b : Bundle Operands Value UnmarshalFn) (langTag : Str)
    (translations : List (MessageTemplate Value)) :
    Bundle Operands Value UnmarshalFn × Option Error :=
  b.AddMessageTemplates cldr langTag translations

/-- The method `ParseTranslationFileBytes` of `v2`; `NewTranslation` is a
parameter, and the result is `none` when the index expression
`langTags[len(langTags)-1]` panics. -/
def ParseTranslationFileBytes {Operands : Type}
    (NewTranslation : Str → List (Str × Str) → Except Error (MessageTemplate Value))
    (cldr : Str → Option (PluralRule Operands))
    (b : Bundle Operands Value UnmarshalFn) (buf : List Nat) (path : Str) :
    Option (Bundle Operands Value UnmarshalFn × Option Error) :=
  if buf.length = 0 then some (b, none)
  else
    match b.unmarshalFunc (parseFormat path) with
    | none => some (b, some (Error.noUnmarshaler (parseFormat path)))
    | some unmarshalFunc =>
      match unmarshalFunc buf with
      | Except.error e => some (b, some e)
      | Except.ok raw =>
        match parseRawLoop NewTranslation path raw with
        | Except.error e => some (b, some e)
        | Except.ok translations =>
          match (FindAllString path).getLast? with
          | none => none
          | some langTag => some (AddTranslations cldr b langTag translations)

end V2

/-! ## `v2/i18n/invocation_error.go` -/

/-- The struct `invocationError`. -/
structure invocationError where
  name : Str
  args : List Value
  reason : Str

/-- The function `strings.Repeat`. -/
def Repeat (s : Str) : Nat → Str
  | 0 => []
  | count + 1 => s ++ Repeat s count

/-- What `fmt` prints for an operand, where the package leaves it open: the
operand in Go syntax (the verb `%#v`), an operand that is no string under the
verb `%s`, and the operands that no verb consumes. -/
structure Fmt where
  sharpV : Value → Str
  other : Value → Str
  extra : List Value → Str

/-- The verb `%s` of `fmt`: a string is printed as it is. -/
def Fmt.verbS (fmt : Fmt) : Value → Str
  | Value.str s => s
  | v => fmt.other v

/-- Where the scan of a format stands: in the text, after `%`, after `%#`. -/
inductive FmtState where
  | text | percent | sharp

/-- The end of `fmt.Sprintf`: the operands that no verb has consumed are
reported. -/
def sprintfEnd (fmt : Fmt) : List Value → Str
  | [] => []
  | a :: operands => fmt.extra (a :: operands)

/-- Modelled from the Go standard library: the scan of `fmt.Sprintf` over a
format, for the verbs `%s` and `%#v`.  The text of the format is copied, each
verb prints the next operand, a verb without operand prints `%!s(MISSING)` or
`%!v(MISSING)`, and the operands left over are reported at the end.  (Another
verb is copied as text; no format of the package holds one.) -/
def sprintf (fmt : Fmt) : FmtState → Str → List Value → Str
  | FmtState.text, [], operands => sprintfEnd fmt operands
  | FmtState.text, c :: format, operands =>
    if c = '%' then sprintf fmt FmtState.percent format operands
    else c :: sprintf fmt FmtState.text format operands
  | FmtState.percent, [], operands => "%!(NOVERB)".toList ++ sprintfEnd fmt operands
  | FmtState.percent, c :: format, operands =>
    if c = 's' then
      match operands with
      | a :: remaining => fmt.verbS a ++ sprintf fmt FmtState.text format remaining
      | [] => "%!s(MISSING)".toList ++ sprintf fmt FmtState.text format []
    else if c = '#' then sprintf fmt FmtState.sharp format operands
    else '%' :: c :: sprintf fmt FmtState.text format operands
  | FmtState.sharp, [], operands => "%!(NOVERB)".toList ++ sprintfEnd fmt operands
  | FmtState.sharp, c :: format, operands =>
    if c = 'v' then
      match operands with
      | a :: remaining => fmt.sharpV a ++ sprintf fmt FmtState.text format remaining
      | [] => "%!v(MISSING)".toList ++ sprintf fmt FmtState.text format []
    else '%' :: '#' :: c :: sprintf fmt FmtState.text format operands

/-- The function `fmt.Sprintf`. -/
def Sprintf (fmt : Fmt) (format : Str) (operands : List Value) : Str :=
  sprintf fmt FmtState.text format operands

/-- The format that the method `Error` builds, by the number of arguments. -/
def invocationError.format (err : invocationError) : Str :=
  "invalid invocation %s".toList ++
    (match err.args.length with
      | 0 => "()".toList
      | 1 => "(%#v)".toList
      | argc + 2 => "(%#v".toList ++ Repeat ", %#v".toList (argc + 2 - 1) ++ ")".toList) ++
    "; %s".toList

/-- The method `invocationError.Error`. -/
def invocationError.Error (fmt : Fmt) (err : invocationError) : Str :=
  Sprintf fmt err.format ([Value.str err.name] ++ (err.args ++ [Value.str err.reason]))

/-! ## Vocabulary of the statements about `parseArgs` -/

/-- The key/value mapping of the exported top-level fields of a record, in the
words of the specification: under a name, the value of the exported field of
that name, taken as it is. -/
def exportedFields (fields : List (Field Value)) : Str → Option Value :=
  fun k => (fields.find? (fun f => f.Exported && decide (f.Name = k))).map (fun f => f.Value)

/-- A string of decimal digits, not empty. -/
def isDigits (s : Str) : Bool := !s.isEmpty && s.all Char.isDigit

/-- A numeric string, in the words of the specification a string representing a
decimal number: digits, with an optional leading `-` and an optional fraction
of digits after a `.`. -/
def isNumericString (s : Str) : Bool :=
  let body := match s with
    | '-' :: r => r
    | _ => s
  isDigits body ||
    (isDigits (body.takeWhile (fun c => c != '.')) &&
      isDigits ((body.dropWhile (fun c => c != '.')).drop 1))

/-! ## The tag grammar (vocabulary of the statements) -/

/-- A segment of a language tag: two or more ASCII letters. -/
def IsSegment (w : Str) : Prop := 2 ≤ w.length ∧ ∀ c ∈ w, c.isAlpha = true

/-- The text of a sequence of groups, each a separator followed by a segment. -/
def groupsText : List (Char × Str) → Str
  | [] => []
  | g :: gs => g.1 :: g.2 ++ groupsText gs

/-- The tag with first segment `w` and further groups `gs`. -/
def tagOf (w : Str) (gs : List (Char × Str)) : Str := w ++ groupsText gs

/-- The groups of a well-formed tag: a separator `-` or `_`, then a segment. -/
def IsGroups (gs : List (Char × Str)) : Prop := ∀ g ∈ gs, isSep g.1 = true ∧ IsSegment g.2

/-- The primary subtag of a language tag, in the words of the specification: the
prefix of the tag before its first `-` or `_`, the whole tag when it has neither. -/
def primarySubtag (langTag : Str) : Str := langTag.takeWhile (fun c => !isSep c)

instance (w : Str) : Decidable (IsSegment w) := by
  unfold IsSegment; exact inferInstance

instance (gs : List (Char × Str)) : Decidable (IsGroups gs) := by
  unfold IsGroups; exact inferInstance

/-! ## Concrete data for the worked instances -/

/-- The zero value of `Bundle` (`var bundle i18n.Bundle`), with natural numbers
for operands and no template data. -/
def zeroBundle : Bundle Nat Unit Unit :=
  { MessageTemplates := none, PluralRules := none, UnmarshalFuncs := none }

/-- A plural rule on whole numbers: `One` for 1, `Other` otherwise. -/
def enRule : PluralRule Nat :=
  { PluralFormFunc := fun n => if n = 1 then PluralForm.One else PluralForm.Other }

/-- A built-in rule table with a single family, `en`. -/
def enOnly : Str → Option (PluralRule Nat) :=
  fun t => if t = "en".toList then some enRule else none

/-- A message template `HelloWorld` with content for `Other` only. -/
def helloTemplate : MessageTemplate Unit :=
  { ID := "HelloWorld".toList
    Description := []
    PluralForms := fun pf =>
      if pf = PluralForm.Other then some { Execute := fun _ => "Hello World!".toList } else none }

/-- A second template with the same id and another text. -/
def helloTemplate2 : MessageTemplate Unit :=
  { ID := "HelloWorld".toList
    Description := []
    PluralForms := fun pf =>
      if pf = PluralForm.Other then some { Execute := fun _ => "Hello!".toList } else none }

/-- A bundle with the rule table `enOnly` and the template `HelloWorld` under `en`,
entered in the maps directly. -/
def enBundle : Bundle Nat Unit Unit :=
  { MessageTemplates := some (fun t =>
      if t = "en".toList then
        some (fun id => if id = "HelloWorld".toList then some helloTemplate else none)
      else none)
    PluralRules := some enOnly
    UnmarshalFuncs := none }

/-- A bundle whose tag `xx` holds the template `HelloWorld` but has no plural rule. -/
def xxBundle : Bundle Nat Unit Unit :=
  { MessageTemplates := some (fun t =>
      if t = "xx".toList then
        some (fun id => if id = "HelloWorld".toList then some helloTemplate else none)
      else none)
    PluralRules := some enOnly
    UnmarshalFuncs := none }

/-- A record with an exported field `Person`, an unexported field `age` and an
exported field `Count`. -/
def bobStruct : List (Field Value) :=
  [{ Name := "Person".toList, Exported := true, Value := Value.str "Bob".toList },
    { Name := "age".toList, Exported := false, Value := Value.int IntKind.int 40 },
    { Name := "Count".toList, Exported := true, Value := Value.int IntKind.int 3 }]

/-- The mapping `{"Person": "Bob"}`. -/
def bobMap : Str → Option Value :=
  fun k => if k = "Person".toList then some (Value.str "Bob".toList) else none

/-- The value of a string of decimal digits. -/
def digitsValue (s : Str) : Nat := s.foldl (fun acc c => 10 * acc + (c.toNat - 48)) 0

/-- Modelled from the spec: a stand-in for `newOperands` (its source is not among
the embedded files) with natural numbers for operands.  A signed integer gives
its absolute value and a string of digits its value; anything else is refused.
(The function of the package also accepts signed and fractional decimal
strings; none is used below.) -/
def exNewOperands : Value → Option Nat × Option Error
  | Value.int _ n => (some n.natAbs, none)
  | Value.str s =>
    if isDigits s then (some (digitsValue s), none)
    else (none, some (Error.external "invalid quantity".toList))
  | _ => (none, some (Error.external "invalid quantity type".toList))

/-- Modelled from the spec: a stand-in for `NewPluralForm` (its source is not
among the embedded files), which recognizes the six category names. -/
def exNewPluralForm (src : Str) : Except Error PluralForm :=
  if src = "zero".toList then Except.ok PluralForm.Zero
  else if src = "one".toList then Except.ok PluralForm.One
  else if src = "two".toList then Except.ok PluralForm.Two
  else if src = "few".toList then Except.ok PluralForm.Few
  else if src = "many".toList then Except.ok PluralForm.Many
  else if src = "other".toList then Except.ok PluralForm.Other
  else Except.error (Error.external "invalid plural form".toList)

/-- Whether a text contains `{{`, the opening of a template action. -/
def hasAction : Str → Bool
  | [] => false
  | [_] => false
  | c :: d :: r => (c == '{' && d == '{') || hasAction (d :: r)

/-- Modelled from the spec: a stand-in for `NewTemplate` (its source is not among
the embedded files).  A text without `{{` compiles to a template that renders
the text itself; a text with `{{` is refused.  (The function of the package
compiles the well-formed ones among these; below the only such text is the
ill-formed `{{`.) -/
def exNewTemplate (src : Str) : Except Error (Template Value) :=
  if hasAction src then Except.error (Error.external "template: unclosed action".toList)
  else Except.ok { Execute := fun _ => src }

/-- The stand-ins together. -/
def exEnv : Env Nat :=
  { newOperands := exNewOperands, NewPluralForm := exNewPluralForm, NewTemplate := exNewTemplate }

/-- A plural rule on whole numbers in the manner of French: `One` for 0 and 1,
`Other` otherwise. -/
def frRule : PluralRule Nat :=
  { PluralFormFunc := fun n => if n ≤ 1 then PluralForm.One else PluralForm.Other }

/-- A built-in rule table with the families `en` and `es` (rule `enRule`) and
`fr` (rule `frRule`). -/
def cldrEx : Str → Option (PluralRule Nat) :=
  fun t =>
    if t = "en".toList then some enRule
    else if t = "es".toList then some enRule
    else if t = "fr".toList then some frRule
    else none

/-- A message template `HelloWorld` with the content `Hola Mundo!` for `Other`. -/
def holaTemplate : MessageTemplate Value :=
  { ID := "HelloWorld".toList
    Description := []
    PluralForms := fun pf =>
      if pf = PluralForm.Other then some { Execute := fun _ => "Hola Mundo!".toList } else none }

/-- The bundle of `ExampleDefaultLocalizer_MustLocalize`: `NewBundle()`, then
`HelloWorld = "Hola Mundo!"` registered under `es`. -/
def esBundle : Bundle Nat Value Unit :=
  ((NewBundle cldrEx ()).AddMessageTemplates cldrEx "es".toList [holaTemplate]).1

/-- A bundle without any template and with the rule table `cldrEx`. -/
def rulesBundle : Bundle Nat Value Unit := NewBundle cldrEx ()

/-! ## Further vocabulary and concrete data -/

/-- The function `os.IsPathSeparator` on Unix, where the path separator is `/`. -/
def IsPathSeparator (c : Char) : Bool := c == '/'

/-- A string in which no two ASCII letters are adjacent: its letters are
isolated single letters. -/
def isolated : Str → Bool
  | a :: b :: r => !(a.isAlpha && b.isAlpha) && isolated (b :: r)
  | _ => true

/-- A string in which no two ASCII letters are adjacent. -/
def Isolated (s : Str) : Prop := isolated s = true

instance (s : Str) : Decidable (Isolated s) := by
  unfold Isolated; exact inferInstance

/-- The template data that `parseArgs` builds from the single argument `"abc"`:
the mapping with `abc` under `Count`. -/
def abcData : Value := Value.map (mapSet (fun _ => none) "Count".toList (Value.str "abc".toList))

/-- The data of `everythingMessageTemplate` (`bundle_test.go`). -/
def everythingData : List (Str × Str) :=
  [("description".toList, "everything description".toList),
    ("zero".toList, "zero translation".toList), ("one".toList, "one translation".toList),
    ("two".toList, "two translation".toList), ("few".toList, "few translation".toList),
    ("many".toList, "many translation".toList), ("other".toList, "other translation".toList)]

/-! ## Vocabulary of the statements about message files -/

/-- A malformed raw value: neither a string nor a mapping from strings to
strings.  It is a value of another type, or a map that holds a value that is
not a string, or a key that is not a string. -/
def Raw.Malformed : Raw → Prop
  | Raw.str _ => False
  | Raw.strMap entries => ∃ kv ∈ entries, ∀ s, kv.2 ≠ Value.str s
  | Raw.anyMap entries => ∃ kv ∈ entries, (∀ s, kv.1 ≠ Value.str s) ∨ ∀ s, kv.2 ≠ Value.str s
  | Raw.other => True

/-! ## Concrete data for the worked instances on message files -/

/-- The data of `TestJSON` (`bundle_test.go`) once unmarshaled. -/
def testRaw : List (Str × Raw) :=
  [("simple".toList, Raw.str "simple translation".toList),
    ("detail".toList, Raw.strMap [("description".toList, Value.str "detail description".toList),
      ("other".toList, Value.str "detail translation".toList)]),
    ("everything".toList, Raw.strMap (everythingData.map (fun kv => (kv.1, Value.str kv.2))))]

/-- The templates `simpleMessageTemplate`, `detailMessageTemplate` and
`everythingMessageTemplate` of `bundle_test.go`, with the stand-ins `exEnv`. -/
def testTemplates : List (MessageTemplate Value) :=
  [{ ID := "simple".toList
     Description := []
     PluralForms := formSet (fun _ => none) PluralForm.Other
       { Execute := fun _ => "simple translation".toList } },
    { ID := "detail".toList
      Description := "detail description".toList
      PluralForms := formSet (fun _ => none) PluralForm.Other
        { Execute := fun _ => "detail translation".toList } },
    { ID := "everything".toList
      Description := "everything description".toList
      PluralForms :=
        formSet (formSet (formSet (formSet (formSet (formSet (fun _ => none)
          PluralForm.Zero { Execute := fun _ => "zero translation".toList })
          PluralForm.One { Execute := fun _ => "one translation".toList })
          PluralForm.Two { Execute := fun _ => "two translation".toList })
          PluralForm.Few { Execute := fun _ => "few translation".toList })
          PluralForm.Many { Execute := fun _ => "many translation".toList })
          PluralForm.Other { Execute := fun _ => "other translation".toList } }]

/-- Modelled from the spec: a stand-in for `json.Unmarshal` (an external
unmarshaler), which yields the data of `TestJSON` whatever the bytes. -/
def exUnmarshal : UnmarshalFn := fun _ => Except.ok testRaw

/-- The bundle of `TestJSON`: the zero `Bundle` with an unmarshal function
registered for `json`. -/
def testBundle : Bundle Nat Value UnmarshalFn :=
  Bundle.RegisterUnmarshalFunc
    { MessageTemplates := none, PluralRules := none, UnmarshalFuncs := none }
    "json".toList exUnmarshal

/-- Modelled from the spec: a stand-in for `toml.Unmarshal` (an external
unmarshaler), which yields the data `HelloWorld = "Hola Mundo!"` of
`ExampleTranslator_MustTranslate` whatever the bytes. -/
def tomlUnmarshal : UnmarshalFn :=
  fun _ => Except.ok [("HelloWorld".toList, Raw.str "Hola Mundo!".toList)]

/-- The bundle of `ExampleTranslator_MustTranslate` before the file is parsed:
`NewBundle()` with an unmarshal function registered for `toml`. -/
def tomlBundle : Bundle Nat Value UnmarshalFn :=
  (NewBundle cldrEx exUnmarshal).RegisterUnmarshalFunc "toml".toList tomlUnmarshal

/-! ## Concrete data for the worked instances on fallback -/

/-- A message template `HelloWorld` with content for `One` only. -/
def oneTemplate : MessageTemplate Unit :=
  { ID := "HelloWorld".toList
    Description := []
    PluralForms := fun pf =>
      if pf = PluralForm.One then some { Execute := fun _ => "One World!".toList } else none }

/-- A bundle with the rule `enRule` under `en-us` and `en`, the template
`oneTemplate` under `en-us` and the template `helloTemplate` under `en`. -/
def fallbackBundle : Bundle Nat Unit Unit :=
  { MessageTemplates := some (fun t =>
      if t = "en-us".toList then
        some (fun id => if id = "HelloWorld".toList then some oneTemplate else none)
      else if t = "en".toList then
        some (fun id => if id = "HelloWorld".toList then some helloTemplate else none)
      else none)
    PluralRules := some (fun t =>
      if t = "en-us".toList then some enRule else if t = "en".toList then some enRule else none)
    UnmarshalFuncs := none }

/-- The bundle of `TestJSON` after the file `en-US.json` is parsed. -/
def parsedBundle : Bundle Nat Value UnmarshalFn :=
  (testBundle.ParseMessageFileBytes exEnv cldrEx IsPathSeparator [123, 125]
    "en-US.json".toList).1

/-! ## Vocabulary and concrete data of the statements about `invocationError` -/

/-- The function `strings.Join`. -/
def Join : List Str → Str → Str
  | [], _ => []
  | [a], _ => a
  | a :: b :: rest, sep => a ++ sep ++ Join (b :: rest) sep

/-- Modelled from the Go standard library: the verb `%#v` on a string without
special runes, the string between double quotes; a stand-in on other values. -/
def exFmt : Fmt :=
  { sharpV := fun v =>
      match v with
      | Value.str s => '"' :: s ++ ['"']
      | _ => "?".toList
    other := fun _ => "?".toList
    extra := fun _ => "%!(EXTRA)".toList }

/-! ## Vocabulary of the statements about the faults of `parseArgs` -/

/-- The value at the end of a chain of non-nil pointers; a value that is no
non-nil pointer is its own. -/
def Value.pointee : Value → Value
  | Value.ptr elem => elem.pointee
  | v => v

/-- A non-nil key/value mapping or a record: the values in which `toMap` finds
entries. -/
def Value.holdsEntries : Value → Bool
  | Value.map _ => true
  | Value.struct _ => true
  | _ => false

/-- A nil pointer. -/
def Value.isNilPtr : Value → Bool
  | Value.nilPtr => true
  | _ => false

/-! # Theorems -/

/-! ## Characters -/

theorem isAlpha_iff (c : Char) :
    c.isAlpha = true ↔ (65 ≤ c.toNat ∧ c.toNat ≤ 90) ∨ (97 ≤ c.toNat ∧ c.toNat ≤ 122) := by
  have h1 : (c.val ≥ 65 ∧ c.val ≤ 90) ↔ (65 ≤ c.toNat ∧ c.toNat ≤ 90) := Iff.rfl
  have h2 : (c.val ≥ 97 ∧ c.val ≤ 122) ↔ (97 ≤ c.toNat ∧ c.toNat ≤ 122) := Iff.rfl
  rw [← h1, ← h2]
  simp [Char.isAlpha, Char.isUpper, Char.isLower]

theorem forall_small_char (P : Char → Prop) (h : ∀ n, n ≤ 122 → P (Char.ofNat n)) (c : Char)
    (hc : c.toNat ≤ 122) : P c := by
  have := h c.toNat hc
  rwa [Char.ofNat_toNat] at this

theorem small_facts : ∀ n, n ≤ 122 → (Char.ofNat n).isAlpha = true →
    (isSep (Char.ofNat n) = false ∧ isSpace (Char.ofNat n) = false ∧
      (Char.ofNat n).toLower.isAlpha = true ∧ isSep (Char.ofNat n).toLower = false) := by
  decide

theorem alpha_facts {c : Char} (h : c.isAlpha = true) :
    isSep c = false ∧ isSpace c = false ∧ c.toLower.isAlpha = true ∧ isSep c.toLower = false := by
  have hc : c.toNat ≤ 122 := by
    rcases (isAlpha_iff c).1 h with h | h <;> omega
  exact forall_small_char (fun c => c.isAlpha = true →
    (isSep c = false ∧ isSpace c = false ∧ c.toLower.isAlpha = true ∧ isSep c.toLower = false))
    small_facts c hc h

theorem toLower_of_not_isAlpha {c : Char} (h : c.isAlpha = false) : c.toLower = c := by
  have h1 : ¬ ((65 ≤ c.toNat ∧ c.toNat ≤ 90) ∨ (97 ≤ c.toNat ∧ c.toNat ≤ 122)) := by
    rw [← isAlpha_iff]; simp [h]
  unfold Char.toLower
  simp only
  split
  · omega
  · rfl

theorem isSep_toLower (c : Char) : isSep c.toLower = isSep c := by
  cases h : c.isAlpha
  · rw [toLower_of_not_isAlpha h]
  · rw [(alpha_facts h).1, (alpha_facts h).2.2.2]

theorem isAlpha_of_isSep {c : Char} (h : isSep c = true) : c.isAlpha = false := by
  cases h1 : c.isAlpha
  · rfl
  · rw [(alpha_facts h1).1] at h; cases h

/-! ## The regular expression on a well-formed tag -/

theorem takeWhile_alpha_append (w r : Str) (hw : ∀ c ∈ w, c.isAlpha = true)
    (hr : ∀ c ∈ r.head?, c.isAlpha = false) :
    (w ++ r).takeWhile Char.isAlpha = w ∧ (w ++ r).dropWhile Char.isAlpha = r := by
  induction w with
  | nil =>
    cases r with
    | nil => simp
    | cons c r => simp [List.takeWhile, List.dropWhile, hr c (by simp)]
  | cons a w ih =>
    have ha : a.isAlpha = true := hw a (by simp)
    have := ih (fun c hc => hw c (by simp [hc]))
    simp [List.takeWhile, List.dropWhile, ha, this]

theorem letters2_append (w r : Str) (hw : IsSegment w) (hr : ∀ c ∈ r.head?, c.isAlpha = false) :
    letters2 (w ++ r) = some (w, r) := by
  obtain ⟨h1, h2⟩ := takeWhile_alpha_append w r hw.2 hr
  unfold letters2
  rw [h1, h2, if_pos hw.1]

theorem groupsText_append (gs hs : List (Char × Str)) :
    groupsText (gs ++ hs) = groupsText gs ++ groupsText hs := by
  induction gs with
  | nil => rfl
  | cons g gs ih => simp [groupsText, ih]

theorem groupsText_head (gs : List (Char × Str)) (hgs : IsGroups gs) (r : Str)
    (hr : ∀ c ∈ r.head?, c.isAlpha = false) :
    ∀ c ∈ (groupsText gs ++ r).head?, c.isAlpha = false := by
  cases gs with
  | nil => simpa [groupsText] using hr
  | cons g gs =>
    intro c hc
    simp [groupsText] at hc
    subst hc
    exact isAlpha_of_isSep (hgs g (by simp)).1

/-- On the groups of a well-formed tag followed by text at which no further
group starts, `groupStar` takes exactly the groups. -/
theorem groupStar_groups (gs : List (Char × Str)) (hgs : IsGroups gs) (r : Str)
    (hr : ∀ c ∈ r.head?, c.isAlpha = false) (hstop : ∀ n, groupStar n r = ([], r)) :
    ∀ n, gs.length ≤ n → groupStar n (groupsText gs ++ r) = (groupsText gs, r) := by
  induction gs with
  | nil => intro n _; simpa [groupsText] using hstop n
  | cons g gs ih =>
    intro n hn
    cases n with
    | zero => simp at hn
    | succ n =>
      have hg := hgs g (by simp)
      have hgs1 : IsGroups gs := fun x hx => hgs x (by simp [hx])
      have hl : letters2 (g.2 ++ (groupsText gs ++ r)) = some (g.2, groupsText gs ++ r) :=
        letters2_append _ _ hg.2 (groupsText_head gs hgs1 r hr)
      have hrec := ih hgs1 n (by simpa using hn)
      have e : groupsText (g :: gs) ++ r = g.1 :: (g.2 ++ (groupsText gs ++ r)) := by
        simp [groupsText]
      rw [e]
      simp only [groupStar, hg.1, if_true, hl, hrec]
      simp [groupsText]

theorem groupsText_length_ge (gs : List (Char × Str)) : gs.length ≤ (groupsText gs).length := by
  induction gs with
  | nil => simp [groupsText]
  | cons g gs ih => simp [groupsText]; omega

theorem matchPrefix_tag (w : Str) (gs : List (Char × Str)) (hw : IsSegment w) (hgs : IsGroups gs)
    (r : Str) (hr : ∀ c ∈ r.head?, c.isAlpha = false) (hstop : ∀ n, groupStar n r = ([], r)) :
    matchPrefix (tagOf w gs ++ r) = some (tagOf w gs, r) := by
  have hl : letters2 (w ++ (groupsText gs ++ r)) = some (w, groupsText gs ++ r) :=
    letters2_append _ _ hw (groupsText_head gs hgs r hr)
  have hg := groupStar_groups gs hgs r hr hstop (groupsText gs ++ r).length
    (by have := groupsText_length_ge gs; simp; omega)
  simp only [matchPrefix, tagOf, List.append_assoc, hl, hg]

theorem findAllAux_nil (n : Nat) : findAllAux n [] = [] := by
  cases n <;> rfl

theorem groupStar_nil (n : Nat) : groupStar n [] = ([], []) := by
  cases n <;> rfl

theorem tagOf_ne_nil (w : Str) (gs : List (Char × Str)) (hw : IsSegment w) : tagOf w gs ≠ [] := by
  intro h
  have : (tagOf w gs).length = 0 := by rw [h]; rfl
  have h2 := hw.1
  simp [tagOf] at this
  rw [this.1] at h2
  simp at h2

/-- The regular expression finds, in a well-formed tag, the tag itself and nothing else. -/
theorem FindAllString_tag (w : Str) (gs : List (Char × Str)) (hw : IsSegment w)
    (hgs : IsGroups gs) : FindAllString (tagOf w gs) = [tagOf w gs] := by
  have hm := matchPrefix_tag w gs hw hgs [] (by simp) groupStar_nil
  rw [List.append_nil] at hm
  unfold FindAllString
  cases h : tagOf w gs with
  | nil => exact absurd h (tagOf_ne_nil w gs hw)
  | cons c t =>
    rw [h] at hm
    simp only [List.length_cons, findAllAux, hm, findAllAux_nil]

/-! ## `expandTag` on a well-formed tag -/

theorem expandLoop_acc (tag : Str) (i : Nat) (tags : List Str) :
    expandLoop tag i tags = tags ++ expandLoop tag i [] := by
  induction i generalizing tags with
  | zero => simp [expandLoop]
  | succ i ih =>
    simp only [expandLoop]
    cases tag[i]? with
    | none => exact ih tags
    | some r =>
      by_cases h : isSep r = true
      · simp only [h, if_true]
        rw [ih (tags ++ [tag.take i]), ih ([] ++ [tag.take i])]
        simp
      · simp only [h]
        exact ih tags

theorem expandLoop_append_left (p q : Str) (i : Nat) (hi : i ≤ p.length) (tags : List Str) :
    expandLoop (p ++ q) i tags = expandLoop p i tags := by
  induction i generalizing tags with
  | zero => simp [expandLoop]
  | succ i ih =>
    have h1 : (p ++ q)[i]? = p[i]? := List.getElem?_append_left (by omega)
    have h2 : (p ++ q).take i = p.take i := List.take_append_of_le_length (by omega)
    simp only [expandLoop, h1, h2]
    cases p[i]? with
    | none => exact ih (by omega) tags
    | some r =>
      by_cases h : isSep r = true
      · simp only [h, if_true]; exact ih (by omega) _
      · simp only [h]; exact ih (by omega) tags

theorem expandLoop_skip (p q : Str) (hq : ∀ c ∈ q, isSep c = false) (tags : List Str) (k : Nat)
    (hk : k ≤ q.length) :
    expandLoop (p ++ q) (p.length + k) tags = expandLoop (p ++ q) p.length tags := by
  induction k with
  | zero => rfl
  | succ k ih =>
    have hlt : k < q.length := by omega
    have h1 : (p ++ q)[p.length + k]? = some q[k] := by
      rw [List.getElem?_append_right (by omega)]
      simp [hlt]
    have h2 : isSep q[k] = false := hq _ (List.getElem_mem _)
    rw [← Nat.add_assoc]
    simp only [expandLoop, h1, h2]
    exact ih (by omega)

/-- What the loop of `expandTag` adds when it starts at the very end of `p ++ c :: v`,
`c` a separator and `v` free of separators: `p`, then what it adds for `p`. -/
theorem expandLoop_snoc (p v : Str) (c : Char) (hc : isSep c = true)
    (hv : ∀ x ∈ v, isSep x = false) :
    expandLoop (p ++ c :: v) (p ++ c :: v).length [] = p :: expandLoop p p.length [] := by
  have e : p ++ c :: v = (p ++ [c]) ++ v := by simp
  have h0 : (p ++ c :: v).length = (p ++ [c]).length + v.length := by simp; omega
  rw [h0, e, expandLoop_skip (p ++ [c]) v hv [] v.length (Nat.le_refl _)]
  have h1 : (p ++ [c] ++ v)[p.length]? = some c := by
    rw [List.append_assoc, List.getElem?_append_right (Nat.le_refl _)]
    simp
  have h2 : (p ++ [c] ++ v).take p.length = p := by
    rw [List.append_assoc, List.take_left]
  have h3 : (p ++ [c]).length = p.length + 1 := by simp
  rw [h3]
  simp only [expandLoop, h1, hc, if_true, h2, List.nil_append]
  rw [expandLoop_acc, List.append_assoc, expandLoop_append_left p _ p.length (Nat.le_refl _)]
  rfl

theorem mem_groupsText (gs : List (Char × Str)) (hgs : IsGroups gs) :
    ∀ c ∈ groupsText gs, c.isAlpha = true ∨ isSep c = true := by
  induction gs with
  | nil => intro c hc; simp [groupsText] at hc
  | cons g gs ih =>
    intro c hc
    simp only [groupsText, List.mem_cons, List.mem_append] at hc
    rcases hc with (hc | hc) | hc
    · subst hc; exact Or.inr (hgs g (by simp)).1
    · exact Or.inl ((hgs g (by simp)).2.2 c hc)
    · exact ih (fun x hx => hgs x (by simp [hx])) c hc

theorem mem_tagOf (w : Str) (gs : List (Char × Str)) (hw : IsSegment w) (hgs : IsGroups gs) :
    ∀ c ∈ tagOf w gs, c.isAlpha = true ∨ isSep c = true := by
  intro c hc
  simp only [tagOf, List.mem_append] at hc
  rcases hc with hc | hc
  · exact Or.inl (hw.2 c hc)
  · exact mem_groupsText gs hgs c hc

theorem isSpace_of_isSep {c : Char} (h : isSep c = true) : isSpace c = false := by
  simp only [isSep, Bool.or_eq_true, beq_iff_eq] at h
  rcases h with h | h <;> subst h <;> decide

theorem dropWhile_of_all_false (p : Char → Bool) (s : Str) (h : ∀ c ∈ s, p c = false) :
    s.dropWhile p = s := by
  cases s with
  | nil => rfl
  | cons c s => simp [List.dropWhile, h c (by simp)]

theorem TrimSpace_tag (w : Str) (gs : List (Char × Str)) (hw : IsSegment w) (hgs : IsGroups gs) :
    TrimSpace (tagOf w gs) = tagOf w gs := by
  have h : ∀ c ∈ tagOf w gs, isSpace c = false := by
    intro c hc
    rcases mem_tagOf w gs hw hgs c hc with h | h
    · exact (alpha_facts h).2.1
    · exact isSpace_of_isSep h
  unfold TrimSpace
  rw [dropWhile_of_all_false isSpace _ h,
    dropWhile_of_all_false isSpace _ (fun c hc => h c (List.mem_reverse.1 hc)), List.reverse_reverse]

/-- Lowercasing of a group. -/
theorem ToLower_groupsText (gs : List (Char × Str)) :
    ToLower (groupsText gs) = groupsText (gs.map (fun g => (g.1.toLower, ToLower g.2))) := by
  induction gs with
  | nil => rfl
  | cons g gs ih =>
    simp only [ToLower, groupsText, List.map_cons, List.map_append] at ih ⊢
    rw [ih]

theorem ToLower_tagOf (w : Str) (gs : List (Char × Str)) :
    ToLower (tagOf w gs) = tagOf (ToLower w) (gs.map (fun g => (g.1.toLower, ToLower g.2))) := by
  have h := ToLower_groupsText gs
  simp only [ToLower, tagOf, List.map_append] at h ⊢
  rw [h]

theorem IsSegment_ToLower {w : Str} (hw : IsSegment w) : IsSegment (ToLower w) := by
  refine ⟨by simpa [ToLower] using hw.1, ?_⟩
  intro c hc
  simp only [ToLower, List.mem_map] at hc
  obtain ⟨a, ha, rfl⟩ := hc
  exact (alpha_facts (hw.2 a ha)).2.2.1

theorem IsGroups_ToLower {gs : List (Char × Str)} (hgs : IsGroups gs) :
    IsGroups (gs.map (fun g => (g.1.toLower, ToLower g.2))) := by
  intro g hg
  simp only [List.mem_map] at hg
  obtain ⟨a, ha, rfl⟩ := hg
  exact ⟨by rw [isSep_toLower]; exact (hgs a ha).1, IsSegment_ToLower (hgs a ha).2⟩

theorem tagOf_snoc (w : Str) (gs : List (Char × Str)) (g : Char × Str) :
    tagOf w (gs ++ [g]) = tagOf w gs ++ g.1 :: g.2 := by
  simp [tagOf, groupsText_append, groupsText]

theorem segment_no_sep {w : Str} (hw : IsSegment w) : ∀ c ∈ w, isSep c = false :=
  fun c hc => (alpha_facts (hw.2 c hc)).1

/-- The loop of `expandTag`, started at the very end of a well-formed tag, adds
the tags of the proper prefixes of the group list, longest first. -/
theorem expandLoop_tag (w : Str) (hw : IsSegment w) (gs : List (Char × Str)) (hgs : IsGroups gs) :
    tagOf w gs :: expandLoop (tagOf w gs) (tagOf w gs).length [] =
      gs.inits.reverse.map (tagOf w) := by
  induction gs using List.reverseRecOn with
  | nil =>
    have h := expandLoop_skip [] w (segment_no_sep hw) [] w.length (Nat.le_refl _)
    simp only [List.nil_append, List.length_nil, Nat.zero_add] at h
    simp [tagOf, groupsText, h, expandLoop]
  | append_singleton gs g ih =>
    have hg := hgs g (by simp)
    have hgs1 : IsGroups gs := fun x hx => hgs x (by simp [hx])
    have h := expandLoop_snoc (tagOf w gs) g.2 g.1 hg.1 (segment_no_sep hg.2)
    rw [tagOf_snoc, h, ih hgs1, ← tagOf_snoc]
    simp [List.inits_append]

/-- A well-formed tag ends with a non-empty stretch without separator. -/
theorem tagOf_split (w : Str) (hw : IsSegment w) (gs : List (Char × Str)) (hgs : IsGroups gs) :
    ∃ p v, tagOf w gs = p ++ v ∧ 1 ≤ v.length ∧ ∀ c ∈ v, isSep c = false := by
  induction gs using List.reverseRecOn with
  | nil => exact ⟨[], w, by simp [tagOf, groupsText], by have := hw.1; omega, segment_no_sep hw⟩
  | append_singleton gs g _ =>
    have hg := hgs g (by simp)
    refine ⟨tagOf w gs ++ [g.1], g.2, by simp [tagOf_snoc], by have := hg.2.1; omega,
      segment_no_sep hg.2⟩

/-- The function `expandTag` on a well-formed tag that is already in lower case
and free of white space. -/
theorem expandLoop_tag_pred (w : Str) (hw : IsSegment w) (gs : List (Char × Str))
    (hgs : IsGroups gs) :
    expandLoop (tagOf w gs) ((tagOf w gs).length - 1) [tagOf w gs] =
      gs.inits.reverse.map (tagOf w) := by
  obtain ⟨p, v, e, hv1, hv2⟩ := tagOf_split w hw gs hgs
  have h1 := expandLoop_skip p v hv2 [] (v.length - 1) (by omega)
  have h2 := expandLoop_skip p v hv2 [] v.length (Nat.le_refl _)
  have h3 : (tagOf w gs).length - 1 = p.length + (v.length - 1) := by
    rw [e, List.length_append]; omega
  have h4 : (tagOf w gs).length = p.length + v.length := by rw [e, List.length_append]
  rw [← expandLoop_tag w hw gs hgs, expandLoop_acc, h3, h4, e, h1, h2]
  rfl

theorem expandTag_tag (w : Str) (hw : IsSegment w) (gs : List (Char × Str)) (hgs : IsGroups gs) :
    expandTag (tagOf w gs) = gs.inits.reverse.map (fun r => ToLower (tagOf w r)) := by
  unfold expandTag
  rw [TrimSpace_tag w gs hw hgs, ToLower_tagOf,
    expandLoop_tag_pred _ (IsSegment_ToLower hw) _ (IsGroups_ToLower hgs), List.map_inits]
  simp only [List.map_reverse, List.map_map]
  congr 2
  funext r
  simp [ToLower_tagOf]

/-! ## `dedupe` and the loop of `NewLocalizer` -/

theorem dedupeLoop_acc (found deduped strs : List Str) :
    dedupeLoop found deduped strs = deduped ++ dedupeLoop found [] strs := by
  induction strs generalizing found deduped with
  | nil => simp [dedupeLoop]
  | cons s strs ih =>
    simp only [dedupeLoop]
    by_cases h : s ∈ found
    · simp only [h, if_true]; exact ih found deduped
    · simp only [h, if_false]
      rw [ih (s :: found) (deduped ++ [s]), ih (s :: found) ([] ++ [s])]
      simp

theorem dedupeLoop_cons (found strs : List Str) (s : Str) :
    dedupeLoop found [] (s :: strs) =
      if s ∈ found then dedupeLoop found [] strs else s :: dedupeLoop (s :: found) [] strs := by
  simp only [dedupeLoop]
  by_cases h : s ∈ found
  · simp [h]
  · simp only [h, if_false]
    rw [dedupeLoop_acc]
    rfl

theorem mem_dedupeLoop (found strs : List Str) (a : Str) :
    a ∈ dedupeLoop found [] strs ↔ a ∈ strs ∧ a ∉ found := by
  induction strs generalizing found with
  | nil => simp [dedupeLoop]
  | cons s strs ih =>
    rw [dedupeLoop_cons]
    by_cases h : s ∈ found
    · simp only [h, if_true, ih, List.mem_cons]
      constructor
      · rintro ⟨h1, h2⟩; exact ⟨Or.inr h1, h2⟩
      · rintro ⟨h1 | h1, h2⟩
        · subst h1; exact absurd h h2
        · exact ⟨h1, h2⟩
    · simp only [h, if_false, List.mem_cons, ih]
      constructor
      · rintro (h1 | ⟨h1, h2⟩)
        · subst h1; exact ⟨Or.inl rfl, h⟩
        · exact ⟨Or.inr h1, fun h3 => h2 (Or.inr h3)⟩
      · rintro ⟨h1 | h1, h2⟩
        · exact Or.inl h1
        · by_cases e : a = s
          · exact Or.inl e
          · exact Or.inr ⟨h1, fun h3 => h3.elim e h2⟩

theorem nodup_dedupeLoop (found strs : List Str) : (dedupeLoop found [] strs).Nodup := by
  induction strs generalizing found with
  | nil => simp [dedupeLoop]
  | cons s strs ih =>
    rw [dedupeLoop_cons]
    by_cases h : s ∈ found
    · simp only [h, if_true]; exact ih found
    · simp only [h, if_false, List.nodup_cons]
      refine ⟨?_, ih _⟩
      rw [mem_dedupeLoop]
      simp

theorem indexOf_cons_same (s : Str) (l : List Str) : List.indexOf s (s :: l) = 0 := by
  rw [List.indexOf_cons]
  have h : (s == s) = true := by rw [beq_iff_eq]
  rw [h]
  rfl

theorem indexOf_cons_other {s a : Str} (l : List Str) (h : s ≠ a) :
    List.indexOf a (s :: l) = List.indexOf a l + 1 := by
  rw [List.indexOf_cons]
  have h1 : (s == a) = false := by
    rw [beq_eq_false_iff_ne]; exact h
  rw [h1]
  rfl

theorem indexOf_dedupeLoop (found strs : List Str) (a b : Str) (ha : a ∉ found) (hb : b ∉ found) :
    (List.indexOf a (dedupeLoop found [] strs) < List.indexOf b (dedupeLoop found [] strs) ↔
      List.indexOf a strs < List.indexOf b strs) := by
  induction strs generalizing found with
  | nil => simp [dedupeLoop]
  | cons s strs ih =>
    rw [dedupeLoop_cons]
    by_cases h : s ∈ found
    · have h1 : s ≠ a := fun e => ha (e ▸ h)
      have h2 : s ≠ b := fun e => hb (e ▸ h)
      simp only [h, if_true, indexOf_cons_other _ h1, indexOf_cons_other _ h2,
        Nat.add_lt_add_iff_right]
      exact ih found ha hb
    · simp only [h, if_false]
      by_cases e1 : s = a
      · subst e1
        by_cases e2 : s = b
        · subst e2; simp
        · simp [indexOf_cons_same, indexOf_cons_other _ e2]
      · by_cases e2 : s = b
        · subst e2; simp [indexOf_cons_same]
        · simp only [indexOf_cons_other _ e1, indexOf_cons_other _ e2, Nat.add_lt_add_iff_right]
          exact ih (s :: found) (by simp [ha, Ne.symm e1]) (by simp [hb, Ne.symm e2])

theorem dedupeLoop_of_nodup (found strs : List Str) (hn : strs.Nodup)
    (hd : ∀ a ∈ strs, a ∉ found) : dedupeLoop found [] strs = strs := by
  induction strs generalizing found with
  | nil => simp [dedupeLoop]
  | cons s strs ih =>
    rw [dedupeLoop_cons]
    have h : s ∉ found := hd s (by simp)
    rw [List.nodup_cons] at hn
    simp only [h, if_false]
    rw [ih (s :: found) hn.2]
    intro a ha
    simp only [List.mem_cons, not_or]
    exact ⟨fun e => hn.1 (e ▸ ha), hd a (by simp [ha])⟩

theorem dedupe_of_nodup (strs : List Str) (hn : strs.Nodup) : dedupe strs = strs :=
  dedupeLoop_of_nodup [] strs hn (by simp)

theorem expandAll_eq (tags langTags : List Str) :
    expandAll tags langTags = tags ++ (langTags.map expandTag).flatten := by
  induction langTags generalizing tags with
  | nil => simp [expandAll]
  | cons t ts ih => simp [expandAll, ih]

theorem tagOf_length_mono (w : Str) (gs hs : List (Char × Str)) :
    (tagOf w gs).length ≤ (tagOf w (gs ++ hs)).length := by
  simp [tagOf, groupsText_append]

/-- The expansion of a well-formed tag has no repetition: its elements have
strictly decreasing lengths. -/
theorem nodup_prefix_tags (w : Str) (gs : List (Char × Str)) :
    (gs.inits.reverse.map (fun r => ToLower (tagOf w r))).Nodup ∧
      ∀ t ∈ gs.inits.reverse.map (fun r => ToLower (tagOf w r)),
        t.length ≤ (tagOf w gs).length := by
  induction gs using List.reverseRecOn with
  | nil => simp [ToLower]
  | append_singleton gs g ih =>
    have e : (gs ++ [g]).inits.reverse.map (fun r => ToLower (tagOf w r)) =
        ToLower (tagOf w (gs ++ [g])) :: gs.inits.reverse.map (fun r => ToLower (tagOf w r)) := by
      simp [List.inits_append]
    rw [e]
    have hlen : (tagOf w gs).length < (tagOf w (gs ++ [g])).length := by
      rw [tagOf_snoc]; simp
    constructor
    · rw [List.nodup_cons]
      refine ⟨fun hmem => ?_, ih.1⟩
      have := ih.2 _ hmem
      simp only [ToLower, List.length_map] at this
      omega
    · intro t ht
      rw [List.mem_cons] at ht
      rcases ht with ht | ht
      · subst ht; simp [ToLower]
      · have := ih.2 t ht; omega

/-! ## Adequacy of the scan: the bounds on the recursion are never reached -/

/-- What `letters2` returns: a split of the input after a segment, the rest not
starting with a letter. -/
theorem letters2_some {s w r : Str} (h : letters2 s = some (w, r)) :
    s = w ++ r ∧ IsSegment w ∧ ∀ c ∈ r.head?, c.isAlpha = false := by
  unfold letters2 at h
  split at h
  · rename_i h2
    simp only [Option.some.injEq, Prod.mk.injEq] at h
    obtain ⟨rfl, rfl⟩ := h
    refine ⟨(List.takeWhile_append_dropWhile _ _).symm, ⟨h2, ?_⟩, ?_⟩
    · intro c hc
      exact List.mem_takeWhile_imp hc
    · intro c hc
      have := List.head?_dropWhile_not Char.isAlpha s
      rw [Option.mem_def] at hc
      rw [hc] at this
      simpa using this
  · cases h

theorem IsGroups_nil : IsGroups [] := by
  intro g hg
  cases hg

/-- What `groupStar` returns: a split of the input after a sequence of groups. -/
theorem groupStar_split (n : Nat) (s : Str) :
    s = (groupStar n s).1 ++ (groupStar n s).2 ∧
      ∃ gs, IsGroups gs ∧ (groupStar n s).1 = groupsText gs := by
  induction n generalizing s with
  | zero => exact ⟨rfl, ⟨[], IsGroups_nil, rfl⟩⟩
  | succ n ih =>
    cases s with
    | nil => exact ⟨rfl, ⟨[], IsGroups_nil, rfl⟩⟩
    | cons c r =>
      by_cases hc : isSep c = true
      · cases hl : letters2 r with
        | none =>
          simp only [groupStar, hc, if_true, hl]
          exact ⟨rfl, ⟨[], IsGroups_nil, rfl⟩⟩
        | some wr =>
          obtain ⟨w, r1⟩ := wr
          obtain ⟨e, hw, _⟩ := letters2_some hl
          obtain ⟨e1, gs, hgs, e2⟩ := ih r1
          simp only [groupStar, hc, if_true, hl]
          refine ⟨?_, ⟨(c, w) :: gs, ?_, ?_⟩⟩
          · rw [e]
            simp only [List.cons_append, List.append_assoc]
            rw [← e1]
          · intro g hg
            rw [List.mem_cons] at hg
            rcases hg with hg | hg
            · subst hg; exact ⟨hc, hw⟩
            · exact hgs g hg
          · simp [groupsText, e2]
      · have hc1 : isSep c = false := by simpa using hc
        simp only [groupStar, hc1, Bool.false_eq_true, if_false]
        exact ⟨rfl, ⟨[], IsGroups_nil, rfl⟩⟩

/-- What `matchPrefix` returns: a split of the input after a well-formed tag. -/
theorem matchPrefix_some {s m rest : Str} (h : matchPrefix s = some (m, rest)) :
    s = m ++ rest ∧ ∃ w gs, IsSegment w ∧ IsGroups gs ∧ m = tagOf w gs := by
  unfold matchPrefix at h
  cases hl : letters2 s with
  | none => rw [hl] at h; cases h
  | some wr =>
    obtain ⟨w, r⟩ := wr
    rw [hl] at h
    simp only [Option.some.injEq, Prod.mk.injEq] at h
    obtain ⟨rfl, rfl⟩ := h
    obtain ⟨e, hw, _⟩ := letters2_some hl
    obtain ⟨e1, gs, hgs, e2⟩ := groupStar_split r.length r
    refine ⟨?_, w, gs, hw, hgs, by rw [tagOf, e2]⟩
    rw [List.append_assoc, ← e1, e]

/-- A match starts exactly where two letters start. -/
theorem matchPrefix_eq_none_iff (s : Str) :
    matchPrefix s = none ↔ (s.takeWhile Char.isAlpha).length < 2 := by
  unfold matchPrefix letters2
  by_cases h : 2 ≤ (s.takeWhile Char.isAlpha).length
  · simp [h]
  · simp [h]; omega

/-- More fuel than the length of the input does not change `groupStar`. -/
theorem groupStar_fuel (n m : Nat) (s : Str) (hn : s.length ≤ n) (hm : s.length ≤ m) :
    groupStar n s = groupStar m s := by
  induction n generalizing m s with
  | zero =>
    have : s = [] := List.length_eq_zero.1 (by omega)
    subst this
    rw [groupStar_nil, groupStar_nil]
  | succ n ih =>
    cases s with
    | nil => rw [groupStar_nil, groupStar_nil]
    | cons c r =>
      cases m with
      | zero => simp at hm
      | succ m =>
        simp only [List.length_cons] at hn hm
        by_cases hc : isSep c = true
        · cases hl : letters2 r with
          | none => simp only [groupStar, hc, if_true, hl]
          | some wr =>
            obtain ⟨w, r1⟩ := wr
            obtain ⟨e, _, _⟩ := letters2_some hl
            have hlen : r1.length ≤ r.length := by rw [e]; simp
            simp only [groupStar, hc, if_true, hl]
            rw [ih m r1 (by omega) (by omega)]
        · have hc1 : isSep c = false := by simpa using hc
          simp only [groupStar, hc1, Bool.false_eq_true, if_false]

/-- More fuel than the length of the input does not change `findAllAux`. -/
theorem findAllAux_fuel (n m : Nat) (s : Str) (hn : s.length ≤ n) (hm : s.length ≤ m) :
    findAllAux n s = findAllAux m s := by
  induction n generalizing m s with
  | zero =>
    have : s = [] := List.length_eq_zero.1 (by omega)
    subst this
    rw [findAllAux_nil, findAllAux_nil]
  | succ n ih =>
    cases s with
    | nil => rw [findAllAux_nil, findAllAux_nil]
    | cons c r =>
      cases m with
      | zero => simp at hm
      | succ m =>
        simp only [List.length_cons] at hn hm
        cases hp : matchPrefix (c :: r) with
        | none =>
          simp only [findAllAux, hp]
          exact ih m r (by omega) (by omega)
        | some mr =>
          obtain ⟨mt, rest⟩ := mr
          obtain ⟨e, w, gs, hw, _, e2⟩ := matchPrefix_some hp
          have hlen : rest.length < (c :: r).length := by
            have h1 : 2 ≤ mt.length := by
              rw [e2, tagOf, List.length_append]; have := hw.1; omega
            rw [e, List.length_append]; omega
          simp only [List.length_cons] at hlen
          simp only [findAllAux, hp]
          rw [ih m rest (by omega) (by omega)]

/-- The star is exhausted: no further group starts where `groupStar` stops. -/
theorem groupStar_stops (n : Nat) (s : Str) (hn : s.length ≤ n) (k : Nat) :
    groupStar k (groupStar n s).2 = ([], (groupStar n s).2) := by
  induction n generalizing s with
  | zero =>
    have : s = [] := List.length_eq_zero.1 (by omega)
    subst this
    exact groupStar_nil k
  | succ n ih =>
    cases s with
    | nil => exact groupStar_nil k
    | cons c r =>
      simp only [List.length_cons] at hn
      by_cases hc : isSep c = true
      · cases hl : letters2 r with
        | none =>
          simp only [groupStar, hc, if_true, hl]
          cases k with
          | zero => rfl
          | succ k => simp only [groupStar, hc, if_true, hl]
        | some wr =>
          obtain ⟨w, r1⟩ := wr
          obtain ⟨e, _, _⟩ := letters2_some hl
          have hlen : r1.length ≤ r.length := by rw [e]; simp
          simp only [groupStar, hc, if_true, hl]
          exact ih r1 (by omega)
      · have hc1 : isSep c = false := by simpa using hc
        simp only [groupStar, hc1, Bool.false_eq_true, if_false]
        cases k with
        | zero => rfl
        | succ k => simp only [groupStar, hc1, Bool.false_eq_true, if_false]

/-- The scan of `FindAllString`, without the bound: nothing in the empty string. -/
theorem FindAllString_nil : FindAllString [] = [] := rfl

/-- The scan of `FindAllString`, without the bound: where a match starts, it is
recorded and the scan continues after it. -/
theorem FindAllString_of_match {s m rest : Str} (h : matchPrefix s = some (m, rest)) :
    FindAllString s = m :: FindAllString rest := by
  obtain ⟨e, w, gs, hw, _, e2⟩ := matchPrefix_some h
  cases s with
  | nil =>
    have h1 := hw.1
    have h2 : (m ++ rest).length = 0 := by rw [← e]; rfl
    rw [List.length_append, e2, tagOf, List.length_append] at h2
    omega
  | cons c r =>
    have hlen : rest.length ≤ r.length := by
      have h1 : 2 ≤ m.length := by
        rw [e2, tagOf, List.length_append]; have := hw.1; omega
      have h2 : (c :: r).length = m.length + rest.length := by rw [e, List.length_append]
      simp only [List.length_cons] at h2
      omega
    unfold FindAllString
    simp only [List.length_cons, findAllAux, h]
    rw [findAllAux_fuel r.length rest.length rest hlen (Nat.le_refl _)]

/-- The scan of `FindAllString`, without the bound: where no match starts, the
scan moves one rune to the right. -/
theorem FindAllString_of_no_match (c : Char) (r : Str) (h : matchPrefix (c :: r) = none) :
    FindAllString (c :: r) = FindAllString r := by
  unfold FindAllString
  simp only [List.length_cons, findAllAux, h]

/-- The table of `TestNewLocalizer` (`localizer_test.go`), evaluated on the embedding. -/
theorem TestNewLocalizer :
    languageTags "aa-bb-cc-dd".toList =
        ["aa-bb-cc-dd".toList, "aa-bb-cc".toList, "aa-bb".toList, "aa".toList] ∧
      languageTags "-aa-bb-cc-dd-".toList =
        ["aa-bb-cc-dd".toList, "aa-bb-cc".toList, "aa-bb".toList, "aa".toList] ∧
      languageTags "x-aa-bb-cc-dd-x".toList =
        ["aa-bb-cc-dd".toList, "aa-bb-cc".toList, "aa-bb".toList, "aa".toList] ∧
      languageTags "aa-bbb-cccc-ddddd".toList =
        ["aa-bbb-cccc-ddddd".toList, "aa-bbb-cccc".toList, "aa-bbb".toList, "aa".toList] ∧
      languageTags "aa-bb, aa-cc".toList = ["aa-bb".toList, "aa".toList, "aa-cc".toList] := by
  refine ⟨by decide, by decide, by decide, by decide, by decide⟩

/-! ## C1, C2: the language tags of `NewLocalizer` -/

/-- C1. For a preference string that is a single well-formed language tag, with
first segment `w` and further groups `gs` (so `k = gs.length + 1` segments),
the `LanguageTags` of `NewLocalizer` are the lowercased tags of the prefixes of
the group list, longest first: they are `k` in number, the first is the whole
tag in lower case, the one at position `j` is the tag without its last `j`
segments, and the last is the primary subtag. -/
theorem NewLocalizer_single_tag {Operands Data UnmarshalFunc : Type}
    (bundle : Bundle Operands Data UnmarshalFunc) (w : Str) (gs : List (Char × Str))
    (hw : IsSegment w) (hgs : IsGroups gs) :
    (NewLocalizer bundle (tagOf w gs)).LanguageTags =
        gs.inits.reverse.map (fun r => ToLower (tagOf w r)) ∧
      (NewLocalizer bundle (tagOf w gs)).LanguageTags.length = gs.length + 1 ∧
      (NewLocalizer bundle (tagOf w gs)).LanguageTags.head? = some (ToLower (tagOf w gs)) ∧
      (∀ j, j ≤ gs.length → (NewLocalizer bundle (tagOf w gs)).LanguageTags[j]? =
        some (ToLower (tagOf w (gs.take (gs.length - j))))) ∧
      (NewLocalizer bundle (tagOf w gs)).LanguageTags.getLast? = some (ToLower w) := by
  have h : (NewLocalizer bundle (tagOf w gs)).LanguageTags =
      gs.inits.reverse.map (fun r => ToLower (tagOf w r)) := by
    show dedupe (expandAll [] (FindAllString (tagOf w gs))) = _
    rw [FindAllString_tag w gs hw hgs, expandAll_eq]
    simp only [List.map_cons, List.map_nil, List.flatten_cons, List.flatten_nil, List.append_nil,
      List.nil_append]
    rw [expandTag_tag w hw gs hgs]
    exact dedupe_of_nodup _ (nodup_prefix_tags w gs).1
  rw [h]
  refine ⟨rfl, by simp, ?_, ?_, ?_⟩
  · induction gs using List.reverseRecOn with
    | nil => simp
    | append_singleton gs g _ => simp [List.inits_append]
  · intro j hj
    rw [List.getElem?_map, List.getElem?_reverse (by simp; omega)]
    rw [List.getElem?_eq_getElem (by simp; omega), List.getElem_inits]
    simp
  · rw [List.getLast?_map, List.getLast?_reverse]
    cases gs <;> simp [List.inits, tagOf, groupsText]

/-- Witness for C1: the tag `aa-BB_cc`. -/
theorem NewLocalizer_single_tag_witness :
    IsSegment ['a', 'a'] ∧ IsGroups [('-', ['B', 'B']), ('_', ['c', 'c'])] ∧
      (NewLocalizer zeroBundle (tagOf ['a', 'a'] [('-', ['B', 'B']), ('_', ['c', 'c'])])).LanguageTags
        = "aa-bb_cc".toList :: "aa-bb".toList :: "aa".toList :: [] :=
  ⟨by decide, by decide,
    (NewLocalizer_single_tag zeroBundle ['a', 'a'] [('-', ['B', 'B']), ('_', ['c', 'c'])]
      (by decide) (by decide)).1.trans (by decide)⟩

/-- C2. For every preference string, the `LanguageTags` of `NewLocalizer`
contain no tag twice, contain exactly the tags of the concatenation of the
expansions of the matched tags (in the order of the matches), and list them in
the order of their first occurrence in that concatenation: `a` comes before
`b` in the result exactly when the first occurrence of `a` comes before that
of `b` in the concatenation.  For `aa-bb, aa-cc` they are `aa-bb, aa, aa-cc`. -/
theorem NewLocalizer_dedupe {Operands Data UnmarshalFunc : Type}
    (bundle : Bundle Operands Data UnmarshalFunc) (prefs : Str) :
    (NewLocalizer bundle prefs).LanguageTags.Nodup ∧
      (∀ t, t ∈ (NewLocalizer bundle prefs).LanguageTags ↔
        t ∈ ((FindAllString prefs).map expandTag).flatten) ∧
      (∀ a b, List.indexOf a (NewLocalizer bundle prefs).LanguageTags <
          List.indexOf b (NewLocalizer bundle prefs).LanguageTags ↔
        List.indexOf a ((FindAllString prefs).map expandTag).flatten <
          List.indexOf b ((FindAllString prefs).map expandTag).flatten) ∧
      (NewLocalizer bundle "aa-bb, aa-cc".toList).LanguageTags =
        ["aa-bb".toList, "aa".toList, "aa-cc".toList] := by
  have h : (NewLocalizer bundle prefs).LanguageTags =
      dedupeLoop [] [] ((FindAllString prefs).map expandTag).flatten := by
    show dedupe (expandAll [] (FindAllString prefs)) = _
    rw [expandAll_eq]; rfl
  rw [h]
  refine ⟨nodup_dedupeLoop _ _, fun t => ?_, fun a b => ?_, ?_⟩
  · rw [mem_dedupeLoop]; simp
  · exact indexOf_dedupeLoop [] _ a b (by simp) (by simp)
  · show languageTags "aa-bb, aa-cc".toList = _
    decide

/-! ## C3, C4, C5: the loop of `Localizer.localize` -/

section
variable {Operands Data UnmarshalFunc : Type}

theorem localizeLoop_cons_none (l : Localizer Operands Data UnmarshalFunc) (id : Str)
    (operands : Option Operands) (data : Data) (langTag : Str) (rest : List Str)
    (h : l.Bundle.template langTag id = none) :
    l.localizeLoop id operands data (langTag :: rest) = l.localizeLoop id operands data rest := by
  unfold Bundle.template at h
  rw [Localizer.localizeLoop]
  cases ht : l.Bundle.templates langTag with
  | none => rfl
  | some templates =>
    rw [ht] at h
    simp only at h
    simp only [h]

theorem localizeLoop_cons_some (l : Localizer Operands Data UnmarshalFunc) (id : Str)
    (operands : Option Operands) (data : Data) (langTag : Str) (rest : List Str)
    (template : MessageTemplate Data) (h : l.Bundle.template langTag id = some template) :
    l.localizeLoop id operands data (langTag :: rest) =
      if l.pluralForm langTag operands = PluralForm.Invalid then
        ([], some (Error.unableToPluralize id langTag))
      else if template.Execute (l.pluralForm langTag operands) data ≠ [] then
        (template.Execute (l.pluralForm langTag operands) data, none)
      else l.localizeLoop id operands data rest := by
  unfold Bundle.template at h
  rw [Localizer.localizeLoop]
  cases ht : l.Bundle.templates langTag with
  | none => rw [ht] at h; cases h
  | some templates =>
    rw [ht] at h
    simp only at h
    simp only [h]

/-- A tag that the loop passes over: it holds no template for the id, or its
template renders the empty text for the tag's plural form, which is not `Invalid`. -/
theorem localizeLoop_skip (l : Localizer Operands Data UnmarshalFunc) (id : Str)
    (operands : Option Operands) (data : Data) (pre rest : List Str)
    (hpre : ∀ t ∈ pre, l.Bundle.template t id = none ∨
      ∃ tmpl, l.Bundle.template t id = some tmpl ∧
        l.pluralForm t operands ≠ PluralForm.Invalid ∧
        tmpl.Execute (l.pluralForm t operands) data = []) :
    l.localizeLoop id operands data (pre ++ rest) = l.localizeLoop id operands data rest := by
  induction pre with
  | nil => rfl
  | cons t pre ih =>
    have ih1 := ih (fun x hx => hpre x (by simp [hx]))
    rcases hpre t (by simp) with h | ⟨tmpl, h1, h2, h3⟩
    · rw [List.cons_append, localizeLoop_cons_none l id operands data t _ h, ih1]
    · rw [List.cons_append, localizeLoop_cons_some l id operands data t _ tmpl h1, if_neg h2, h3]
      simpa using ih1

/-- A template without content under the sentinel `Invalid` renders non-empty
text only for a plural form other than `Invalid`. -/
theorem Execute_ne_nil_not_invalid (template : MessageTemplate Data) (pluralForm : PluralForm)
    (data : Data) (hwf : template.PluralForms PluralForm.Invalid = none)
    (h : template.Execute pluralForm data ≠ []) : pluralForm ≠ PluralForm.Invalid := by
  intro e
  subst e
  apply h
  simp [MessageTemplate.Execute, Template.ExecuteNilSafe, hwf]

/-- C3. `localize` returns the rendering of the first tag, in `LanguageTags`
order, that holds a template for the id and whose template renders non-empty
text for the tag's plural category: when every earlier tag either holds no
template for the id or renders the empty text without triggering the
pluralization error, that text is returned with no error, whatever tags follow
(they are not consulted).  The tag's template renders for the tag's plural
category when that category is not the sentinel `Invalid` (`hform`), and the
text it renders is not empty (`htext`). -/
theorem localize_first_rendering (l : Localizer Operands Data UnmarshalFunc) (id : Str)
    (operands : Option Operands) (data : Data) (pre post : List Str) (langTag : Str)
    (template : MessageTemplate Data)
    (htags : l.LanguageTags = pre ++ langTag :: post)
    (hpre : ∀ t ∈ pre, l.Bundle.template t id = none ∨
      ∃ tmpl, l.Bundle.template t id = some tmpl ∧
        l.pluralForm t operands ≠ PluralForm.Invalid ∧
        tmpl.Execute (l.pluralForm t operands) data = [])
    (htemplate : l.Bundle.template langTag id = some template)
    (hform : l.pluralForm langTag operands ≠ PluralForm.Invalid)
    (htext : template.Execute (l.pluralForm langTag operands) data ≠ []) :
    l.localize id operands data =
      (template.Execute (l.pluralForm langTag operands) data, none) := by
  unfold Localizer.localize
  rw [htags, localizeLoop_skip l id operands data pre _ hpre,
    localizeLoop_cons_some l id operands data langTag post template htemplate, if_neg hform,
    if_pos htext]

/-- C4. If no preferred tag holds a template for the id, `localize` returns the
empty string and no error, for every bundle, tag list, operands and data. -/
theorem localize_missing (l : Localizer Operands Data UnmarshalFunc) (id : Str)
    (operands : Option Operands) (data : Data)
    (h : ∀ t ∈ l.LanguageTags, l.Bundle.template t id = none) :
    l.localize id operands data = ([], none) := by
  unfold Localizer.localize
  have := localizeLoop_skip l id operands data l.LanguageTags [] (fun t ht => Or.inl (h t ht))
  rw [List.append_nil] at this
  rw [this]
  rfl

/-- C5, as amended.  For a tag that holds a template for the id and is reached
by the loop, the plural category is computed before rendering and, if it is
`Invalid`, `localize` returns the pluralization error for that tag, whatever the
template would render and whatever tags follow.  A tag that holds no template
for the id is passed over without its plural category being looked at. -/
theorem localize_invalid_aborts (l : Localizer Operands Data UnmarshalFunc) (id : Str)
    (operands : Option Operands) (data : Data) (pre post : List Str) (langTag : Str)
    (template : MessageTemplate Data)
    (htags : l.LanguageTags = pre ++ langTag :: post)
    (hpre : ∀ t ∈ pre, l.Bundle.template t id = none ∨
      ∃ tmpl, l.Bundle.template t id = some tmpl ∧
        l.pluralForm t operands ≠ PluralForm.Invalid ∧
        tmpl.Execute (l.pluralForm t operands) data = [])
    (htemplate : l.Bundle.template langTag id = some template)
    (hform : l.pluralForm langTag operands = PluralForm.Invalid) :
    l.localize id operands data = ([], some (Error.unableToPluralize id langTag)) ∧
      ∀ t rest, l.Bundle.template t id = none →
        l.localizeLoop id operands data (t :: rest) = l.localizeLoop id operands data rest := by
  refine ⟨?_, fun t rest h => localizeLoop_cons_none l id operands data t rest h⟩
  unfold Localizer.localize
  rw [htags, localizeLoop_skip l id operands data pre _ hpre,
    localizeLoop_cons_some l id operands data langTag post template htemplate, if_pos hform]

end

/-- Witness for C3: with preferences `xx, en` on `enBundle`, the tag `xx` holds
no template and `en` renders `Hello World!`. -/
theorem localize_first_rendering_witness :
    (NewLocalizer enBundle "xx, en".toList).localize "HelloWorld".toList (some 2) () =
      ("Hello World!".toList, none) :=
  localize_first_rendering (NewLocalizer enBundle "xx, en".toList) "HelloWorld".toList (some 2) ()
    ["xx".toList] [] "en".toList helloTemplate (by decide)
    (by intro t ht; rw [List.mem_singleton] at ht; subst ht; exact Or.inl rfl)
    rfl (by decide) (by decide)

/-- Witness for C4: the identifier `HelloWorld` on the zero bundle with
preference `es-es`. -/
theorem localize_missing_witness :
    (NewLocalizer zeroBundle "es-es".toList).localize "HelloWorld".toList none () = ([], none) :=
  localize_missing (NewLocalizer zeroBundle "es-es".toList) "HelloWorld".toList none ()
    (by intro t _; rfl)

/-- C5 as stated fails: with preferences `xx, en` on `enBundle` and a quantity,
the loop reaches `xx`, whose plural category is `Invalid` (no rule), and yet
`localize` goes on to `en` and returns its text with no error. -/
theorem localize_invalid_without_template :
    (NewLocalizer enBundle "xx, en".toList).LanguageTags = ["xx".toList, "en".toList] ∧
      (NewLocalizer enBundle "xx, en".toList).pluralForm "xx".toList (some 2) =
        PluralForm.Invalid ∧
      (NewLocalizer enBundle "xx, en".toList).localize "HelloWorld".toList (some 2) () =
        ("Hello World!".toList, none) := by
  refine ⟨by decide, by decide, by decide⟩

/-- Witness for C5 as amended: on `xxBundle` the tag `xx` holds the template
and has no rule, so a quantity makes `localize` fail although `en` follows. -/
theorem localize_invalid_aborts_witness :
    (NewLocalizer xxBundle "xx, en".toList).localize "HelloWorld".toList (some 2) () =
      ([], some (Error.unableToPluralize "HelloWorld".toList "xx".toList)) :=
  (localize_invalid_aborts (NewLocalizer xxBundle "xx, en".toList) "HelloWorld".toList (some 2) ()
    [] ["en".toList] "xx".toList helloTemplate (by decide) (by intro t ht; cases ht)
    rfl (by decide)).1

/-! ## C6, C7: `Localizer.pluralForm` -/

/-- C6. `pluralForm(tag, operands)` is `Other` when the operands are absent, for
every tag; otherwise `Invalid` when no plural rule is registered under the exact
tag (the rule table is nil, or has no rule under the tag); otherwise what the
rule registered under the exact tag returns on the operands. -/
theorem pluralForm_cases {Operands Data UnmarshalFunc : Type}
    (l : Localizer Operands Data UnmarshalFunc) (langTag : Str) :
    l.pluralForm langTag none = PluralForm.Other ∧
      (∀ ops, l.Bundle.PluralRules = none → l.pluralForm langTag (some ops) = PluralForm.Invalid) ∧
      (∀ ops rules, l.Bundle.PluralRules = some rules → rules langTag = none →
        l.pluralForm langTag (some ops) = PluralForm.Invalid) ∧
      (∀ ops rules rule, l.Bundle.PluralRules = some rules → rules langTag = some rule →
        l.pluralForm langTag (some ops) = rule.PluralFormFunc ops) := by
  refine ⟨rfl, ?_, ?_, ?_⟩
  · intro ops h
    simp [Localizer.pluralForm, Bundle.rule, h]
  · intro ops rules h1 h2
    simp [Localizer.pluralForm, Bundle.rule, h1, h2]
  · intro ops rules rule h1 h2
    simp [Localizer.pluralForm, Bundle.rule, h1, h2]

/-- Witness for C6: on `enBundle`, no operands give `Other` also for the
unregistered tag `xx`; with operands, `xx` gives `Invalid` and `en` gives what
`enRule` returns. -/
theorem pluralForm_cases_witness :
    (NewLocalizer enBundle "en".toList).pluralForm "xx".toList none = PluralForm.Other ∧
      (NewLocalizer enBundle "en".toList).pluralForm "xx".toList (some 1) = PluralForm.Invalid ∧
      (NewLocalizer enBundle "en".toList).pluralForm "en".toList (some 1) = PluralForm.One :=
  ⟨(pluralForm_cases (NewLocalizer enBundle "en".toList) "xx".toList).1,
    (pluralForm_cases (NewLocalizer enBundle "en".toList) "xx".toList).2.2.1 1 enOnly rfl
      rfl,
    (pluralForm_cases (NewLocalizer enBundle "en".toList) "en".toList).2.2.2 1 enOnly enRule rfl
      rfl⟩

/-- C7 as stated fails: the family `en` of the tag `en-gb` has a plural rule in
`enBundle`, and yet the category of `en-gb` for a quantity is `Invalid`, because
the rule is looked up under the exact tag. -/
theorem pluralForm_family_rule_invalid :
    pluralID "en-gb".toList = "en".toList ∧
      (enBundle.rule (pluralID "en-gb".toList)).isSome = true ∧
      (NewLocalizer enBundle "en-gb".toList).pluralForm "en-gb".toList (some 1) =
        PluralForm.Invalid := by
  refine ⟨by decide, by decide, by decide⟩

/-- C7, as amended.  For all operands and every tag, whenever a plural rule is
registered under the exact tag, and that rule never returns `Invalid`, the
category of the tag is never `Invalid`; it is `Other` when the operands are
absent.  (The function is total: it is defined on every input.) -/
theorem pluralForm_valid {Operands Data UnmarshalFunc : Type}
    (l : Localizer Operands Data UnmarshalFunc) (langTag : Str) (rule : PluralRule Operands)
    (operands : Option Operands)
    (hrule : l.Bundle.rule langTag = some rule)
    (hvalid : ∀ ops, rule.PluralFormFunc ops ≠ PluralForm.Invalid) :
    l.pluralForm langTag operands ≠ PluralForm.Invalid ∧
      l.pluralForm langTag none = PluralForm.Other := by
  refine ⟨?_, rfl⟩
  cases operands with
  | none => simp [Localizer.pluralForm]
  | some ops => simpa [Localizer.pluralForm, hrule] using hvalid ops

/-- Witness for C7 as amended: the tag `en` of `enBundle`. -/
theorem pluralForm_valid_witness :
    (NewLocalizer enBundle "en".toList).pluralForm "en".toList (some 5) ≠ PluralForm.Invalid ∧
      (NewLocalizer enBundle "en".toList).pluralForm "en".toList none = PluralForm.Other :=
  pluralForm_valid (NewLocalizer enBundle "en".toList) "en".toList enRule (some 5) rfl
    (by intro ops; simp only [enRule]; split <;> simp)

/-! ## C8, C9, C10: `Bundle.AddMessageTemplates` -/

theorem pluralIDLoop_eq (pre rs : Str) :
    pluralIDLoop (pre ++ rs) pre.length rs = pre ++ rs.takeWhile (fun c => !isSep c) := by
  induction rs generalizing pre with
  | nil => simp [pluralIDLoop]
  | cons r rs ih =>
    by_cases h : isSep r = true
    · simp [pluralIDLoop, h, List.takeWhile]
    · have e : pre ++ r :: rs = (pre ++ [r]) ++ rs := by simp
      have h1 := ih (pre ++ [r])
      rw [List.length_append, List.length_singleton, ← e] at h1
      simp only [pluralIDLoop, h, List.takeWhile]
      simpa using h1

/-- The plural id that `AddMessageTemplates` computes is the primary subtag. -/
theorem pluralID_eq_primarySubtag (langTag : Str) : pluralID langTag = primarySubtag langTag := by
  have := pluralIDLoop_eq [] langTag
  simpa [pluralID, primarySubtag] using this

/-- The primary subtag of a tag without separator is the tag; that of a tag
with a separator stops before the first one. -/
theorem primarySubtag_cases (p r : Str) (c : Char) (hp : ∀ x ∈ p, isSep x = false)
    (hc : isSep c = true) : primarySubtag p = p ∧ primarySubtag (p ++ c :: r) = p := by
  have h : ∀ q : Str, (p ++ q).takeWhile (fun x => !isSep x) = p ++ q.takeWhile (fun x => !isSep x) := by
    intro q
    induction p with
    | nil => rfl
    | cons a p ih =>
      have ha : isSep a = false := hp a (by simp)
      simp [List.takeWhile, ha, ih (fun x hx => hp x (by simp [hx]))]
  constructor
  · have := h []
    simpa [primarySubtag] using this
  · have := h (c :: r)
    simpa [primarySubtag, List.takeWhile, hc] using this

section
variable {Operands Data UnmarshalFunc : Type}

/-- C8. `AddMessageTemplates(langTag, ...)` returns an error if and only if the
rule table, after a nil table is defaulted to the built-in rules, has no plural
rule under the primary subtag of `langTag`; the error names that subtag. -/
theorem AddMessageTemplates_error_iff (cldr : Str → Option (PluralRule Operands))
    (b : Bundle Operands Data UnmarshalFunc) (langTag : Str)
    (messageTemplates : List (MessageTemplate Data)) :
    ((b.AddMessageTemplates cldr langTag messageTemplates).2 ≠ none ↔
        b.rulesOrDefault cldr (primarySubtag langTag) = none) ∧
      (b.rulesOrDefault cldr (primarySubtag langTag) = none ↔
        (b.AddMessageTemplates cldr langTag messageTemplates).2 =
          some (Error.noPluralRule (primarySubtag langTag))) := by
  rw [← pluralID_eq_primarySubtag]
  unfold Bundle.AddMessageTemplates
  cases h : b.rulesOrDefault cldr (pluralID langTag) <;> simp

theorem AddMessageTemplates_ok (cldr : Str → Option (PluralRule Operands))
    (b : Bundle Operands Data UnmarshalFunc) (langTag : Str)
    (messageTemplates : List (MessageTemplate Data))
    (hok : (b.AddMessageTemplates cldr langTag messageTemplates).2 = none) :
    ∃ pluralRule, b.rulesOrDefault cldr (pluralID langTag) = some pluralRule ∧
      b.AddMessageTemplates cldr langTag messageTemplates =
        ({ b with
            PluralRules := some (mapSet (b.rulesOrDefault cldr) langTag pluralRule)
            MessageTemplates :=
              some (mapSet (b.MessageTemplates.getD (fun _ => none)) langTag
                (addTemplatesLoop ((b.templates langTag).getD (fun _ => none))
                  messageTemplates)) }, none) := by
  unfold Bundle.AddMessageTemplates at hok ⊢
  cases h : b.rulesOrDefault cldr (pluralID langTag) with
  | none => rw [h] at hok; simp at hok
  | some pluralRule => exact ⟨pluralRule, rfl, rfl⟩

/-- C9, as amended.  After a successful `AddMessageTemplates(langTag, ...)`, the
rule registered under the full `langTag` is the rule registered under its
primary subtag (before the call, in the table the call works on, and after the
call), and the rule under every other tag is the one of the table the call
works on: the bundle's own table, or the built-in table when the bundle's
table was nil. -/
theorem AddMessageTemplates_rules (cldr : Str → Option (PluralRule Operands))
    (b : Bundle Operands Data UnmarshalFunc) (langTag : Str)
    (messageTemplates : List (MessageTemplate Data))
    (hok : (b.AddMessageTemplates cldr langTag messageTemplates).2 = none) :
    (b.AddMessageTemplates cldr langTag messageTemplates).1.rule langTag =
        b.rulesOrDefault cldr (primarySubtag langTag) ∧
      (b.AddMessageTemplates cldr langTag messageTemplates).1.rule langTag =
        (b.AddMessageTemplates cldr langTag messageTemplates).1.rule (primarySubtag langTag) ∧
      (b.AddMessageTemplates cldr langTag messageTemplates).1.rule langTag ≠ none ∧
      ∀ t, t ≠ langTag →
        (b.AddMessageTemplates cldr langTag messageTemplates).1.rule t =
          b.rulesOrDefault cldr t := by
  obtain ⟨pluralRule, h1, h2⟩ := AddMessageTemplates_ok cldr b langTag messageTemplates hok
  rw [← pluralID_eq_primarySubtag, h2, h1]
  refine ⟨by simp [Bundle.rule, mapSet], ?_, by simp [Bundle.rule, mapSet], ?_⟩
  · by_cases e : pluralID langTag = langTag
    · rw [e]
    · simp [Bundle.rule, mapSet, e, h1]
  · intro t ht
    simp [Bundle.rule, mapSet, ht]

end

/-- C9 as stated fails: on the zero bundle (nil rule table) the call for `en-US`
succeeds and the rule under the other tag `en` changes, from none to the
built-in rule. -/
theorem AddMessageTemplates_changes_other_rules :
    (zeroBundle.AddMessageTemplates enOnly "en-US".toList [helloTemplate]).2 = none ∧
      "en".toList ≠ "en-US".toList ∧
      (zeroBundle.rule "en".toList).isSome = false ∧
      ((zeroBundle.AddMessageTemplates enOnly "en-US".toList [helloTemplate]).1.rule
        "en".toList).isSome = true := by
  refine ⟨by decide, by decide, by decide, by decide⟩

/-- Witness for C9 as amended: registering `en-US` on `enBundle`. -/
theorem AddMessageTemplates_rules_witness :
    ((enBundle.AddMessageTemplates enOnly "en-US".toList [helloTemplate]).1.rule "en-US".toList =
        enBundle.rulesOrDefault enOnly (primarySubtag "en-US".toList)) ∧
      ∀ t, t ≠ "en-US".toList →
        (enBundle.AddMessageTemplates enOnly "en-US".toList [helloTemplate]).1.rule t =
          enBundle.rulesOrDefault enOnly t :=
  ⟨(AddMessageTemplates_rules enOnly enBundle "en-US".toList [helloTemplate] (by decide)).1,
    (AddMessageTemplates_rules enOnly enBundle "en-US".toList [helloTemplate] (by decide)).2.2.2⟩

section
variable {Operands Data UnmarshalFunc : Type}

theorem mapSet_mapSet {V : Type} (m : Str → Option V) (key : Str) (v1 v2 : V) :
    mapSet (mapSet m key v1) key v2 = mapSet m key v2 := by
  funext k
  by_cases h : k = key <;> simp [mapSet, h]

/-- The inner map after the last loop of `AddMessageTemplates`: under an id, the
last template of the list with that id, or the previous entry when the list has
none with that id. -/
theorem addTemplatesLoop_apply (inner : Str → Option (MessageTemplate Data))
    (ts : List (MessageTemplate Data)) (id : Str) :
    addTemplatesLoop inner ts id =
      match (ts.filter (fun t => decide (t.ID = id))).getLast? with
      | some t => some t
      | none => inner id := by
  induction ts generalizing inner with
  | nil => rfl
  | cons t ts ih =>
    rw [addTemplatesLoop, ih]
    by_cases h : t.ID = id
    · have e : (t :: ts).filter (fun t => decide (t.ID = id)) =
          t :: ts.filter (fun t => decide (t.ID = id)) := by simp [h]
      rw [e, List.getLast?_cons]
      cases (ts.filter (fun t => decide (t.ID = id))).getLast? with
      | none => simp [mapSet, h]
      | some x => simp
    · have e : (t :: ts).filter (fun t => decide (t.ID = id)) =
          ts.filter (fun t => decide (t.ID = id)) := by simp [h]
      rw [e]
      cases (ts.filter (fun t => decide (t.ID = id))).getLast? with
      | none => simp [mapSet, Ne.symm h]
      | some x => simp

theorem addTemplatesLoop_idem (inner : Str → Option (MessageTemplate Data))
    (ts : List (MessageTemplate Data)) :
    addTemplatesLoop (addTemplatesLoop inner ts) ts = addTemplatesLoop inner ts := by
  funext id
  rw [addTemplatesLoop_apply (addTemplatesLoop inner ts), addTemplatesLoop_apply inner]
  cases (ts.filter (fun t => decide (t.ID = id))).getLast? <;> rfl

theorem Bundle.template_eq (b : Bundle Operands Data UnmarshalFunc) (langTag id : Str) :
    b.template langTag id = (b.templates langTag).getD (fun _ => none) id := by
  unfold Bundle.template
  cases b.templates langTag <;> rfl

theorem AddMessageTemplates_of_rule (cldr : Str → Option (PluralRule Operands))
    (b : Bundle Operands Data UnmarshalFunc) (langTag : Str) (ts : List (MessageTemplate Data))
    (pluralRule : PluralRule Operands)
    (h : b.rulesOrDefault cldr (pluralID langTag) = some pluralRule) :
    b.AddMessageTemplates cldr langTag ts =
      ({ b with
          PluralRules := some (mapSet (b.rulesOrDefault cldr) langTag pluralRule)
          MessageTemplates :=
            some (mapSet (b.MessageTemplates.getD (fun _ => none)) langTag
              (addTemplatesLoop ((b.templates langTag).getD (fun _ => none)) ts)) }, none) := by
  unfold Bundle.AddMessageTemplates
  rw [h]

/-- The call repeated on the bundle it has produced changes nothing. -/
theorem AddMessageTemplates_again (cldr : Str → Option (PluralRule Operands))
    (m : Str → Option (Str → Option (MessageTemplate Data)))
    (rules : Str → Option (PluralRule Operands)) (u : Option (Str → Option UnmarshalFunc))
    (langTag : Str) (ts : List (MessageTemplate Data))
    (inner : Str → Option (MessageTemplate Data)) (pluralRule : PluralRule Operands)
    (h : rules (pluralID langTag) = some pluralRule) :
    Bundle.AddMessageTemplates cldr
        { MessageTemplates := some (mapSet m langTag (addTemplatesLoop inner ts))
          PluralRules := some (mapSet rules langTag pluralRule)
          UnmarshalFuncs := u } langTag ts =
      ({ MessageTemplates := some (mapSet m langTag (addTemplatesLoop inner ts))
         PluralRules := some (mapSet rules langTag pluralRule)
         UnmarshalFuncs := u }, none) := by
  have h5 : mapSet rules langTag pluralRule (pluralID langTag) = some pluralRule := by
    by_cases e : pluralID langTag = langTag
    · simp [mapSet, e]
    · simp [mapSet, e, h]
  rw [AddMessageTemplates_of_rule cldr
    { MessageTemplates := some (mapSet m langTag (addTemplatesLoop inner ts))
      PluralRules := some (mapSet rules langTag pluralRule)
      UnmarshalFuncs := u } langTag ts pluralRule h5]
  have h6 : (mapSet m langTag (addTemplatesLoop inner ts)) langTag =
      some (addTemplatesLoop inner ts) := by simp [mapSet]
  simp only [Bundle.rulesOrDefault, Bundle.templates, Option.getD_some, h6, mapSet_mapSet,
    addTemplatesLoop_idem]

/-- C10. Registration is last-write-wins and idempotent.  After a successful
`AddMessageTemplates(tag, ts...)`: looking up `(tag, id)` yields the last
template of `ts` with that id; every entry for another tag, or for an id that no
template of `ts` has, is what it was; and the same call a second time succeeds
and leaves the bundle equal to the bundle after the first call. -/
theorem AddMessageTemplates_last_write_wins (cldr : Str → Option (PluralRule Operands))
    (b : Bundle Operands Data UnmarshalFunc) (langTag : Str)
    (ts : List (MessageTemplate Data))
    (hok : (b.AddMessageTemplates cldr langTag ts).2 = none) :
    (∀ id t, (ts.filter (fun x => decide (x.ID = id))).getLast? = some t →
        (b.AddMessageTemplates cldr langTag ts).1.template langTag id = some t) ∧
      (∀ tag id, (tag ≠ langTag ∨ ∀ t ∈ ts, t.ID ≠ id) →
        (b.AddMessageTemplates cldr langTag ts).1.template tag id = b.template tag id) ∧
      (b.AddMessageTemplates cldr langTag ts).1.AddMessageTemplates cldr langTag ts =
        ((b.AddMessageTemplates cldr langTag ts).1, none) := by
  obtain ⟨pluralRule, h1, h2⟩ := AddMessageTemplates_ok cldr b langTag ts hok
  rw [h2]
  refine ⟨?_, ?_, ?_⟩
  · intro id t ht
    simp [Bundle.template, Bundle.templates, mapSet, addTemplatesLoop_apply, ht]
  · intro tag id h
    by_cases e : tag = langTag
    · subst e
      have h3 : ∀ t ∈ ts, t.ID ≠ id := by
        rcases h with h | h
        · exact absurd rfl h
        · exact h
      have h4 : ts.filter (fun t => decide (t.ID = id)) = [] := by
        rw [List.filter_eq_nil_iff]
        intro t ht
        simpa using h3 t ht
      rw [Bundle.template_eq b]
      simp only [Bundle.template, Bundle.templates, mapSet, if_true, addTemplatesLoop_apply, h4,
        List.getLast?_nil]
    · simp only [Bundle.template, Bundle.templates, mapSet, e, if_false]
      cases b.MessageTemplates <;> rfl
  · exact AddMessageTemplates_again cldr _ (b.rulesOrDefault cldr) b.UnmarshalFuncs langTag ts _
      pluralRule h1

end

/-- Witness for C10: registering two templates with the same id under `en-US`
on the zero bundle; the lookup yields the second one. -/
theorem AddMessageTemplates_last_write_wins_witness :
    (zeroBundle.AddMessageTemplates enOnly "en-US".toList [helloTemplate, helloTemplate2]).1.template
        "en-US".toList "HelloWorld".toList = some helloTemplate2 ∧
      (zeroBundle.AddMessageTemplates enOnly "en-US".toList
          [helloTemplate, helloTemplate2]).1.AddMessageTemplates enOnly "en-US".toList
          [helloTemplate, helloTemplate2] =
        ((zeroBundle.AddMessageTemplates enOnly "en-US".toList [helloTemplate, helloTemplate2]).1,
          none) :=
  ⟨(AddMessageTemplates_last_write_wins enOnly zeroBundle "en-US".toList
      [helloTemplate, helloTemplate2] (by decide)).1 "HelloWorld".toList helloTemplate2 rfl,
    (AddMessageTemplates_last_write_wins enOnly zeroBundle "en-US".toList
      [helloTemplate, helloTemplate2] (by decide)).2.2⟩

/-! ## C17, C18, C19, C20: `parseArgs` and `toMap` -/

theorem isNumber_iff (a : Value) :
    isNumber a = true ↔ (∃ k n, a = Value.int k n) ∨ ∃ s, a = Value.str s := by
  cases a <;> simp [isNumber]

theorem isNil_of_isNumber {a : Value} (h : isNumber a = true) : a.isNil = false := by
  cases a <;> simp_all [isNumber, Value.isNil]

theorem isNil_of_toMap {d : Value} {m : Str → Option Value} (h : toMap d = some (some m)) :
    d.isNil = false := by
  cases d <;> simp_all [toMap, Value.isNil]

/-- On a struct whose field names are distinct, `FieldByName` finds each field. -/
theorem fieldByName_mem (all : List (Field Value)) (hn : (all.map (fun f => f.Name)).Nodup)
    (f : Field Value) (hf : f ∈ all) : fieldByName all f.Name = some f.Value := by
  induction all with
  | nil => cases hf
  | cons g all ih =>
    rw [List.map_cons, List.nodup_cons] at hn
    rw [List.mem_cons] at hf
    unfold fieldByName
    rcases hf with hf | hf
    · subst hf
      simp [List.find?]
    · have hne : g.Name ≠ f.Name := by
        intro e
        exact hn.1 (e ▸ List.mem_map_of_mem (fun f => f.Name) hf)
      have := ih hn.2 hf
      unfold fieldByName at this
      simp [List.find?, hne, this]

theorem structToMapLoop_eq (all : List (Field Value)) (rest : List (Field Value))
    (hall : ∀ f ∈ rest, fieldByName all f.Name = some f.Value)
    (hn : (rest.map (fun f => f.Name)).Nodup) (out : Str → Option Value) :
    structToMapLoop all out rest =
      fun k => match rest.find? (fun f => f.Exported && decide (f.Name = k)) with
        | some f => some f.Value
        | none => out k := by
  induction rest generalizing out with
  | nil => rfl
  | cons g rest ih =>
    rw [List.map_cons, List.nodup_cons] at hn
    have hg := hall g (by simp)
    have ih1 := ih (fun f hf => hall f (by simp [hf])) hn.2
    funext k
    cases he : g.Exported with
    | false =>
      simp only [structToMapLoop, he, Bool.false_eq_true, if_false, ih1, List.find?, Bool.false_and]
    | true =>
      simp only [structToMapLoop, he, if_true, hg, ih1, List.find?, Bool.true_and]
      by_cases hk : g.Name = k
      · subst hk
        have hnone : rest.find? (fun f => f.Exported && decide (f.Name = g.Name)) = none := by
          rw [List.find?_eq_none]
          intro f hf
          have : f.Name ≠ g.Name := by
            intro e
            exact hn.1 (e ▸ List.mem_map_of_mem (fun f => f.Name) hf)
          simp [this]
        simp [hnone, mapSet]
      · have hk1 : ¬ k = g.Name := fun e => hk e.symm
        simp only [hk, decide_False]
        cases rest.find? (fun f => f.Exported && decide (f.Name = k)) with
        | some f => rfl
        | none => simp [mapSet, hk1]

/-- On a struct whose field names are distinct, `structToMap` projects exactly
the exported fields. -/
theorem structToMap_eq (fields : List (Field Value))
    (hn : (fields.map (fun f => f.Name)).Nodup) : structToMap fields = exportedFields fields := by
  unfold structToMap
  rw [structToMapLoop_eq fields fields (fun f hf => fieldByName_mem fields hn f hf) hn]
  funext k
  unfold exportedFields
  cases fields.find? (fun f => f.Exported && decide (f.Name = k)) <;> rfl

theorem indexOrNil_cons_zero (d : Value) (rest : List Value) : indexOrNil (d :: rest) 0 = d := by
  simp [indexOrNil]

theorem indexOrNil_cons_succ (d : Value) (rest : List Value) (i : Nat) :
    indexOrNil (d :: rest) (i + 1) = indexOrNil rest i := by
  simp [indexOrNil]

theorem parseArgs_of_number (q : Value) (rest : List Value) (hq : isNumber q = true) :
    parseArgs (q :: rest) = mergeCount q (indexOrNil rest 0) := by
  unfold parseArgs
  cases rest with
  | nil => simp [splitArgs, hq, indexOrNil]
  | cons d rest => simp [splitArgs, hq, indexOrNil]

theorem parseArgs_of_not_number (d : Value) (rest : List Value) (hd : isNumber d = false) :
    parseArgs (d :: rest) = mergeCount Value.nil d := by
  unfold parseArgs
  simp [splitArgs, hd]

/-- The first extra argument `hello`, which is no number and no numeric string,
is taken as the quantity: C17 as stated fails. -/
theorem parseArgs_any_string_is_quantity :
    isNumericString "hello".toList = false ∧
      splitArgs [Value.str "hello".toList] = (Value.str "hello".toList, Value.nil) ∧
      parseArgs [Value.str "hello".toList] =
        some (Value.str "hello".toList,
          Value.map (mapSet (fun _ => none) "Count".toList (Value.str "hello".toList))) := by
  refine ⟨by decide, rfl, rfl⟩

/-- C17, as amended.  `parseArgs` treats the first extra argument as the quantity
exactly when its type is `int`, `int8`, `int16`, `int32`, `int64` or `string`
(any string, numeric or not), the data then being the second extra argument if
there is one; otherwise the first extra argument is the data and no quantity
is taken from the positional arguments. -/
theorem parseArgs_first_argument (a : Value) (rest : List Value) :
    (isNumber a = true ↔ (∃ k n, a = Value.int k n) ∨ ∃ s, a = Value.str s) ∧
      (isNumber a = true →
        splitArgs (a :: rest) = (a, indexOrNil rest 0) ∧
          parseArgs (a :: rest) = mergeCount a (indexOrNil rest 0)) ∧
      (isNumber a = false →
        splitArgs (a :: rest) = (Value.nil, a) ∧
          parseArgs (a :: rest) = mergeCount Value.nil a) := by
  refine ⟨isNumber_iff a, fun h => ⟨?_, parseArgs_of_number a rest h⟩,
    fun h => ⟨?_, parseArgs_of_not_number a rest h⟩⟩
  · cases rest <;> simp [splitArgs, h, indexOrNil]
  · simp [splitArgs, h]

/-- Witness for C17 as amended: a string is the quantity, an unsigned integer is data. -/
theorem parseArgs_first_argument_witness :
    splitArgs [Value.str "1.7".toList, Value.map bobMap] =
        (Value.str "1.7".toList, Value.map bobMap) ∧
      splitArgs [Value.other "uint".toList, Value.map bobMap] =
        (Value.nil, Value.other "uint".toList) :=
  ⟨((parseArgs_first_argument (Value.str "1.7".toList) [Value.map bobMap]).2.1 rfl).1,
    ((parseArgs_first_argument (Value.other "uint".toList) [Value.map bobMap]).2.2 rfl).1⟩

theorem mergeCount_no_data (q : Value) (hnil : q.isNil = false) :
    mergeCount q Value.nil = some (q, Value.map (mapSet (fun _ => none) "Count".toList q)) := by
  unfold mergeCount
  rw [if_pos hnil, if_pos (show Value.nil.isNil = true from rfl)]

theorem mergeCount_data (q d : Value) (m : Str → Option Value) (hnil : q.isNil = false)
    (hm : toMap d = some (some m)) :
    mergeCount q d = some (q, Value.map (mapSet m "Count".toList q)) := by
  have hd : ¬ d.isNil = true := by rw [isNil_of_toMap hm]; exact Bool.false_ne_true
  unfold mergeCount
  rw [if_pos hnil, if_neg hd, hm]

theorem mergeCount_nil (d : Value) :
    mergeCount Value.nil d =
      match toMap d with
      | none => none
      | some none => some (Value.nil, d)
      | some (some dataMap) =>
        match dataMap "Count".toList with
        | some c => some (c, d)
        | none => some (Value.nil, d) := by
  have h : ¬ Value.nil.isNil = false := by
    rw [show Value.nil.isNil = true from rfl]; exact Bool.noConfusion
  unfold mergeCount
  rw [if_neg h]

/-- With a quantity and data in which `toMap` finds entries, `parseArgs` returns
the quantity and those entries with `Count` set to the quantity. -/
theorem parseArgs_number_data (q d : Value) (rest : List Value) (m : Str → Option Value)
    (hq : isNumber q = true) (hm : toMap d = some (some m)) :
    parseArgs (q :: d :: rest) = some (q, Value.map (mapSet m "Count".toList q)) := by
  rw [parseArgs_of_number q _ hq, indexOrNil_cons_zero]
  exact mergeCount_data q d m (isNil_of_isNumber hq) hm

/-- C18. Whenever a quantity is supplied, the data `parseArgs` returns is a
mapping whose `Count` entry is the quantity value itself and whose other
entries are those of the supplied data (the entries `toMap` finds in a mapping,
a record or a pointer to a record); with no data supplied, or nil data, it is
exactly `{Count: quantity}`; a `Count` already in the data is overridden. -/
theorem parseArgs_count_entry (q : Value) (hq : isNumber q = true) :
    parseArgs [q] = some (q, Value.map (mapSet (fun _ => none) "Count".toList q)) ∧
      (∀ rest, parseArgs (q :: Value.nil :: rest) =
        some (q, Value.map (mapSet (fun _ => none) "Count".toList q))) ∧
      (∀ d rest m, toMap d = some (some m) →
        parseArgs (q :: d :: rest) = some (q, Value.map (mapSet m "Count".toList q))) ∧
      (∀ m : Str → Option Value, mapSet m "Count".toList q "Count".toList = some q ∧
        ∀ k, k ≠ "Count".toList → mapSet m "Count".toList q k = m k) := by
  have hnil := isNil_of_isNumber hq
  refine ⟨?_, ?_, ?_, ?_⟩
  · rw [parseArgs_of_number q [] hq]
    exact mergeCount_no_data q hnil
  · intro rest
    rw [parseArgs_of_number q _ hq, indexOrNil_cons_zero]
    exact mergeCount_no_data q hnil
  · intro d rest m hm
    exact parseArgs_number_data q d rest m hq hm
  · intro m
    refine ⟨?_, fun k hk => ?_⟩
    · unfold mapSet; rw [if_pos rfl]
    · unfold mapSet; rw [if_neg hk]

/-- Witness for C18: the quantity `"1.7"` with the mapping `{"Person": "Bob"}`. -/
theorem parseArgs_count_entry_witness :
    parseArgs [Value.str "1.7".toList, Value.map bobMap] =
      some (Value.str "1.7".toList,
        Value.map (mapSet bobMap "Count".toList (Value.str "1.7".toList))) :=
  (parseArgs_count_entry (Value.str "1.7".toList) rfl).2.2.1 (Value.map bobMap) [] bobMap rfl

/-- C19. When no explicit quantity is supplied (the first extra argument is
data), and the data has entries (`toMap` finds them in a mapping, a record or
a pointer to a record) with a `Count` among them, `parseArgs` returns the value
of `Count` as the quantity and the data unchanged; when the entries have no
`Count`, or the data has no entries, or no argument is given, the quantity is
absent. -/
theorem parseArgs_count_field (d : Value) (rest : List Value) (hd : isNumber d = false) :
    (∀ m c, toMap d = some (some m) → m "Count".toList = some c →
        parseArgs (d :: rest) = some (c, d)) ∧
      (∀ m, toMap d = some (some m) → m "Count".toList = none →
        parseArgs (d :: rest) = some (Value.nil, d)) ∧
      (toMap d = some none → parseArgs (d :: rest) = some (Value.nil, d)) ∧
      parseArgs [] = some (Value.nil, Value.nil) := by
  rw [parseArgs_of_not_number d rest hd, mergeCount_nil]
  refine ⟨?_, ?_, ?_, rfl⟩
  · intro m c hm hc
    rw [hm]
    simp only [hc]
  · intro m hm hc
    rw [hm]
    simp only [hc]
  · intro hm
    rw [hm]

/-- Witness for C19: the record `bobStruct`, whose field `Count` is 3, and a
pointer to it. -/
theorem parseArgs_count_field_witness :
    parseArgs [Value.struct bobStruct] =
        some (Value.int IntKind.int 3, Value.struct bobStruct) ∧
      parseArgs [Value.ptr (Value.struct bobStruct)] =
        some (Value.int IntKind.int 3, Value.ptr (Value.struct bobStruct)) ∧
      parseArgs [Value.map bobMap] = some (Value.nil, Value.map bobMap) :=
  ⟨(parseArgs_count_field (Value.struct bobStruct) [] rfl).1 (structToMap bobStruct)
      (Value.int IntKind.int 3) rfl rfl,
    (parseArgs_count_field (Value.ptr (Value.struct bobStruct)) [] rfl).1 (structToMap bobStruct)
      (Value.int IntKind.int 3) rfl rfl,
    (parseArgs_count_field (Value.map bobMap) [] rfl).2.1 bobMap rfl rfl⟩

/-- C20. For every quantity and every record (a struct value, its field names
distinct), `parseArgs` given the record and `parseArgs` given the key/value
mapping of the record's exported top-level fields return the same quantity and
equal data mappings.  `toMap` projects exactly the exported top-level fields of
a record, their values as they are; it returns a mapping argument as it is; and
it dereferences a pointer to a record. -/
theorem parseArgs_record_eq_mapping (q : Value) (hq : isNumber q = true)
    (fields : List (Field Value)) (hn : (fields.map (fun f => f.Name)).Nodup)
    (rest : List Value) :
    parseArgs (q :: Value.struct fields :: rest) =
        parseArgs (q :: Value.map (exportedFields fields) :: rest) ∧
      parseArgs (q :: Value.struct fields :: rest) =
        some (q, Value.map (mapSet (exportedFields fields) "Count".toList q)) ∧
      toMap (Value.struct fields) = some (some (exportedFields fields)) ∧
      (∀ m, toMap (Value.map m) = some (some m)) ∧
      toMap (Value.ptr (Value.struct fields)) = some (some (exportedFields fields)) ∧
      parseArgs (q :: Value.ptr (Value.struct fields) :: rest) =
        parseArgs (q :: Value.map (exportedFields fields) :: rest) := by
  have h1 : toMap (Value.struct fields) = some (some (exportedFields fields)) := by
    simp [toMap, structToMap_eq fields hn]
  have h2 : toMap (Value.ptr (Value.struct fields)) = some (some (exportedFields fields)) := by
    rw [toMap]; exact h1
  have h3 : ∀ m, toMap (Value.map m) = some (some m) := fun m => rfl
  have hc := fun d m => parseArgs_number_data q d rest m hq
  refine ⟨?_, hc _ _ h1, h1, h3, h2, ?_⟩
  · rw [hc _ _ h1, hc _ _ (h3 _)]
  · rw [hc _ _ h2, hc _ _ (h3 _)]

/-- Witness for C20: the record `bobStruct` with the quantity 1. -/
theorem parseArgs_record_eq_mapping_witness :
    parseArgs [Value.int IntKind.int 1, Value.struct bobStruct] =
      parseArgs [Value.int IntKind.int 1, Value.map (exportedFields bobStruct)] :=
  (parseArgs_record_eq_mapping (Value.int IntKind.int 1) rfl bobStruct (by decide) []).1

/-! ## `NewMessageTemplate` and `Message.Template` -/

section
variable {Operands : Type}

/-- The loop of `NewMessageTemplate` succeeds exactly when every key other than
`description` is a recognized category and its text compiles. -/
theorem newMessageTemplateLoop_ok_iff (env : Env Operands) (data : List (Str × Str))
    (translation : MessageTemplate Value) :
    (∃ t, newMessageTemplateLoop env translation data = Except.ok t) ↔
      ∀ kv ∈ data, kv.1 ≠ "description".toList →
        (∃ pf, env.NewPluralForm kv.1 = Except.ok pf) ∧ ∃ t, env.NewTemplate kv.2 = Except.ok t := by
  induction data generalizing translation with
  | nil => simp [newMessageTemplateLoop]
  | cons kv data ih =>
    obtain ⟨k, v⟩ := kv
    by_cases hk : k = "description".toList
    · simp only [newMessageTemplateLoop, hk, if_true, ih, List.mem_cons]
      constructor
      · intro h kv hkv hne
        rcases hkv with hkv | hkv
        · subst hkv; exact absurd rfl hne
        · exact h kv hkv hne
      · intro h kv hkv hne
        exact h kv (Or.inr hkv) hne
    · simp only [newMessageTemplateLoop, hk, if_false]
      cases hp : env.NewPluralForm k with
      | error e =>
        simp only [List.mem_cons]
        constructor
        · rintro ⟨t, ht⟩; cases ht
        · intro h
          obtain ⟨⟨pf, hpf⟩, _⟩ := h (k, v) (Or.inl rfl) hk
          simp only at hpf
          rw [hp] at hpf
          cases hpf
      | ok pf =>
        cases ht : env.NewTemplate v with
        | error e =>
          simp only [List.mem_cons]
          constructor
          · rintro ⟨t, h⟩; cases h
          · intro h
            obtain ⟨_, ⟨t, h1⟩⟩ := h (k, v) (Or.inl rfl) hk
            simp only at h1
            rw [ht] at h1
            cases h1
        | ok tmpl =>
          simp only [ih, List.mem_cons]
          constructor
          · intro h kv hkv hne
            rcases hkv with hkv | hkv
            · subst hkv
              exact ⟨⟨pf, hp⟩, ⟨tmpl, ht⟩⟩
            · exact h kv hkv hne
          · intro h kv hkv hne
            exact h kv (Or.inr hkv) hne

/-- The method `Message.Template` succeeds exactly when the six contents compile. -/
theorem Message_Template_ok_iff (env : Env Operands) (hforms : env.RecognizesCategories)
    (m : Message) :
    (∃ t, m.Template env = Except.ok t) ↔
      ∀ pf s, m.content pf = some s → ∃ t, env.NewTemplate s = Except.ok t := by
  obtain ⟨h0, h1, h2, h3, h4, h5⟩ := hforms
  unfold Message.Template NewMessageTemplate
  rw [newMessageTemplateLoop_ok_iff]
  constructor
  · intro h pf s hs
    cases pf with
    | Invalid => cases hs
    | Zero =>
      have := (h ("zero".toList, m.Zero) (by simp [Message.entries])
        (show "zero".toList ≠ "description".toList by decide)).2
      simp only [Message.content, Option.some.injEq] at hs; subst hs; exact this
    | One =>
      have := (h ("one".toList, m.One) (by simp [Message.entries])
        (show "one".toList ≠ "description".toList by decide)).2
      simp only [Message.content, Option.some.injEq] at hs; subst hs; exact this
    | Two =>
      have := (h ("two".toList, m.Two) (by simp [Message.entries])
        (show "two".toList ≠ "description".toList by decide)).2
      simp only [Message.content, Option.some.injEq] at hs; subst hs; exact this
    | Few =>
      have := (h ("few".toList, m.Few) (by simp [Message.entries])
        (show "few".toList ≠ "description".toList by decide)).2
      simp only [Message.content, Option.some.injEq] at hs; subst hs; exact this
    | Many =>
      have := (h ("many".toList, m.Many) (by simp [Message.entries])
        (show "many".toList ≠ "description".toList by decide)).2
      simp only [Message.content, Option.some.injEq] at hs; subst hs; exact this
    | Other =>
      have := (h ("other".toList, m.Other) (by simp [Message.entries])
        (show "other".toList ≠ "description".toList by decide)).2
      simp only [Message.content, Option.some.injEq] at hs; subst hs; exact this
  · intro h kv hkv hne
    simp only [Message.entries, List.mem_cons, List.mem_singleton, List.mem_nil_iff,
      or_false] at hkv
    rcases hkv with e | e | e | e | e | e | e
    · subst e; exact absurd rfl hne
    · subst e; exact ⟨⟨_, h0⟩, h PluralForm.Zero _ rfl⟩
    · subst e; exact ⟨⟨_, h1⟩, h PluralForm.One _ rfl⟩
    · subst e; exact ⟨⟨_, h2⟩, h PluralForm.Two _ rfl⟩
    · subst e; exact ⟨⟨_, h3⟩, h PluralForm.Few _ rfl⟩
    · subst e; exact ⟨⟨_, h4⟩, h PluralForm.Many _ rfl⟩
    · subst e; exact ⟨⟨_, h5⟩, h PluralForm.Other _ rfl⟩

/-- The template that `Message.Template` returns: the id and the description of
the message and, under each of the six categories, its content compiled;
nothing under `Invalid`. -/
theorem Message_Template_forms (env : Env Operands) (hforms : env.RecognizesCategories)
    (m : Message) (template : MessageTemplate Value) (h : m.Template env = Except.ok template) :
    template.ID = m.ID ∧ template.Description = m.Description ∧
      template.PluralForms PluralForm.Invalid = none ∧
      ∀ pf s, m.content pf = some s →
        ∃ t, env.NewTemplate s = Except.ok t ∧ template.PluralForms pf = some t := by
  obtain ⟨h0, h1, h2, h3, h4, h5⟩ := hforms
  have hall := (Message_Template_ok_iff env ⟨h0, h1, h2, h3, h4, h5⟩ m).1 ⟨template, h⟩
  obtain ⟨tz, hz⟩ := hall PluralForm.Zero _ rfl
  obtain ⟨t1, ho⟩ := hall PluralForm.One _ rfl
  obtain ⟨tt, htw⟩ := hall PluralForm.Two _ rfl
  obtain ⟨tf, hf⟩ := hall PluralForm.Few _ rfl
  obtain ⟨tm, hm⟩ := hall PluralForm.Many _ rfl
  obtain ⟨tr, hr⟩ := hall PluralForm.Other _ rfl
  have e : m.Template env = Except.ok
      { ID := m.ID, Description := m.Description,
        PluralForms := formSet (formSet (formSet (formSet (formSet (formSet (fun _ => none)
          PluralForm.Zero tz) PluralForm.One t1) PluralForm.Two tt) PluralForm.Few tf)
          PluralForm.Many tm) PluralForm.Other tr } := by
    have d0 : ("zero".toList = "description".toList) = False := by decide
    have d1 : ("one".toList = "description".toList) = False := by decide
    have d2 : ("two".toList = "description".toList) = False := by decide
    have d3 : ("few".toList = "description".toList) = False := by decide
    have d4 : ("many".toList = "description".toList) = False := by decide
    have d5 : ("other".toList = "description".toList) = False := by decide
    simp only [Message.Template, NewMessageTemplate, Message.entries, newMessageTemplateLoop,
      if_true, d0, d1, d2, d3, d4, d5, if_false, h0, h1, h2, h3, h4, h5, hz, ho, htw, hf, hm, hr]
  rw [e] at h
  cases h
  refine ⟨rfl, rfl, rfl, ?_⟩
  intro pf s hs
  cases pf with
  | Invalid => cases hs
  | Zero => simp only [Message.content, Option.some.injEq] at hs; subst hs; exact ⟨tz, hz, rfl⟩
  | One => simp only [Message.content, Option.some.injEq] at hs; subst hs; exact ⟨t1, ho, rfl⟩
  | Two => simp only [Message.content, Option.some.injEq] at hs; subst hs; exact ⟨tt, htw, rfl⟩
  | Few => simp only [Message.content, Option.some.injEq] at hs; subst hs; exact ⟨tf, hf, rfl⟩
  | Many => simp only [Message.content, Option.some.injEq] at hs; subst hs; exact ⟨tm, hm, rfl⟩
  | Other => simp only [Message.content, Option.some.injEq] at hs; subst hs; exact ⟨tr, hr, rfl⟩

end

/-! ## C11: the bundles reached by registration -/

section
variable {Operands Data UnmarshalFunc : Type}

theorem rulesOrDefault_cases (cldr : Str → Option (PluralRule Operands))
    (b : Bundle Operands Data UnmarshalFunc) (t : Str) :
    (b.PluralRules = none ∧ b.rule t = none ∧ b.rulesOrDefault cldr t = cldr t) ∨
      ((∃ rules, b.PluralRules = some rules) ∧ b.rulesOrDefault cldr t = b.rule t) := by
  unfold Bundle.rule Bundle.rulesOrDefault
  cases h : b.PluralRules with
  | none => exact Or.inl ⟨rfl, rfl, rfl⟩
  | some rules => exact Or.inr ⟨⟨rules, rfl⟩, rfl⟩

/-- The invariant of registration: a tag that owns a template map has a rule
under that exact tag, and every rule of the bundle is a rule of the built-in table. -/
theorem Reachable_invariant (cldr : Str → Option (PluralRule Operands))
    (b : Bundle Operands Data UnmarshalFunc) (h : Reachable cldr b) :
    (∀ tag, b.templates tag ≠ none → b.rule tag ≠ none) ∧
      ∀ tag r, b.rule tag = some r → ∃ t, cldr t = some r := by
  induction h with
  | empty =>
    refine ⟨fun tag h => absurd rfl h, fun tag r h => ?_⟩
    simp [Bundle.rule] at h
  | newBundle json =>
    refine ⟨fun tag h => absurd rfl h, fun tag r h => ⟨tag, h⟩⟩
  | add b langTag ts _ ih =>
    obtain ⟨ih1, ih2⟩ := ih
    have hdef : ∀ t r, b.rulesOrDefault cldr t = some r → ∃ t1, cldr t1 = some r := by
      intro t r h
      rcases rulesOrDefault_cases cldr b t with ⟨_, _, e⟩ | ⟨_, e⟩
      · exact ⟨t, by rw [← e]; exact h⟩
      · exact ih2 t r (by rw [← e]; exact h)
    have hkeep : ∀ t, b.templates t ≠ none → b.rulesOrDefault cldr t ≠ none := by
      intro t ht
      rcases rulesOrDefault_cases cldr b t with ⟨_, e, _⟩ | ⟨_, e⟩
      · exact absurd e (ih1 t ht)
      · rw [e]; exact ih1 t ht
    cases hr : b.rulesOrDefault cldr (pluralID langTag) with
    | none =>
      have e : b.AddMessageTemplates cldr langTag ts =
          ({ b with PluralRules := some (b.rulesOrDefault cldr) },
            some (Error.noPluralRule (pluralID langTag))) := by
        unfold Bundle.AddMessageTemplates
        rw [hr]
      rw [e]
      exact ⟨fun tag ht => hkeep tag ht, fun tag r h => hdef tag r h⟩
    | some pluralRule =>
      rw [AddMessageTemplates_of_rule cldr b langTag ts pluralRule hr]
      constructor
      · intro tag ht
        by_cases e : tag = langTag
        · simp [Bundle.rule, mapSet, e]
        · have ht1 : b.templates tag ≠ none := by
            simp only [Bundle.templates, mapSet, e, if_false] at ht
            unfold Bundle.templates
            cases hm : b.MessageTemplates with
            | none => rw [hm] at ht; exact absurd rfl ht
            | some m => rw [hm] at ht; exact ht
          have := hkeep tag ht1
          simpa [Bundle.rule, mapSet, e] using this
      · intro tag r h
        by_cases e : tag = langTag
        · simp only [Bundle.rule, mapSet, e, if_true, Option.some.injEq] at h
          subst h
          exact hdef _ _ hr
        · simp only [Bundle.rule, mapSet, e, if_false] at h
          exact hdef tag r h

/-- The loop of `localize` returns no error on a bundle in which every tag that
owns a template map has, under that exact tag, a rule that never returns `Invalid`. -/
theorem localizeLoop_no_error (l : Localizer Operands Data UnmarshalFunc)
    (hinv : ∀ tag, l.Bundle.templates tag ≠ none →
      ∃ r, l.Bundle.rule tag = some r ∧ ∀ ops, r.PluralFormFunc ops ≠ PluralForm.Invalid)
    (id : Str) (operands : Option Operands) (data : Data) (tags : List Str) :
    (l.localizeLoop id operands data tags).2 = none := by
  induction tags with
  | nil => rfl
  | cons tag tags ih =>
    cases ht : l.Bundle.template tag id with
    | none => rw [localizeLoop_cons_none l id operands data tag tags ht]; exact ih
    | some template =>
      rw [localizeLoop_cons_some l id operands data tag tags template ht]
      have hne : l.Bundle.templates tag ≠ none := by
        intro e
        unfold Bundle.template at ht
        rw [e] at ht
        cases ht
      obtain ⟨r, hr, hvalid⟩ := hinv tag hne
      have hpf : l.pluralForm tag operands ≠ PluralForm.Invalid := by
        cases operands with
        | none => simp [Localizer.pluralForm]
        | some ops => simpa [Localizer.pluralForm, hr] using hvalid ops
      rw [if_neg hpf]
      split
      · rfl
      · exact ih

/-- C11. Every bundle reached from an empty `Bundle` or from `NewBundle()` by a
sequence of calls of `AddMessageTemplates` satisfies the invariant that each
language tag owning a template map has a plural rule registered under that
exact tag; consequently, the rules of the built-in table never returning
`Invalid`, `localize` on such a bundle never returns the pluralization error
(it returns no error at all), for any id, operands, data and tag list. -/
theorem Reachable_localize_no_error (cldr : Str → Option (PluralRule Operands))
    (b : Bundle Operands Data UnmarshalFunc) (h : Reachable cldr b) :
    (∀ tag, b.templates tag ≠ none → b.rule tag ≠ none) ∧
      (ValidRuleTable cldr →
        ∀ (tags : List Str) (id : Str) (operands : Option Operands) (data : Data),
          (Localizer.localize { Bundle := b, LanguageTags := tags } id operands data).2 = none) := by
  obtain ⟨h1, h2⟩ := Reachable_invariant cldr b h
  refine ⟨h1, fun hcldr tags id operands data => ?_⟩
  unfold Localizer.localize
  apply localizeLoop_no_error
  intro tag ht
  cases hr : b.rule tag with
  | none => exact absurd hr (h1 tag ht)
  | some r =>
    obtain ⟨t, hc⟩ := h2 tag r hr
    exact ⟨r, rfl, hcldr t r hc⟩

end

theorem enOnly_valid : ValidRuleTable enOnly := by
  intro t r h ops
  unfold enOnly at h
  split at h
  · cases h
    simp only [enRule]
    split <;> simp
  · cases h

/-- Witness for C11: `en-US` registered on the zero bundle, then a failed
registration of `xx`; `localize` with a quantity returns no error. -/
theorem Reachable_localize_no_error_witness :
    (Localizer.localize
      { Bundle := ((zeroBundle.AddMessageTemplates enOnly "en-US".toList [helloTemplate]).1.AddMessageTemplates
          enOnly "xx".toList [helloTemplate]).1,
        LanguageTags := ["xx".toList, "en-US".toList] }
      "HelloWorld".toList (some 2) ()).2 = none :=
  (Reachable_localize_no_error enOnly _
    (Reachable.add _ "xx".toList [helloTemplate]
      (Reachable.add _ "en-US".toList [helloTemplate] Reachable.empty))).2 enOnly_valid
    ["xx".toList, "en-US".toList] "HelloWorld".toList (some 2) ()

/-! ## C12 to C16: `DefaultLocalizer` -/

section
variable {Operands UnmarshalFunc : Type}

/-- The literal-default form of `Localize` calls `localize` with the message
`{ID: id, Other: default}`, the quantity 0 and the third argument as data. -/
theorem Localize_id_eq (env : Env Operands) (l : DefaultLocalizer Operands UnmarshalFunc)
    (id defaultMessage : Str) (rest : List Value) :
    l.Localize env (IdOrMessage.id id) (Value.str defaultMessage :: rest) =
      some (l.localize env { ID := id, Other := defaultMessage } (Value.int IntKind.int 0)
        (indexOrNil rest 0)) := by
  simp only [DefaultLocalizer.Localize, indexOrNil_cons_zero, indexOrNil_cons_succ]

/-- The `*Message` form of `Localize` calls `localize` with what `parseArgs` returns. -/
theorem Localize_message_eq (env : Env Operands) (l : DefaultLocalizer Operands UnmarshalFunc)
    (message : Message) (args : List Value) (pluralCount templateData : Value)
    (h : parseArgs args = some (pluralCount, templateData)) :
    l.Localize env (IdOrMessage.message message) args =
      some (l.localize env message pluralCount templateData) := by
  simp only [DefaultLocalizer.Localize, h]

theorem DefaultLocalizer_of_base_error (env : Env Operands)
    (l : DefaultLocalizer Operands UnmarshalFunc) (message : Message)
    (pluralCount templateData : Value) (err : Error)
    (h : (l.Localizer.localize message.ID (env.newOperands pluralCount).1 templateData).2 =
      some err) :
    l.localize env message pluralCount templateData = ([], some err) := by
  unfold DefaultLocalizer.localize
  rw [h]

theorem DefaultLocalizer_of_base_text (env : Env Operands)
    (l : DefaultLocalizer Operands UnmarshalFunc) (message : Message)
    (pluralCount templateData : Value)
    (herr : (l.Localizer.localize message.ID (env.newOperands pluralCount).1 templateData).2 = none)
    (htext : (l.Localizer.localize message.ID (env.newOperands pluralCount).1 templateData).1 ≠ []) :
    l.localize env message pluralCount templateData =
      ((l.Localizer.localize message.ID (env.newOperands pluralCount).1 templateData).1, none) := by
  unfold DefaultLocalizer.localize
  rw [herr]
  simp only [htext, ne_eq, not_false_eq_true, if_true]

/-- The default fallback: what `localize` does once the bundle lookup has
returned the empty text and no error. -/
theorem DefaultLocalizer_fallback (env : Env Operands)
    (l : DefaultLocalizer Operands UnmarshalFunc) (message : Message)
    (pluralCount templateData : Value)
    (hbase : l.Localizer.localize message.ID (env.newOperands pluralCount).1 templateData =
      ([], none)) :
    l.localize env message pluralCount templateData =
      match message.Template env with
      | Except.error err => ([], some err)
      | Except.ok template =>
        if l.Localizer.pluralForm l.DefaultLanguageTag (env.newOperands pluralCount).1 =
            PluralForm.Invalid then
          ([], some (Error.unableToPluralize message.ID l.DefaultLanguageTag))
        else
          (template.Execute
            (l.Localizer.pluralForm l.DefaultLanguageTag (env.newOperands pluralCount).1)
            templateData, none) := by
  unfold DefaultLocalizer.localize
  rw [hbase]
  simp only [ne_eq, not_true_eq_false, if_false]

/-- The literal-default form where it does return the default text: the default
text compiles, the default language tag has a plural rule under the exact tag,
and that rule happens to place the quantity 0, which the form passes, in the
category `Other`, the only category of the message it builds. -/
theorem Localize_default_text (env : Env Operands) (hforms : env.RecognizesCategories)
    (l : DefaultLocalizer Operands UnmarshalFunc) (id defaultText : Str) (rest : List Value)
    (ops : Operands) (rule : PluralRule Operands) (t0 tmpl : Template Value)
    (hmiss : ∀ t ∈ l.Localizer.LanguageTags, l.Localizer.Bundle.template t id = none)
    (hops : (env.newOperands (Value.int IntKind.int 0)).1 = some ops)
    (hrule : l.Localizer.Bundle.rule l.DefaultLanguageTag = some rule)
    (hother : rule.PluralFormFunc ops = PluralForm.Other)
    (hempty : env.NewTemplate [] = Except.ok t0)
    (hdefault : env.NewTemplate defaultText = Except.ok tmpl) :
    l.Localize env (IdOrMessage.id id) (Value.str defaultText :: rest) =
      some (tmpl.Execute (indexOrNil rest 0), none) := by
  rw [Localize_id_eq]
  have hbase : l.Localizer.localize id (env.newOperands (Value.int IntKind.int 0)).1
      (indexOrNil rest 0) = ([], none) := by
    unfold Localizer.localize
    have := localizeLoop_skip l.Localizer id (env.newOperands (Value.int IntKind.int 0)).1
      (indexOrNil rest 0) l.Localizer.LanguageTags [] (fun t ht => Or.inl (hmiss t ht))
    rw [List.append_nil] at this
    rw [this]
    rfl
  have hcontent : ∀ pf s, ({ ID := id, Other := defaultText } : Message).content pf = some s →
      ∃ t, env.NewTemplate s = Except.ok t := by
    intro pf s hs
    cases pf with
    | Invalid => cases hs
    | Other =>
      simp only [Message.content, Option.some.injEq] at hs; subst hs; exact ⟨tmpl, hdefault⟩
    | Zero => simp only [Message.content, Option.some.injEq] at hs; subst hs; exact ⟨t0, hempty⟩
    | One => simp only [Message.content, Option.some.injEq] at hs; subst hs; exact ⟨t0, hempty⟩
    | Two => simp only [Message.content, Option.some.injEq] at hs; subst hs; exact ⟨t0, hempty⟩
    | Few => simp only [Message.content, Option.some.injEq] at hs; subst hs; exact ⟨t0, hempty⟩
    | Many => simp only [Message.content, Option.some.injEq] at hs; subst hs; exact ⟨t0, hempty⟩
  obtain ⟨template, htemplate⟩ := (Message_Template_ok_iff env hforms _).2 hcontent
  obtain ⟨_, _, _, hf⟩ := Message_Template_forms env hforms _ template htemplate
  obtain ⟨t, ht1, ht2⟩ := hf PluralForm.Other defaultText rfl
  rw [hdefault] at ht1
  cases ht1
  have hpf : l.Localizer.pluralForm l.DefaultLanguageTag
      (env.newOperands (Value.int IntKind.int 0)).1 = PluralForm.Other := by
    rw [hops]
    simp only [Localizer.pluralForm, hrule, hother]
  rw [DefaultLocalizer_fallback env l _ _ _ hbase, htemplate]
  simp only [hpf, MessageTemplate.Execute, ht2, Template.ExecuteNilSafe]
  rfl

/-- C13. If the bundle lookup yields non-empty text (and no error) for the id,
`DefaultLocalizer.localize` returns exactly what the base `Localizer.localize`
returns for the same id, quantity and data, whatever the default message and
the default language tag are: they are not consulted.  The same holds between
`DefaultLocalizer.Localize(message, args...)` and
`Localizer.Localize(message.ID, args...)`. -/
theorem DefaultLocalizer_eq_base (env : Env Operands)
    (l : DefaultLocalizer Operands UnmarshalFunc) (message : Message)
    (pluralCount templateData : Value)
    (herr : (l.Localizer.localize message.ID (env.newOperands pluralCount).1 templateData).2 = none)
    (htext : (l.Localizer.localize message.ID (env.newOperands pluralCount).1 templateData).1 ≠ []) :
    l.localize env message pluralCount templateData =
        l.Localizer.localize message.ID (env.newOperands pluralCount).1 templateData ∧
      (∀ args, parseArgs args = some (pluralCount, templateData) →
        l.Localize env (IdOrMessage.message message) args =
          l.Localizer.Localize env message.ID args) := by
  have h1 : l.localize env message pluralCount templateData =
      l.Localizer.localize message.ID (env.newOperands pluralCount).1 templateData := by
    rw [DefaultLocalizer_of_base_text env l message pluralCount templateData herr htext]
    exact Prod.ext rfl herr.symm
  refine ⟨h1, fun args hargs => ?_⟩
  rw [Localize_message_eq env l message args pluralCount templateData hargs, h1]
  simp only [Localizer.Localize, hargs]

/-- C14. When the bundle lookup yields the empty text without error, the
default message compiles and the category `pluralForm(DefaultLanguageTag,
operands)` is not `Invalid`, the text `DefaultLocalizer.localize` returns is the
rendering of the default message's content for that category.  The category
depends on the bundle, the default language tag and the operands only: it is
the same for every list of preferred tags. -/
theorem DefaultLocalizer_default_category (env : Env Operands) (hforms : env.RecognizesCategories)
    (l : DefaultLocalizer Operands UnmarshalFunc) (message : Message)
    (pluralCount templateData : Value) (template : MessageTemplate Value)
    (hbase : l.Localizer.localize message.ID (env.newOperands pluralCount).1 templateData =
      ([], none))
    (htemplate : message.Template env = Except.ok template)
    (hform : l.Localizer.pluralForm l.DefaultLanguageTag (env.newOperands pluralCount).1 ≠
      PluralForm.Invalid) :
    l.localize env message pluralCount templateData =
        (template.Execute
          (l.Localizer.pluralForm l.DefaultLanguageTag (env.newOperands pluralCount).1)
          templateData, none) ∧
      (∀ s, message.content
          (l.Localizer.pluralForm l.DefaultLanguageTag (env.newOperands pluralCount).1) = some s →
        ∃ t, env.NewTemplate s = Except.ok t ∧
          l.localize env message pluralCount templateData = (t.Execute templateData, none)) ∧
      (∀ tags : List Str,
        Localizer.pluralForm { Bundle := l.Localizer.Bundle, LanguageTags := tags }
            l.DefaultLanguageTag (env.newOperands pluralCount).1 =
          l.Localizer.pluralForm l.DefaultLanguageTag (env.newOperands pluralCount).1) := by
  have h1 : l.localize env message pluralCount templateData =
      (template.Execute
        (l.Localizer.pluralForm l.DefaultLanguageTag (env.newOperands pluralCount).1)
        templateData, none) := by
    rw [DefaultLocalizer_fallback env l _ _ _ hbase, htemplate]
    simp only [hform, if_false]
  refine ⟨h1, fun s hs => ?_, fun tags => rfl⟩
  obtain ⟨_, _, _, hf⟩ := Message_Template_forms env hforms message template htemplate
  obtain ⟨t, ht1, ht2⟩ := hf _ s hs
  refine ⟨t, ht1, ?_⟩
  rw [h1]
  simp only [MessageTemplate.Execute, ht2, Template.ExecuteNilSafe]

/-- C15, as amended.  Whenever the default fallback is reached (the bundle lookup
returned the empty text and no error), no plural rule is registered under the
default language tag and the call carries operands, `DefaultLocalizer.localize`
returns an error and no text; the literal-default form of `Localize` always
carries operands when `newOperands` accepts the integer 0.  When the call
carries no operands, no rule is consulted: the category is `Other` and the
rendering of the default message for `Other` is returned with no error. -/
theorem DefaultLocalizer_no_rule (env : Env Operands)
    (l : DefaultLocalizer Operands UnmarshalFunc) (message : Message)
    (pluralCount templateData : Value)
    (hbase : l.Localizer.localize message.ID (env.newOperands pluralCount).1 templateData =
      ([], none))
    (hrule : l.Localizer.Bundle.rule l.DefaultLanguageTag = none) :
    (∀ ops, (env.newOperands pluralCount).1 = some ops →
        (l.localize env message pluralCount templateData).1 = [] ∧
          (l.localize env message pluralCount templateData).2 ≠ none) ∧
      (∀ template, (env.newOperands pluralCount).1 = none →
        message.Template env = Except.ok template →
          l.localize env message pluralCount templateData =
            (template.Execute PluralForm.Other templateData, none)) := by
  rw [DefaultLocalizer_fallback env l _ _ _ hbase]
  constructor
  · intro ops hops
    have hpf : l.Localizer.pluralForm l.DefaultLanguageTag (env.newOperands pluralCount).1 =
        PluralForm.Invalid := by
      rw [hops]
      simp only [Localizer.pluralForm, hrule]
    cases message.Template env with
    | error err => exact ⟨rfl, by simp⟩
    | ok template => simp [hpf]
  · intro template hops htemplate
    have hpf : l.Localizer.pluralForm l.DefaultLanguageTag (env.newOperands pluralCount).1 =
        PluralForm.Other := by
      rw [hops]
      rfl
    rw [htemplate]
    simp only [hpf]
    rfl

/-- C16, as amended.  When the bundle lookup finds nothing, the default message
compiles and a category other than `Invalid` is selected, the default-aware
resolver returns no error, also when the content for the selected category
renders empty: the result is then the empty text with no error. -/
theorem DefaultLocalizer_empty_content (env : Env Operands)
    (l : DefaultLocalizer Operands UnmarshalFunc) (message : Message)
    (pluralCount templateData : Value) (template : MessageTemplate Value)
    (hbase : l.Localizer.localize message.ID (env.newOperands pluralCount).1 templateData =
      ([], none))
    (htemplate : message.Template env = Except.ok template)
    (hform : l.Localizer.pluralForm l.DefaultLanguageTag (env.newOperands pluralCount).1 ≠
      PluralForm.Invalid) :
    (l.localize env message pluralCount templateData).2 = none ∧
      (template.Execute
          (l.Localizer.pluralForm l.DefaultLanguageTag (env.newOperands pluralCount).1)
          templateData = [] →
        l.localize env message pluralCount templateData = ([], none)) := by
  rw [DefaultLocalizer_fallback env l _ _ _ hbase, htemplate]
  simp only [hform, if_false, true_and]
  intro h
  rw [h]

end

/-! ## C12 to C16: worked instances -/

theorem exEnv_recognizes : exEnv.RecognizesCategories :=
  ⟨rfl, rfl, rfl, rfl, rfl, rfl⟩

/-- C12 (failing input): the default language `fr` has a plural rule, no tag
holds a message for the id, and yet the literal-default form
`Localize("HelloWorld", "Bonjour")` returns the empty text and no error instead
of `Bonjour`.  The form passes the quantity 0 with the message
`{ID, Other: default}`; the rule of `fr` places 0 in `One`, for which the
message has no content.  On the same localizer the `*Message` form with the
same message and no quantity returns `Bonjour`, and with the default language
`en`, whose rule places 0 in `Other`, the literal-default form returns it too. -/
theorem Localize_default_text_lost :
    (rulesBundle.rule "fr".toList).isSome = true ∧
      (∀ t, rulesBundle.template t "HelloWorld".toList = none) ∧
      (NewDefaultLocalizer rulesBundle "fr".toList "fr".toList).Localize exEnv
          (IdOrMessage.id "HelloWorld".toList) [Value.str "Bonjour".toList] =
        some ([], none) ∧
      (NewDefaultLocalizer rulesBundle "fr".toList "fr".toList).Localize exEnv
          (IdOrMessage.message { ID := "HelloWorld".toList, Other := "Bonjour".toList }) [] =
        some ("Bonjour".toList, none) ∧
      (NewDefaultLocalizer rulesBundle "fr".toList "en".toList).Localize exEnv
          (IdOrMessage.id "HelloWorld".toList) [Value.str "Bonjour".toList] =
        some ("Bonjour".toList, none) := by
  refine ⟨by decide, fun t => rfl, by decide, by decide, by decide⟩

/-- The default text must compile: with the ill-formed default `{{` the
literal-default form returns the error of `Message.Template`. -/
theorem Localize_default_text_ill_formed :
    (NewDefaultLocalizer rulesBundle "en".toList "en".toList).Localize exEnv
        (IdOrMessage.id "HelloWorld".toList) [Value.str "\x7b\x7b".toList] =
      some ([], some (Error.external "template: unclosed action".toList)) := by
  decide

/-- The first line of `ExampleDefaultLocalizer_MustLocalize`: default
`Hello World!`, default language `en`, preference `en`. -/
theorem Localize_default_text_witness :
    (NewDefaultLocalizer esBundle "en".toList "en".toList).Localize exEnv
        (IdOrMessage.id "HelloWorld".toList) [Value.str "Hello World!".toList] =
      some ("Hello World!".toList, none) :=
  Localize_default_text exEnv exEnv_recognizes (NewDefaultLocalizer esBundle "en".toList "en".toList)
    "HelloWorld".toList "Hello World!".toList [] 0 enRule { Execute := fun _ => [] }
    { Execute := fun _ => "Hello World!".toList }
    (by
      intro t ht
      have e : (NewDefaultLocalizer esBundle "en".toList "en".toList).Localizer.LanguageTags =
          ["en".toList] := by decide
      rw [e, List.mem_singleton] at ht
      subst ht
      rfl)
    rfl rfl rfl rfl rfl

/-- Witness for C13 (`ExampleDefaultLocalizer_MustLocalize`, second call, with
an ill-formed default message and a default language without rule): the
preference `es-es` finds `Hola Mundo!` under `es`. -/
theorem DefaultLocalizer_eq_base_witness :
    (NewDefaultLocalizer esBundle "es-es".toList "xx".toList).localize exEnv
        { ID := "HelloWorld".toList, Other := "\x7b\x7b".toList } (Value.int IntKind.int 0) Value.nil =
      ("Hola Mundo!".toList, none) :=
  ((DefaultLocalizer_eq_base exEnv (NewDefaultLocalizer esBundle "es-es".toList "xx".toList)
    { ID := "HelloWorld".toList, Other := "\x7b\x7b".toList } (Value.int IntKind.int 0) Value.nil
    (by decide) (by decide)).1).trans (by decide)

/-- Witness for C14: preference `en`, default language `fr`, quantity 1; the
rule of `fr` selects `One`. -/
theorem DefaultLocalizer_default_category_witness :
    (NewDefaultLocalizer rulesBundle "en".toList "fr".toList).localize exEnv
        { ID := "Things".toList, One := "Une chose".toList, Other := "Des choses".toList }
        (Value.int IntKind.int 1) Value.nil =
      ("Une chose".toList, none) :=
  ((DefaultLocalizer_default_category exEnv exEnv_recognizes
    (NewDefaultLocalizer rulesBundle "en".toList "fr".toList)
    { ID := "Things".toList, One := "Une chose".toList, Other := "Des choses".toList }
    (Value.int IntKind.int 1) Value.nil _ (by decide) rfl (by decide)).1).trans (by decide)

/-- C15 as stated fails: the default language `xx` has no plural rule, the
bundle lookup finds nothing, and yet the `*Message` form without a quantity
returns the default text and no error. -/
theorem Localize_no_rule_no_quantity :
    (rulesBundle.rule "xx".toList).isSome = false ∧
      (∀ t, rulesBundle.template t "HelloWorld".toList = none) ∧
      (NewDefaultLocalizer rulesBundle "en".toList "xx".toList).Localize exEnv
          (IdOrMessage.message { ID := "HelloWorld".toList, Other := "Hello World!".toList }) [] =
        some ("Hello World!".toList, none) := by
  refine ⟨by decide, fun t => rfl, by decide⟩

/-- Witness for C15 as amended: the literal-default call on the same localizer
(quantity 0) fails. -/
theorem DefaultLocalizer_no_rule_witness :
    ((NewDefaultLocalizer rulesBundle "en".toList "xx".toList).localize exEnv
        { ID := "HelloWorld".toList, Other := "Hello World!".toList }
        (Value.int IntKind.int 0) Value.nil).1 = [] ∧
      ((NewDefaultLocalizer rulesBundle "en".toList "xx".toList).localize exEnv
        { ID := "HelloWorld".toList, Other := "Hello World!".toList }
        (Value.int IntKind.int 0) Value.nil).2 ≠ none :=
  (DefaultLocalizer_no_rule exEnv (NewDefaultLocalizer rulesBundle "en".toList "xx".toList)
    { ID := "HelloWorld".toList, Other := "Hello World!".toList } (Value.int IntKind.int 0)
    Value.nil (by decide) rfl).1 0 rfl

/-- C16 as stated fails: the bundle lookup finds nothing, the default message
has no content for the selected category `Other` (quantity 2, default language
`en`), and the result is the empty text with no error. -/
theorem Localize_empty_content_no_error :
    (NewDefaultLocalizer rulesBundle "en".toList "en".toList).Localize exEnv
        (IdOrMessage.message { ID := "Things".toList, One := "One thing".toList })
        [Value.int IntKind.int 2] =
      some ([], none) := by
  decide

/-- Witness for C16 as amended: the same call, on `localize`. -/
theorem DefaultLocalizer_empty_content_witness :
    (NewDefaultLocalizer rulesBundle "en".toList "en".toList).localize exEnv
        { ID := "Things".toList, One := "One thing".toList } (Value.int IntKind.int 2)
        Value.nil =
      ([], none) :=
  (DefaultLocalizer_empty_content exEnv (NewDefaultLocalizer rulesBundle "en".toList "en".toList)
    { ID := "Things".toList, One := "One thing".toList } (Value.int IntKind.int 2) Value.nil _
    (by decide) rfl (by decide)).2 (by decide)

/-! ## `parseFormat` (C27, C28) -/

theorem get_append_cons (pre : Str) (c : Char) (suf : Str) :
    (pre ++ c :: suf).get? pre.length = some c := by
  induction pre with
  | nil => rfl
  | cons a p ih => simpa using ih

theorem parseFormatLoop_at (sep : Char → Bool) (pre : Str) (c : Char) (suf : Str) :
    parseFormatLoop sep (pre ++ c :: suf) (pre.length + 1)
      = if sep c then [] else if c = '.' then suf
        else parseFormatLoop sep (pre ++ c :: suf) pre.length := by
  rw [parseFormatLoop]
  have hdrop : (pre ++ c :: suf).drop (pre.length + 1) = suf := by
    have : pre ++ c :: suf = (pre ++ [c]) ++ suf := by simp
    rw [this]
    have h2 : pre.length + 1 = (pre ++ [c]).length := by simp
    rw [h2, List.drop_left]
  rw [get_append_cons, hdrop]

theorem parseFormatLoop_suffix (sep : Char → Bool) (suf : Str) :
    ∀ pre : Str, (∀ c ∈ suf, sep c = false ∧ c ≠ '.') →
      parseFormatLoop sep (pre ++ suf) (pre ++ suf).length
        = parseFormatLoop sep (pre ++ suf) pre.length := by
  induction suf with
  | nil => intro pre _; simp
  | cons c r ih =>
    intro pre h
    have e : pre ++ c :: r = (pre ++ [c]) ++ r := by simp
    have h1 := ih (pre ++ [c]) (fun x hx => h x (List.mem_cons_of_mem _ hx))
    rw [e, h1]
    have hc := h c (List.mem_cons_self _ _)
    have hlen : (pre ++ [c]).length = pre.length + 1 := by simp
    rw [hlen, ← e, parseFormatLoop_at]
    simp [hc.1, hc.2]

/-- The format of a path split at a character: the tail holds no `.` and no
path separator. -/
theorem parseFormat_split (sep : Char → Bool) (pre : Str) (c : Char) (suf : Str)
    (h : ∀ x ∈ suf, sep x = false ∧ x ≠ '.') :
    parseFormat sep (pre ++ c :: suf)
      = if sep c then [] else if c = '.' then suf
        else parseFormatLoop sep (pre ++ c :: suf) pre.length := by
  unfold parseFormat
  have e : pre ++ c :: suf = (pre ++ [c]) ++ suf := by simp
  have h1 := parseFormatLoop_suffix sep suf (pre ++ [c]) h
  rw [← e] at h1
  rw [h1]
  have hlen : (pre ++ [c]).length = pre.length + 1 := by simp
  rw [hlen]
  exact parseFormatLoop_at sep pre c suf

theorem parseFormat_clean (sep : Char → Bool) (path : Str)
    (h : ∀ x ∈ path, sep x = false ∧ x ≠ '.') : parseFormat sep path = [] := by
  unfold parseFormat
  have h1 := parseFormatLoop_suffix sep path [] h
  simp only [List.nil_append] at h1
  rw [h1]
  rfl

/-- A string that holds a character of a kind splits at the last one. -/
theorem exists_last_of_any (sep : Char → Bool) (suf : Str) (h : suf.any sep = true) :
    ∃ s1 x s2, suf = s1 ++ x :: s2 ∧ sep x = true ∧ ∀ y ∈ s2, sep y = false := by
  induction suf with
  | nil => simp at h
  | cons y t ih =>
    by_cases ht : t.any sep = true
    · obtain ⟨s1, x, s2, e, hx, h2⟩ := ih ht
      exact ⟨y :: s1, x, s2, by rw [e]; rfl, hx, h2⟩
    · have hy : sep y = true := by
        simp only [List.any_cons, Bool.or_eq_true] at h
        rcases h with h | h
        · exact h
        · exact absurd h ht
      refine ⟨[], y, t, rfl, hy, ?_⟩
      intro z hz
      by_contra hc
      apply ht
      rw [List.any_eq_true]
      exact ⟨z, hz, by simpa using hc⟩

/-- The format of a path in `v2-beta`, by its last `.`. -/
theorem parseFormat_eq (sep : Char → Bool) (hdot : sep '.' = false) (pre suf : Str)
    (hsuf : ∀ c ∈ suf, c ≠ '.') :
    parseFormat sep (pre ++ '.' :: suf) = if suf.any sep = true then [] else suf := by
  by_cases h : suf.any sep = true
  · rw [if_pos h]
    obtain ⟨s1, x, s2, e, hx, h2⟩ := exists_last_of_any sep suf h
    have e2 : pre ++ '.' :: suf = (pre ++ '.' :: s1) ++ x :: s2 := by rw [e]; simp
    rw [e2, parseFormat_split sep _ x s2, if_pos hx]
    intro y hy
    exact ⟨h2 y hy, hsuf y (by rw [e]; simp [hy])⟩
  · rw [if_neg h, parseFormat_split sep pre '.' suf, hdot]
    · simp
    · intro y hy
      refine ⟨?_, hsuf y hy⟩
      by_contra hc
      apply h
      rw [List.any_eq_true]
      exact ⟨y, hy, by simpa using hc⟩

/-- The format is a suffix of the path. -/
theorem parseFormatLoop_suffix_of (sep : Char → Bool) (path : Str) (n : Nat) :
    parseFormatLoop sep path n <:+ path := by
  induction n with
  | zero => exact List.nil_suffix
  | succ i ih =>
    rw [parseFormatLoop]
    cases path.get? i with
    | none => exact List.nil_suffix
    | some c =>
      show (if sep c = true then [] else if c = '.' then path.drop (i + 1)
        else parseFormatLoop sep path i) <:+ path
      split
      · exact List.nil_suffix
      · split
        · exact List.drop_suffix _ _
        · exact ih

theorem pathNoFormat_append (sep : Char → Bool) (path : Str) :
    pathNoFormat sep path ++ parseFormat sep path = path := by
  obtain ⟨t, ht⟩ := parseFormatLoop_suffix_of sep path path.length
  unfold pathNoFormat parseFormat
  have hl : path.length - (parseFormatLoop sep path path.length).length = t.length := by
    have := congrArg List.length ht
    simp at this
    omega
  rw [hl]
  nth_rewrite 1 [← ht]
  rw [List.take_left]
  exact ht

theorem v2_parseFormatLoop_at (pre : Str) (c : Char) (suf : Str) :
    V2.parseFormatLoop (pre ++ c :: suf) (pre.length + 1)
      = if c = '/' then pre ++ c :: suf else if c = '.' then suf
        else V2.parseFormatLoop (pre ++ c :: suf) pre.length := by
  rw [V2.parseFormatLoop]
  have hdrop : (pre ++ c :: suf).drop (pre.length + 1) = suf := by
    have : pre ++ c :: suf = (pre ++ [c]) ++ suf := by simp
    rw [this]
    have h2 : pre.length + 1 = (pre ++ [c]).length := by simp
    rw [h2, List.drop_left]
  rw [get_append_cons, hdrop]

theorem v2_parseFormatLoop_suffix (suf : Str) :
    ∀ pre : Str, (∀ c ∈ suf, c ≠ '/' ∧ c ≠ '.') →
      V2.parseFormatLoop (pre ++ suf) (pre ++ suf).length
        = V2.parseFormatLoop (pre ++ suf) pre.length := by
  induction suf with
  | nil => intro pre _; simp
  | cons c r ih =>
    intro pre h
    have e : pre ++ c :: r = (pre ++ [c]) ++ r := by simp
    have h1 := ih (pre ++ [c]) (fun x hx => h x (List.mem_cons_of_mem _ hx))
    rw [e, h1]
    have hc := h c (List.mem_cons_self _ _)
    have hlen : (pre ++ [c]).length = pre.length + 1 := by simp
    rw [hlen, ← e, v2_parseFormatLoop_at]
    simp [hc.1, hc.2]

theorem v2_parseFormat_split (pre : Str) (c : Char) (suf : Str)
    (h : ∀ x ∈ suf, x ≠ '/' ∧ x ≠ '.') :
    V2.parseFormat (pre ++ c :: suf)
      = if c = '/' then pre ++ c :: suf else if c = '.' then suf
        else V2.parseFormatLoop (pre ++ c :: suf) pre.length := by
  unfold V2.parseFormat
  have e : pre ++ c :: suf = (pre ++ [c]) ++ suf := by simp
  have h1 := v2_parseFormatLoop_suffix suf (pre ++ [c]) h
  rw [← e] at h1
  rw [h1]
  have hlen : (pre ++ [c]).length = pre.length + 1 := by simp
  rw [hlen]
  exact v2_parseFormatLoop_at pre c suf

theorem v2_parseFormat_clean (path : Str) (h : ∀ x ∈ path, x ≠ '/' ∧ x ≠ '.') :
    V2.parseFormat path = path := by
  unfold V2.parseFormat
  have h1 := v2_parseFormatLoop_suffix path [] h
  simp only [List.nil_append] at h1
  rw [h1]
  rfl

/-- The format of a path in `v2`, by its last `.`. -/
theorem v2_parseFormat_eq (pre suf : Str) (hsuf : ∀ c ∈ suf, c ≠ '.') :
    V2.parseFormat (pre ++ '.' :: suf)
      = if '/' ∈ suf then pre ++ '.' :: suf else suf := by
  by_cases h : '/' ∈ suf
  · rw [if_pos h]
    have hany : suf.any (fun c => decide (c = '/')) = true := by
      rw [List.any_eq_true]; exact ⟨'/', h, by simp⟩
    obtain ⟨s1, x, s2, e, hx, h2⟩ := exists_last_of_any _ suf hany
    have hx1 : x = '/' := by simpa using hx
    have e2 : pre ++ '.' :: suf = (pre ++ '.' :: s1) ++ x :: s2 := by rw [e]; simp
    rw [e2, v2_parseFormat_split _ x s2, if_pos hx1]
    intro y hy
    exact ⟨by simpa using h2 y hy, hsuf y (by rw [e]; simp [hy])⟩
  · rw [if_neg h, v2_parseFormat_split pre '.' suf]
    · simp
    · intro y hy
      exact ⟨fun hc => h (hc ▸ hy), hsuf y hy⟩

/-- A path with no `.` after its last `/` is its own format in `v2`. -/
theorem v2_parseFormat_no_dot (dir name : Str) (hdir : dir = [] ∨ dir.getLast? = some '/')
    (hname : ∀ c ∈ name, c ≠ '/' ∧ c ≠ '.') : V2.parseFormat (dir ++ name) = dir ++ name := by
  rcases hdir with hd | hd
  · rw [hd]; exact v2_parseFormat_clean name hname
  · obtain ⟨d, rfl⟩ : ∃ d, dir = d ++ ['/'] := by
      rcases List.eq_nil_or_concat dir with h | ⟨d, x, h⟩
      · rw [h] at hd; simp at hd
      · rw [h] at hd
        simp at hd
        exact ⟨d, by rw [h, hd]; simp⟩
    have e : d ++ ['/'] ++ name = d ++ '/' :: name := by simp
    rw [e, v2_parseFormat_split d '/' name hname]
    simp



/-- C27 (amended): in `v2-beta`, for a path whose last `.` is followed by no path
separator, `parseFormat` returns the substring following that `.`; when a path
separator follows the last `.`, it returns the empty string. -/
theorem parseFormat_last_dot (isPathSeparator : Char → Bool)
    (hdot : isPathSeparator '.' = false) (pre suf : Str) (hsuf : ∀ c ∈ suf, c ≠ '.') :
    (suf.any isPathSeparator = false →
        parseFormat isPathSeparator (pre ++ '.' :: suf) = suf) ∧
      (suf.any isPathSeparator = true →
        parseFormat isPathSeparator (pre ++ '.' :: suf) = []) := by
  have h := parseFormat_eq isPathSeparator hdot pre suf hsuf
  constructor
  · intro hs
    rw [h, hs]
    simp
  · intro hs
    rw [h, if_pos hs]

theorem parseFormat_last_dot_witness :
    parseFormat IsPathSeparator ("en-US".toList ++ '.' :: "json".toList) = "json".toList ∧
      parseFormat IsPathSeparator ("a".toList ++ '.' :: "b/c".toList) = [] :=
  ⟨(parseFormat_last_dot IsPathSeparator (by decide) "en-US".toList "json".toList
      (by decide)).1 (by decide),
    (parseFormat_last_dot IsPathSeparator (by decide) "a".toList "b/c".toList
      (by decide)).2 (by decide)⟩

/-- C27 (counterexample): the path `a.b/c` contains a `.`, the substring
following its last `.` is `b/c`, and `parseFormat` returns the empty string. -/
theorem parseFormat_stops_at_separator :
    '.' ∈ "a.b/c".toList ∧ "a.b/c".toList = "a".toList ++ '.' :: "b/c".toList ∧
      '.' ∉ "b/c".toList ∧ parseFormat IsPathSeparator "a.b/c".toList = [] ∧
      parseFormat IsPathSeparator "a.b/c".toList ≠ "b/c".toList := by
  decide

/-- C28 (amended): in `v2`, `parseFormat` looks at the last element of the path,
what follows the last `/`: when that element holds a single `.`, the format is
everything after it, and when it holds no `.`, the format is the whole path. -/
theorem v2_parseFormat_last_element (dir n1 n2 : Str)
    (hdir : dir = [] ∨ dir.getLast? = some '/')
    (h1 : ∀ c ∈ n1, c ≠ '/' ∧ c ≠ '.') (h2 : ∀ c ∈ n2, c ≠ '/' ∧ c ≠ '.') :
    V2.parseFormat (dir ++ n1 ++ '.' :: n2) = n2 ∧
      V2.parseFormat (dir ++ n1) = dir ++ n1 := by
  constructor
  · rw [v2_parseFormat_eq (dir ++ n1) n2 (fun c hc => (h2 c hc).2), if_neg]
    intro hc
    exact (h2 _ hc).1 rfl
  · exact v2_parseFormat_no_dot dir n1 hdir h1

theorem v2_parseFormat_last_element_witness :
    V2.parseFormat ("v.1/".toList ++ "es".toList ++ '.' :: "toml".toList) = "toml".toList ∧
      V2.parseFormat ("v.1/".toList ++ "es".toList) = "v.1/".toList ++ "es".toList :=
  v2_parseFormat_last_element "v.1/".toList "es".toList "toml".toList
    (Or.inr (by decide)) (by decide) (by decide)

/-- C28 (counterexample): the path `v.1/es` contains a `.`, everything after its
first `.` is `1/es`, and `parseFormat` of `v2` returns the whole path. -/
theorem v2_parseFormat_directory_dot :
    "v.1/es".toList = "v".toList ++ '.' :: "1/es".toList ∧ '.' ∉ "v".toList ∧
      V2.parseFormat "v.1/es".toList = "v.1/es".toList ∧
      V2.parseFormat "v.1/es".toList ≠ "1/es".toList := by
  decide

/-- The file name `es.tar.gz` in `v2`: the format is what follows the last `.`,
where the comment of `ParseTranslationFileBytes` names the first. -/
theorem v2_parseFormat_two_dots :
    V2.parseFormat "es.tar.gz".toList = "gz".toList ∧
      V2.parseFormat "es.tar.gz".toList ≠ "tar.gz".toList := by
  decide

/-! ## C30: text around a tag -/

theorem takeWhile_alpha_short (c : Char) (r : Str)
    (h : c.isAlpha = false ∨ ∀ d ∈ r.head?, d.isAlpha = false) :
    ((c :: r).takeWhile Char.isAlpha).length < 2 := by
  by_cases hc : c.isAlpha = true
  · rcases h with h | h
    · rw [h] at hc; cases hc
    · cases r with
      | nil => simp [List.takeWhile, hc]
      | cons d r =>
        have hd : d.isAlpha = false := h d (by simp)
        simp [List.takeWhile, hc, hd]
  · simp [List.takeWhile, hc]

theorem Isolated_tail {c : Char} {r : Str} (h : Isolated (c :: r)) : Isolated r := by
  cases r with
  | nil => rfl
  | cons d r =>
    unfold Isolated isolated at h
    simp only [Bool.and_eq_true] at h
    exact h.2

theorem Isolated_head {c : Char} {r : Str} (h : Isolated (c :: r)) :
    c.isAlpha = false ∨ ∀ d ∈ r.head?, d.isAlpha = false := by
  cases r with
  | nil => right; intro d hd; simp at hd
  | cons e r =>
    unfold Isolated isolated at h
    simp only [Bool.and_eq_true, Bool.not_eq_true', Bool.and_eq_false_iff] at h
    rcases h.1 with h1 | h1
    · exact Or.inl h1
    · right
      intro d hd
      simp at hd
      rw [← hd]; exact h1

theorem Isolated_of_no_letter (x : Str) (hx : ∀ c ∈ x, c.isAlpha = false) : Isolated x := by
  induction x with
  | nil => rfl
  | cons c r ih =>
    have hr := ih (fun d hd => hx d (List.mem_cons_of_mem _ hd))
    cases r with
    | nil => rfl
    | cons d r =>
      unfold Isolated isolated
      rw [hx c (List.mem_cons_self _ _)]
      exact hr

/-- No match starts in a string whose letters are isolated. -/
theorem FindAllString_isolated (s : Str) (h : Isolated s) : FindAllString s = [] := by
  induction s with
  | nil => rfl
  | cons c r ih =>
    rw [FindAllString_of_no_match c r, ih (Isolated_tail h)]
    rw [matchPrefix_eq_none_iff]
    exact takeWhile_alpha_short c r (Isolated_head h)

/-- No match starts in a string whose letters are isolated and which does not
end with a letter, whatever follows it. -/
theorem FindAllString_isolated_append (p x : Str) (h : Isolated p)
    (hlast : ∀ c ∈ p.getLast?, c.isAlpha = false) :
    FindAllString (p ++ x) = FindAllString x := by
  induction p with
  | nil => rfl
  | cons c r ih =>
    have hr : ∀ d ∈ r.getLast?, d.isAlpha = false := by
      intro d hd
      apply hlast d
      cases r with
      | nil => simp at hd
      | cons e r => simpa [List.getLast?_cons_cons] using hd
    rw [List.cons_append, FindAllString_of_no_match c (r ++ x), ih (Isolated_tail h) hr]
    rw [matchPrefix_eq_none_iff]
    apply takeWhile_alpha_short
    cases r with
    | nil =>
      left
      exact hlast c (by simp)
    | cons e r =>
      rcases Isolated_head h with h1 | h1
      · exact Or.inl h1
      · right
        intro d hd
        exact h1 d (by simpa using hd)

/-- No further group starts in a string whose letters are isolated. -/
theorem groupStar_isolated (s : Str) (h : Isolated s) (n : Nat) : groupStar n s = ([], s) := by
  cases n with
  | zero => rfl
  | succ n =>
    cases s with
    | nil => rfl
    | cons c r =>
      have hl : letters2 r = none := by
        unfold letters2
        cases r with
        | nil => simp
        | cons d r2 =>
          have := takeWhile_alpha_short d r2 (Isolated_head (Isolated_tail h))
          rw [if_neg (by omega)]
      simp only [groupStar, hl]
      split <;> rfl

/-- The scan of a well-formed tag between two strings whose letters are
isolated, where no letter touches the tag, finds the tag and nothing else. -/
theorem FindAllString_around (w : Str) (gs : List (Char × Str)) (hw : IsSegment w)
    (hgs : IsGroups gs) (p s : Str) (hp : Isolated p) (hs : Isolated s)
    (hlast : ∀ c ∈ p.getLast?, c.isAlpha = false)
    (hfirst : ∀ c ∈ s.head?, c.isAlpha = false) :
    FindAllString (p ++ tagOf w gs ++ s) = [tagOf w gs] := by
  rw [List.append_assoc, FindAllString_isolated_append p _ hp hlast,
    FindAllString_of_match (matchPrefix_tag w gs hw hgs s hfirst (groupStar_isolated s hs)),
    FindAllString_isolated s hs]

/-- C30. For every well-formed tag and all strings `p` and `s` that hold no ASCII
letter, or whose letters are isolated single letters that do not touch the
tag, `NewLocalizer(p + tag + s)` has the `LanguageTags` of `NewLocalizer(tag)`. -/
theorem NewLocalizer_around_tag {Operands Data UnmarshalFunc : Type}
    (bundle : Bundle Operands Data UnmarshalFunc) (w : Str) (gs : List (Char × Str))
    (hw : IsSegment w) (hgs : IsGroups gs) (p s : Str)
    (hp : (∀ c ∈ p, c.isAlpha = false) ∨
      (Isolated p ∧ ∀ c ∈ p.getLast?, c.isAlpha = false))
    (hs : (∀ c ∈ s, c.isAlpha = false) ∨
      (Isolated s ∧ ∀ c ∈ s.head?, c.isAlpha = false)) :
    (NewLocalizer bundle (p ++ tagOf w gs ++ s)).LanguageTags =
      (NewLocalizer bundle (tagOf w gs)).LanguageTags := by
  have hiso := Isolated_of_no_letter
  have hp1 : Isolated p ∧ ∀ c ∈ p.getLast?, c.isAlpha = false := by
    rcases hp with h | h
    · exact ⟨hiso p h, fun c hc => h c (List.mem_of_mem_getLast? hc)⟩
    · exact h
  have hs1 : Isolated s ∧ ∀ c ∈ s.head?, c.isAlpha = false := by
    rcases hs with h | h
    · exact ⟨hiso s h, fun c hc => h c (List.mem_of_mem_head? hc)⟩
    · exact h
  show dedupe (expandAll [] (FindAllString (p ++ tagOf w gs ++ s))) =
    dedupe (expandAll [] (FindAllString (tagOf w gs)))
  rw [FindAllString_around w gs hw hgs p s hp1.1 hs1.1 hp1.2 hs1.2, FindAllString_tag w gs hw hgs]

theorem NewLocalizer_around_tag_witness :
    (NewLocalizer zeroBundle "x-aa-bb-cc-dd-x".toList).LanguageTags =
        (NewLocalizer zeroBundle "aa-bb-cc-dd".toList).LanguageTags ∧
      (NewLocalizer zeroBundle "-aa-bb-cc-dd-".toList).LanguageTags =
        (NewLocalizer zeroBundle "aa-bb-cc-dd".toList).LanguageTags :=
  ⟨NewLocalizer_around_tag zeroBundle "aa".toList
      [('-', "bb".toList), ('-', "cc".toList), ('-', "dd".toList)] (by decide) (by decide)
      "x-".toList "-x".toList (Or.inr (by decide)) (Or.inr (by decide)),
    NewLocalizer_around_tag zeroBundle "aa".toList
      [('-', "bb".toList), ('-', "cc".toList), ('-', "dd".toList)] (by decide) (by decide)
      "-".toList "-".toList (Or.inl (by decide)) (Or.inl (by decide))⟩

/-! ## C29: the order of the tags -/

theorem indexOf_append_mem (a : Str) (l1 l2 : List Str) (h : a ∈ l1) :
    List.indexOf a (l1 ++ l2) = List.indexOf a l1 := by
  induction l1 with
  | nil => simp at h
  | cons x t ih =>
    by_cases hx : x = a
    · subst hx
      rw [List.cons_append, indexOf_cons_same, indexOf_cons_same]
    · have ht : a ∈ t := by
        rcases List.mem_cons.1 h with h | h
        · exact absurd h.symm hx
        · exact h
      rw [List.cons_append, indexOf_cons_other _ hx, indexOf_cons_other _ hx, ih ht]

theorem indexOf_append_not_mem (a : Str) (l1 l2 : List Str) (h : a ∉ l1) :
    List.indexOf a (l1 ++ l2) = l1.length + List.indexOf a l2 := by
  induction l1 with
  | nil => simp
  | cons x t ih =>
    have hx : x ≠ a := fun e => h (e ▸ List.mem_cons_self _ _)
    have ht : a ∉ t := fun e => h (List.mem_cons_of_mem _ e)
    rw [List.cons_append, indexOf_cons_other _ hx, ih ht, List.length_cons]
    omega

theorem indexOf_lt_of_mem (a : Str) (l : List Str) (h : a ∈ l) : List.indexOf a l < l.length := by
  induction l with
  | nil => simp at h
  | cons x t ih =>
    by_cases hx : x = a
    · subst hx
      rw [indexOf_cons_same]
      simp
    · have ht : a ∈ t := by
        rcases List.mem_cons.1 h with h | h
        · exact absurd h.symm hx
        · exact h
      rw [indexOf_cons_other _ hx, List.length_cons]
      have := ih ht
      omega

/-- In a list ordered by a relation, what comes first is related to what comes
later. -/
theorem pairwise_indexOf (R : Str → Str → Prop) (l : List Str) (hl : l.Pairwise R) (p a : Str)
    (ha : a ∈ l) (h : List.indexOf p l < List.indexOf a l) : R p a := by
  induction l with
  | nil => simp at ha
  | cons x t ih =>
    rw [List.pairwise_cons] at hl
    by_cases hp : x = p
    · subst hp
      by_cases hxa : x = a
      · subst hxa
        exact absurd h (Nat.lt_irrefl _)
      · have hat : a ∈ t := by
          rcases List.mem_cons.1 ha with h1 | h1
          · exact absurd h1.symm hxa
          · exact h1
        exact hl.1 a hat
    · by_cases hxa : x = a
      · subst hxa
        rw [indexOf_cons_same] at h
        exact absurd h (Nat.not_lt_zero _)
      · have hat : a ∈ t := by
          rcases List.mem_cons.1 ha with h1 | h1
          · exact absurd h1.symm hxa
          · exact h1
        rw [indexOf_cons_other _ hp, indexOf_cons_other _ hxa] at h
        exact ih hl.2 hat (by omega)

/-- The first list of a sequence that holds an element. -/
theorem first_occurrence (E : Str → List Str) (a : Str) (ms : List Str)
    (h : a ∈ (ms.map E).flatten) :
    ∃ ms1 m ms2, ms = ms1 ++ m :: ms2 ∧ a ∈ E m ∧ a ∉ (ms1.map E).flatten := by
  induction ms with
  | nil => simp at h
  | cons m ms ih =>
    by_cases hm : a ∈ E m
    · exact ⟨[], m, ms, rfl, hm, by simp⟩
    · have h1 : a ∈ (ms.map E).flatten := by
        simp only [List.map_cons, List.flatten_cons, List.mem_append] at h
        rcases h with h | h
        · exact absurd h hm
        · exact h
      obtain ⟨ms1, m1, ms2, e, h2, h3⟩ := ih h1
      refine ⟨m :: ms1, m1, ms2, by rw [e]; rfl, h2, ?_⟩
      simp only [List.map_cons, List.flatten_cons, List.mem_append, not_or]
      exact ⟨hm, h3⟩

/-- Every match of the regular expression is a well-formed tag. -/
theorem FindAllString_mem (n : Nat) : ∀ s : Str, s.length ≤ n → ∀ m ∈ FindAllString s,
    ∃ w gs, IsSegment w ∧ IsGroups gs ∧ m = tagOf w gs := by
  induction n with
  | zero =>
    intro s hs m hm
    have : s = [] := List.length_eq_zero.1 (by omega)
    subst this
    simp [FindAllString_nil] at hm
  | succ n ih =>
    intro s hs m hm
    cases s with
    | nil => simp [FindAllString_nil] at hm
    | cons c r =>
      cases hp : matchPrefix (c :: r) with
      | none =>
        rw [FindAllString_of_no_match c r hp] at hm
        exact ih r (by simpa using hs) m hm
      | some mr =>
        obtain ⟨m1, rest⟩ := mr
        rw [FindAllString_of_match hp] at hm
        obtain ⟨e, w, gs, hw, hgs, e2⟩ := matchPrefix_some hp
        rcases List.mem_cons.1 hm with h | h
        · exact ⟨w, gs, hw, hgs, h.trans e2⟩
        · apply ih rest _ m h
          have h1 : 2 ≤ m1.length := by
            rw [e2, tagOf, List.length_append]; have := hw.1; omega
          have h2 : (c :: r).length = m1.length + rest.length := by
            rw [e, List.length_append]
          omega

/-- The expansion of a well-formed tag runs from the most specific tag to the
least specific: each element is followed by proper prefixes of it only. -/
theorem pairwise_prefix_tags (w : Str) (gs : List (Char × Str)) :
    (gs.inits.reverse.map (fun r => ToLower (tagOf w r))).Pairwise
      (fun x y => y <+: x ∧ y.length < x.length) := by
  induction gs using List.reverseRecOn with
  | nil => simp
  | append_singleton gs g ih =>
    have e : (gs ++ [g]).inits.reverse.map (fun r => ToLower (tagOf w r)) =
        ToLower (tagOf w (gs ++ [g])) :: gs.inits.reverse.map (fun r => ToLower (tagOf w r)) := by
      simp [List.inits_append]
    rw [e, List.pairwise_cons]
    refine ⟨?_, ih⟩
    intro y hy
    simp only [List.mem_map, List.mem_reverse, List.mem_inits] at hy
    obtain ⟨r, ⟨t, ht⟩, rfl⟩ := hy
    constructor
    · refine ⟨ToLower (groupsText (t ++ [g])), ?_⟩
      rw [← ht]
      simp [ToLower, tagOf, groupsText_append]
    · rw [← ht]
      simp [ToLower, tagOf, groupsText_append, groupsText]

/-- The expansion of a match of the regular expression runs from the most
specific tag to the least specific. -/
theorem pairwise_expandTag (prefs m : Str) (hm : m ∈ FindAllString prefs) :
    (expandTag m).Pairwise (fun x y => y <+: x ∧ y.length < x.length) := by
  obtain ⟨w, gs, hw, hgs, e⟩ := FindAllString_mem prefs.length prefs (Nat.le_refl _) m hm
  rw [e, expandTag_tag w hw gs hgs]
  exact pairwise_prefix_tags w gs

/-- C29 (amended): the expansion of each matched tag runs from the most specific
tag to the least specific, and the `LanguageTags` keep the first occurrences in
the order of the matches: a tag comes later than one of its proper prefixes
only when an earlier match of the preference string already produced that
prefix; with a single match no tag comes later than a proper prefix of it. -/
theorem NewLocalizer_prefix_order {Operands Data UnmarshalFunc : Type}
    (bundle : Bundle Operands Data UnmarshalFunc) (prefs : Str) :
    (∀ m ∈ FindAllString prefs,
        (expandTag m).Pairwise (fun x y => y <+: x ∧ y.length < x.length)) ∧
      (∀ a p, p <+: a → p ≠ a → a ∈ (NewLocalizer bundle prefs).LanguageTags →
        List.indexOf p (NewLocalizer bundle prefs).LanguageTags <
          List.indexOf a (NewLocalizer bundle prefs).LanguageTags →
        ∃ ms1 m ms2, FindAllString prefs = ms1 ++ m :: ms2 ∧ a ∈ expandTag m ∧
          a ∉ (ms1.map expandTag).flatten ∧ p ∈ (ms1.map expandTag).flatten) ∧
      (∀ m, FindAllString prefs = [m] →
        (NewLocalizer bundle prefs).LanguageTags.Pairwise
          (fun x y => y <+: x ∧ y.length < x.length)) := by
  have h : (NewLocalizer bundle prefs).LanguageTags =
      dedupeLoop [] [] ((FindAllString prefs).map expandTag).flatten := by
    show dedupe (expandAll [] (FindAllString prefs)) = _
    rw [expandAll_eq]; rfl
  refine ⟨fun m hm => pairwise_expandTag prefs m hm, ?_, ?_⟩
  · intro a p hpa hne ha hlt
    rw [h] at ha hlt
    rw [mem_dedupeLoop] at ha
    have ha1 : a ∈ ((FindAllString prefs).map expandTag).flatten := by
      simpa using ha
    rw [indexOf_dedupeLoop [] _ p a (by simp) (by simp)] at hlt
    obtain ⟨ms1, m, ms2, e, ham, hna⟩ := first_occurrence expandTag a _ ha1
    refine ⟨ms1, m, ms2, e, ham, hna, ?_⟩
    by_contra hp1
    have hcat : ((FindAllString prefs).map expandTag).flatten =
        (ms1.map expandTag).flatten ++ (expandTag m ++ (ms2.map expandTag).flatten) := by
      rw [e]; simp
    rw [hcat, indexOf_append_not_mem _ _ _ hna, indexOf_append_not_mem _ _ _ hp1,
      indexOf_append_mem _ _ _ ham] at hlt
    have hm : m ∈ FindAllString prefs := by rw [e]; simp
    by_cases hpm : p ∈ expandTag m
    · rw [indexOf_append_mem _ _ _ hpm] at hlt
      have h1 := pairwise_indexOf _ _ (pairwise_expandTag prefs m hm) p a ham (by omega)
      have h2 := hpa.length_le
      omega
    · rw [indexOf_append_not_mem _ _ _ hpm] at hlt
      have h1 := indexOf_lt_of_mem a _ ham
      omega
  · intro m hm
    have hp := pairwise_expandTag prefs m (by rw [hm]; simp)
    have hn : (expandTag m).Nodup := by
      refine List.Pairwise.imp ?_ hp
      intro x y hxy e
      rw [e] at hxy
      exact absurd hxy.2 (Nat.lt_irrefl _)
    rw [h, hm]
    simp only [List.map_cons, List.map_nil, List.flatten_cons, List.flatten_nil, List.append_nil]
    have := dedupe_of_nodup _ hn
    unfold dedupe at this
    rw [this]
    exact hp

/-- C29 (counterexample): for the preference string `aa, aa-bb` the tag `aa-bb`
comes later in the `LanguageTags` than `aa`, a proper prefix of it obtained by
stripping its trailing segment. -/
theorem NewLocalizer_prefix_before_tag :
    (NewLocalizer zeroBundle "aa, aa-bb".toList).LanguageTags =
        ["aa".toList, "aa-bb".toList] ∧
      "aa-bb".toList = "aa".toList ++ "-bb".toList ∧
      List.indexOf "aa".toList (NewLocalizer zeroBundle "aa, aa-bb".toList).LanguageTags <
        List.indexOf "aa-bb".toList (NewLocalizer zeroBundle "aa, aa-bb".toList).LanguageTags := by
  decide

/-! ## C21, C22: the errors of `Localize` -/

section
variable {Operands UnmarshalFunc : Type}

/-- Without operands the loop of `localize` returns no error. -/
theorem localizeLoop_none_no_error {Data : Type} (l : Localizer Operands Data UnmarshalFunc)
    (id : Str) (data : Data) (tags : List Str) : (l.localizeLoop id none data tags).2 = none := by
  induction tags with
  | nil => rfl
  | cons tag tags ih =>
    cases ht : l.Bundle.template tag id with
    | none => rw [localizeLoop_cons_none l id none data tag tags ht]; exact ih
    | some template =>
      rw [localizeLoop_cons_some l id none data tag tags template ht]
      have hp : l.pluralForm tag none = PluralForm.Other := rfl
      rw [hp, if_neg (by decide)]
      split
      · rfl
      · exact ih

/-- The only error of the loop of `localize` is the pluralization error. -/
theorem localizeLoop_error {Data : Type} (l : Localizer Operands Data UnmarshalFunc)
    (id : Str) (operands : Option Operands) (data : Data) (tags : List Str) (e : Error)
    (h : (l.localizeLoop id operands data tags).2 = some e) :
    ∃ tag, e = Error.unableToPluralize id tag := by
  induction tags with
  | nil => cases h
  | cons tag tags ih =>
    cases ht : l.Bundle.template tag id with
    | none =>
      rw [localizeLoop_cons_none l id operands data tag tags ht] at h
      exact ih h
    | some template =>
      rw [localizeLoop_cons_some l id operands data tag tags template ht] at h
      split at h
      · simp only [Option.some.injEq] at h
        exact ⟨tag, h.symm⟩
      · split at h
        · cases h
        · exact ih h

/-- An error of `NewMessageTemplate` is an error of `NewPluralForm` or of
`NewTemplate`. -/
theorem newMessageTemplateLoop_error (env : Env Operands) (data : List (Str × Str))
    (translation : MessageTemplate Value) (e : Error)
    (h : newMessageTemplateLoop env translation data = Except.error e) :
    ∃ kv ∈ data, kv.1 ≠ "description".toList ∧
      (env.NewPluralForm kv.1 = Except.error e ∨ env.NewTemplate kv.2 = Except.error e) := by
  induction data generalizing translation with
  | nil => cases h
  | cons kv data ih =>
    obtain ⟨k, v⟩ := kv
    by_cases hk : k = "description".toList
    · simp only [newMessageTemplateLoop, hk, if_true] at h
      obtain ⟨kv, hkv, h1⟩ := ih _ h
      exact ⟨kv, List.mem_cons_of_mem _ hkv, h1⟩
    · simp only [newMessageTemplateLoop, hk, if_false] at h
      cases hp : env.NewPluralForm k with
      | error err =>
        rw [hp] at h
        simp only [Except.error.injEq] at h
        exact ⟨(k, v), List.mem_cons_self _ _, hk, Or.inl (by rw [hp, h])⟩
      | ok pf =>
        rw [hp] at h
        cases ht : env.NewTemplate v with
        | error err =>
          rw [ht] at h
          simp only [Except.error.injEq] at h
          exact ⟨(k, v), List.mem_cons_self _ _, hk, Or.inr (by rw [ht, h])⟩
        | ok tmpl =>
          rw [ht] at h
          obtain ⟨kv, hkv, h1⟩ := ih _ h
          exact ⟨kv, List.mem_cons_of_mem _ hkv, h1⟩

/-- The errors of `DefaultLocalizer.localize`: the pluralization error, or the
error of the default message that does not compile. -/
theorem DefaultLocalizer_localize_error (env : Env Operands)
    (l : DefaultLocalizer Operands UnmarshalFunc) (message : Message)
    (pluralCount templateData : Value) (text : Str) (e : Error)
    (h : l.localize env message pluralCount templateData = (text, some e)) :
    text = [] ∧ ((∃ tag, e = Error.unableToPluralize message.ID tag) ∨
      message.Template env = Except.error e) := by
  unfold DefaultLocalizer.localize at h
  split at h
  · next err herr =>
    simp only [Prod.mk.injEq, Option.some.injEq] at h
    obtain ⟨tag, ht⟩ := localizeLoop_error _ _ _ _ _ _ herr
    exact ⟨h.1.symm, Or.inl ⟨tag, by rw [← h.2, ht]⟩⟩
  · split at h
    · simp only [Prod.mk.injEq] at h
      exact absurd h.2 (by simp)
    · split at h
      · next err herr =>
        simp only [Prod.mk.injEq, Option.some.injEq] at h
        exact ⟨h.1.symm, Or.inr (by rw [herr, h.2])⟩
      · split at h
        · simp only [Prod.mk.injEq, Option.some.injEq] at h
          exact ⟨h.1.symm, Or.inl ⟨_, h.2.symm⟩⟩
        · simp only [Prod.mk.injEq] at h
          exact absurd h.2 (by simp)

/-- Without operands, the only error of `DefaultLocalizer.localize` is the error
of the default message that does not compile. -/
theorem DefaultLocalizer_localize_none_error (env : Env Operands)
    (l : DefaultLocalizer Operands UnmarshalFunc) (message : Message)
    (pluralCount templateData : Value) (hops : (env.newOperands pluralCount).1 = none)
    (text : Str) (e : Error)
    (h : l.localize env message pluralCount templateData = (text, some e)) :
    message.Template env = Except.error e := by
  unfold DefaultLocalizer.localize at h
  rw [hops] at h
  have hb : (l.Localizer.localize message.ID none templateData).2 = none :=
    localizeLoop_none_no_error _ _ _ _
  rw [hb] at h
  simp only at h
  split at h
  · simp only [Prod.mk.injEq] at h
    exact absurd h.2 (by simp)
  · split at h
    · next err herr =>
      simp only [Prod.mk.injEq, Option.some.injEq] at h
      rw [herr, h.2]
    · have hp : l.Localizer.pluralForm l.DefaultLanguageTag none = PluralForm.Other := rfl
      rw [hp, if_neg (by decide)] at h
      simp only [Prod.mk.injEq] at h
      exact absurd h.2 (by simp)

/-- The function `newOperands` has no part in `NewMessageTemplate`. -/
theorem newMessageTemplateLoop_newOperands (env : Env Operands)
    (f : Value → Option Operands × Option Error) (data : List (Str × Str))
    (translation : MessageTemplate Value) :
    newMessageTemplateLoop { env with newOperands := f } translation data =
      newMessageTemplateLoop env translation data := by
  induction data generalizing translation with
  | nil => rfl
  | cons kv data ih =>
    obtain ⟨k, v⟩ := kv
    simp only [newMessageTemplateLoop, ih]

/-- The string form of `Localize` without a string for the default message. -/
theorem Localize_id_not_string (env : Env Operands)
    (l : DefaultLocalizer Operands UnmarshalFunc) (id : Str) (args : List Value)
    (h : ∀ d, indexOrNil args 0 ≠ Value.str d) :
    l.Localize env (IdOrMessage.id id) args =
      some ([], some (Error.invocation "Localize".toList
        "expected second parameter to be a string".toList)) := by
  unfold DefaultLocalizer.Localize
  cases h0 : indexOrNil args 0 with
  | str d => exact absurd h0 (h d)
  | _ => rfl

/-- A call of `Localize` with a string and a default message, or with a
`*Message`, returns no invocation error, provided `NewPluralForm` and
`NewTemplate` return none. -/
theorem Localize_valid_no_invocation (env : Env Operands)
    (henv : ∀ s e, env.NewPluralForm s = Except.error e ∨ env.NewTemplate s = Except.error e →
      ∀ name reason, e ≠ Error.invocation name reason)
    (l : DefaultLocalizer Operands UnmarshalFunc) (message : Message)
    (pluralCount templateData : Value) (text name reason : Str) :
    l.localize env message pluralCount templateData ≠
      (text, some (Error.invocation name reason)) := by
  intro h
  obtain ⟨_, h1 | h1⟩ := DefaultLocalizer_localize_error env l message _ _ _ _ h
  · obtain ⟨tag, ht⟩ := h1
    cases ht
  · unfold Message.Template NewMessageTemplate at h1
    obtain ⟨kv, _, _, h2⟩ := newMessageTemplateLoop_error env _ _ _ h1
    rcases h2 with h2 | h2
    · exact henv kv.1 _ (Or.inl h2) name reason rfl
    · exact henv kv.2 _ (Or.inr h2) name reason rfl

/-- C22. `DefaultLocalizer.Localize` returns an invocation error exactly when the
first argument is a string and the second argument is missing or not a string,
or the first argument is neither a string nor a `*Message`; the text is then
empty and the result is the same for every localizer, whatever its bundle.
The errors of `NewPluralForm` and `NewTemplate`, whose source is not among the
embedded files, are taken not to be invocation errors. -/
theorem Localize_invocation_error_iff (env : Env Operands)
    (henv : ∀ s e, env.NewPluralForm s = Except.error e ∨ env.NewTemplate s = Except.error e →
      ∀ name reason, e ≠ Error.invocation name reason)
    (l : DefaultLocalizer Operands UnmarshalFunc) (idOrMessage : IdOrMessage)
    (args : List Value) :
    ((∃ text name reason,
        l.Localize env idOrMessage args = some (text, some (Error.invocation name reason))) ↔
      ((∃ id, idOrMessage = IdOrMessage.id id ∧ ∀ d, indexOrNil args 0 ≠ Value.str d) ∨
        ∃ v, idOrMessage = IdOrMessage.other v)) ∧
      ∀ text name reason,
        l.Localize env idOrMessage args = some (text, some (Error.invocation name reason)) →
        text = [] ∧ name = "Localize".toList ∧
          ∀ l1 : DefaultLocalizer Operands UnmarshalFunc,
            l1.Localize env idOrMessage args = l.Localize env idOrMessage args := by
  cases idOrMessage with
  | id id =>
    by_cases h : ∀ d, indexOrNil args 0 ≠ Value.str d
    · have e := Localize_id_not_string env l id args h
      refine ⟨⟨fun _ => Or.inl ⟨id, rfl, h⟩, fun _ => ⟨_, _, _, e⟩⟩, ?_⟩
      intro text name reason h1
      rw [e] at h1
      simp only [Option.some.injEq, Prod.mk.injEq, Error.invocation.injEq] at h1
      refine ⟨h1.1.symm, h1.2.1.symm, fun l1 => ?_⟩
      rw [e, Localize_id_not_string env l1 id args h]
    · have h2 : ∃ d, indexOrNil args 0 = Value.str d := by
        by_contra hc
        exact h (fun d hd => hc ⟨d, hd⟩)
      obtain ⟨d, hd⟩ := h2
      have e : l.Localize env (IdOrMessage.id id) args =
          some (l.localize env { ID := id, Other := d } (Value.int IntKind.int 0)
            (indexOrNil args 1)) := by
        simp only [DefaultLocalizer.Localize, hd]
      have hno : ∀ text name reason, l.Localize env (IdOrMessage.id id) args ≠
          some (text, some (Error.invocation name reason)) := by
        intro text name reason h1
        rw [e] at h1
        simp only [Option.some.injEq] at h1
        exact Localize_valid_no_invocation env henv l _ _ _ _ _ _ h1
      refine ⟨⟨fun ⟨t, n, r, h1⟩ => absurd h1 (hno t n r), ?_⟩,
        fun t n r h1 => absurd h1 (hno t n r)⟩
      rintro (⟨id1, _, h1⟩ | ⟨v, h1⟩)
      · exact absurd hd (h1 d)
      · cases h1
  | message m =>
    have hno : ∀ text name reason, l.Localize env (IdOrMessage.message m) args ≠
        some (text, some (Error.invocation name reason)) := by
      intro text name reason h1
      unfold DefaultLocalizer.Localize at h1
      cases hp : parseArgs args with
      | none => rw [hp] at h1; cases h1
      | some cd =>
        rw [hp] at h1
        simp only [Option.some.injEq] at h1
        exact Localize_valid_no_invocation env henv l _ _ _ _ _ _ h1
    refine ⟨⟨fun ⟨t, n, r, h1⟩ => absurd h1 (hno t n r), ?_⟩,
      fun t n r h1 => absurd h1 (hno t n r)⟩
    rintro (⟨id1, h1, _⟩ | ⟨v, h1⟩)
    · cases h1
    · cases h1
  | nilMessage =>
    refine ⟨⟨fun ⟨t, n, r, h1⟩ => (by cases h1), ?_⟩, fun t n r h1 => (by cases h1)⟩
    rintro (⟨id1, h1, _⟩ | ⟨v, h1⟩)
    · cases h1
    · cases h1
  | other v =>
    refine ⟨⟨fun _ => Or.inr ⟨v, rfl⟩, fun _ => ⟨_, _, _, rfl⟩⟩, ?_⟩
    intro text name reason h1
    simp only [DefaultLocalizer.Localize, Option.some.injEq, Prod.mk.injEq,
      Error.invocation.injEq] at h1
    exact ⟨h1.1.symm, h1.2.1.symm, fun l1 => rfl⟩

/-- C21 (amended): an unparsable quantity is dropped without an error.  When
`newOperands` fails on the quantity and returns no operands, `Localizer.Localize`
and `DefaultLocalizer.Localize` go on as if `newOperands` had returned no
operands and no error: `Localizer.Localize` returns what `localize` returns
without operands, with no error at all, and the only error that
`DefaultLocalizer.Localize` reports is that of a default message that does not
compile. -/
theorem Localize_drops_operands_error (env : Env Operands)
    (l : Localizer Operands Value UnmarshalFunc) (dl : DefaultLocalizer Operands UnmarshalFunc)
    (id : Str) (message : Message) (args : List Value) (count data : Value) (err : Error)
    (hargs : parseArgs args = some (count, data))
    (hfail : env.newOperands count = (none, some err)) :
    Localizer.Localize env l id args = some (l.localize id none data) ∧
      (l.localize id none data).2 = none ∧
      dl.Localize env (IdOrMessage.message message) args =
        some (dl.localize { env with newOperands := fun _ => (none, none) } message count data) ∧
      ∀ text e, dl.Localize env (IdOrMessage.message message) args = some (text, some e) →
        message.Template env = Except.error e := by
  have hops : (env.newOperands count).1 = none := by rw [hfail]
  have hdl : dl.Localize env (IdOrMessage.message message) args =
      some (dl.localize env message count data) := by
    simp only [DefaultLocalizer.Localize, hargs]
  refine ⟨?_, localizeLoop_none_no_error _ _ _ _, ?_, ?_⟩
  · simp only [Localizer.Localize, hargs, hops]
  · rw [hdl]
    unfold DefaultLocalizer.localize Message.Template NewMessageTemplate
    simp only [hops, newMessageTemplateLoop_newOperands env (fun _ => (none, none))]
  · intro text e h
    rw [hdl] at h
    simp only [Option.some.injEq] at h
    exact DefaultLocalizer_localize_none_error env dl message count data hops text e h

end

theorem Localize_drops_operands_error_witness :
    Localizer.Localize exEnv (NewLocalizer esBundle "es".toList) "HelloWorld".toList
        [Value.str "abc".toList] =
        some ((NewLocalizer esBundle "es".toList).localize "HelloWorld".toList none abcData) ∧
      ((NewLocalizer esBundle "es".toList).localize "HelloWorld".toList none abcData).2 = none ∧
      (NewDefaultLocalizer esBundle "es".toList "en".toList).Localize exEnv
          (IdOrMessage.message { ID := "HelloWorld".toList, Other := "Hello World!".toList })
          [Value.str "abc".toList] =
        some ((NewDefaultLocalizer esBundle "es".toList "en".toList).localize
          { exEnv with newOperands := fun _ => (none, none) }
          { ID := "HelloWorld".toList, Other := "Hello World!".toList }
          (Value.str "abc".toList) abcData) ∧
      ∀ text e, (NewDefaultLocalizer esBundle "es".toList "en".toList).Localize exEnv
          (IdOrMessage.message { ID := "HelloWorld".toList, Other := "Hello World!".toList })
          [Value.str "abc".toList] = some (text, some e) →
        Message.Template exEnv { ID := "HelloWorld".toList, Other := "Hello World!".toList } =
          Except.error e :=
  Localize_drops_operands_error exEnv (NewLocalizer esBundle "es".toList)
    (NewDefaultLocalizer esBundle "es".toList "en".toList) "HelloWorld".toList
    { ID := "HelloWorld".toList, Other := "Hello World!".toList } [Value.str "abc".toList]
    (Value.str "abc".toList) abcData (Error.external "invalid quantity".toList) rfl rfl

/-- C21 (counterexample): `newOperands` fails on the quantity `abc`, and
`Localizer.Localize` and `DefaultLocalizer.Localize` return the text of the
category `Other` with no error. -/
theorem Localize_unparsable_quantity_no_error :
    exEnv.newOperands (Value.str "abc".toList) =
        (none, some (Error.external "invalid quantity".toList)) ∧
      Localizer.Localize exEnv (NewLocalizer esBundle "es".toList) "HelloWorld".toList
          [Value.str "abc".toList] = some ("Hola Mundo!".toList, none) ∧
      (NewDefaultLocalizer esBundle "es".toList "en".toList).Localize exEnv
          (IdOrMessage.message { ID := "HelloWorld".toList, Other := "Hello World!".toList })
          [Value.str "abc".toList] = some ("Hola Mundo!".toList, none) ∧
      (NewDefaultLocalizer rulesBundle "es".toList "en".toList).Localize exEnv
          (IdOrMessage.message { ID := "HelloWorld".toList, Other := "Hello World!".toList })
          [Value.str "abc".toList] = some ("Hello World!".toList, none) := by
  refine ⟨by decide, by decide, by decide, by decide⟩

theorem exEnv_no_invocation (s : Str) (e : Error)
    (h : exEnv.NewPluralForm s = Except.error e ∨ exEnv.NewTemplate s = Except.error e)
    (name reason : Str) : e ≠ Error.invocation name reason := by
  intro e1
  subst e1
  rcases h with h | h
  · have h1 : exNewPluralForm s = Except.error (Error.invocation name reason) := h
    unfold exNewPluralForm at h1
    split_ifs at h1
    cases h1
  · have h1 : exNewTemplate s = Except.error (Error.invocation name reason) := h
    unfold exNewTemplate at h1
    split_ifs at h1
    cases h1

theorem Localize_invocation_error_iff_witness :
    ((∃ text name reason,
        (NewDefaultLocalizer esBundle "es".toList "en".toList).Localize exEnv
            (IdOrMessage.id "HelloWorld".toList) [Value.int IntKind.int 3] =
          some (text, some (Error.invocation name reason))) ↔
      ((∃ id, IdOrMessage.id "HelloWorld".toList = IdOrMessage.id id ∧
          ∀ d, indexOrNil [Value.int IntKind.int 3] 0 ≠ Value.str d) ∨
        ∃ v, IdOrMessage.id "HelloWorld".toList = IdOrMessage.other v)) ∧
      ∀ text name reason,
        (NewDefaultLocalizer esBundle "es".toList "en".toList).Localize exEnv
            (IdOrMessage.id "HelloWorld".toList) [Value.int IntKind.int 3] =
          some (text, some (Error.invocation name reason)) →
        text = [] ∧ name = "Localize".toList ∧
          ∀ l1 : DefaultLocalizer Nat Unit,
            l1.Localize exEnv (IdOrMessage.id "HelloWorld".toList) [Value.int IntKind.int 3] =
              (NewDefaultLocalizer esBundle "es".toList "en".toList).Localize exEnv
                (IdOrMessage.id "HelloWorld".toList) [Value.int IntKind.int 3] :=
  Localize_invocation_error_iff exEnv exEnv_no_invocation
    (NewDefaultLocalizer esBundle "es".toList "en".toList) (IdOrMessage.id "HelloWorld".toList)
    [Value.int IntKind.int 3]

/-! ## C23: `NewMessageTemplate` -/

section
variable {Operands : Type}

/-- What the loop of `NewMessageTemplate` builds when it succeeds. -/
theorem newMessageTemplateLoop_ok (env : Env Operands) (data : List (Str × Str))
    (translation t : MessageTemplate Value)
    (h : newMessageTemplateLoop env translation data = Except.ok t) :
    t.ID = translation.ID ∧
      ((∀ v, ("description".toList, v) ∉ data) → t.Description = translation.Description) ∧
      ((data.map Prod.fst).Nodup → ∀ v, ("description".toList, v) ∈ data → t.Description = v) ∧
      ∀ pf, (t.PluralForms pf = translation.PluralForms pf ∧
          ∀ kv ∈ data, kv.1 ≠ "description".toList → env.NewPluralForm kv.1 ≠ Except.ok pf) ∨
        ∃ kv ∈ data, kv.1 ≠ "description".toList ∧ env.NewPluralForm kv.1 = Except.ok pf ∧
          ∃ tm, env.NewTemplate kv.2 = Except.ok tm ∧ t.PluralForms pf = some tm := by
  induction data generalizing translation with
  | nil =>
    simp only [newMessageTemplateLoop, Except.ok.injEq] at h
    subst h
    refine ⟨rfl, fun _ => rfl, fun _ v hv => by simp at hv, fun pf => Or.inl ⟨rfl, ?_⟩⟩
    intro kv hkv
    simp at hkv
  | cons kv data ih =>
    obtain ⟨k, v⟩ := kv
    by_cases hk : k = "description".toList
    · simp only [newMessageTemplateLoop, hk, if_true] at h
      obtain ⟨h1, h2, h3, h4⟩ := ih _ h
      subst hk
      refine ⟨h1, ?_, ?_, ?_⟩
      · intro hno
        exact absurd (List.mem_cons_self _ _) (hno v)
      · intro hnd v1 hv1
        simp only [List.map_cons, List.nodup_cons] at hnd
        have hno : ∀ v2, ("description".toList, v2) ∉ data := by
          intro v2 hv2
          exact hnd.1 (List.mem_map.2 ⟨_, hv2, rfl⟩)
        rcases List.mem_cons.1 hv1 with e | e
        · simp only [Prod.mk.injEq, true_and] at e
          rw [h2 hno, e]
        · exact absurd e (hno v1)
      · intro pf
        rcases h4 pf with ⟨e, hn⟩ | ⟨kv, hkv, hr⟩
        · left
          refine ⟨e, ?_⟩
          intro kv hkv hne
          rcases List.mem_cons.1 hkv with e1 | e1
          · rw [e1] at hne; exact absurd rfl hne
          · exact hn kv e1 hne
        · right
          exact ⟨kv, List.mem_cons_of_mem _ hkv, hr⟩
    · simp only [newMessageTemplateLoop, hk, if_false] at h
      cases hp : env.NewPluralForm k with
      | error err => rw [hp] at h; cases h
      | ok pf0 =>
        rw [hp] at h
        cases ht : env.NewTemplate v with
        | error err => rw [ht] at h; cases h
        | ok tm0 =>
          rw [ht] at h
          obtain ⟨h1, h2, h3, h4⟩ := ih _ h
          refine ⟨h1, ?_, ?_, ?_⟩
          · intro hno
            exact h2 (fun v2 hv2 => hno v2 (List.mem_cons_of_mem _ hv2))
          · intro hnd v1 hv1
            simp only [List.map_cons, List.nodup_cons] at hnd
            rcases List.mem_cons.1 hv1 with e | e
            · simp only [Prod.mk.injEq] at e
              exact absurd e.1.symm hk
            · exact h3 hnd.2 v1 e
          · intro pf
            rcases h4 pf with ⟨e, hn⟩ | ⟨kv, hkv, hr⟩
            · by_cases hpf : pf = pf0
              · right
                refine ⟨(k, v), List.mem_cons_self _ _, hk, by rw [hp, hpf], tm0, ht, ?_⟩
                rw [e]
                simp [formSet, hpf]
              · left
                constructor
                · rw [e]
                  simp [formSet, hpf]
                · intro kv hkv hne
                  rcases List.mem_cons.1 hkv with e1 | e1
                  · rw [e1, hp]
                    intro e2
                    simp only [Except.ok.injEq] at e2
                    exact hpf e2.symm
                  · exact hn kv e1 hne
            · right
              exact ⟨kv, List.mem_cons_of_mem _ hkv, hr⟩

/-- C23. `NewMessageTemplate(id, data)` fails if and only if some key of `data`
other than `description` is not a recognized category name or its text fails to
compile.  On success the result has the ID `id`, its `Description` is the value
under `description` (empty if there is none), and it holds a compiled form for
exactly the categories that the remaining keys name, compiled from the text
under such a key.  The keys of `data`, a map, are distinct. -/
theorem NewMessageTemplate_spec (env : Env Operands) (id : Str) (data : List (Str × Str))
    (hkeys : (data.map Prod.fst).Nodup) :
    ((∃ e, NewMessageTemplate env id data = Except.error e) ↔
        ∃ kv ∈ data, kv.1 ≠ "description".toList ∧
          ((∀ pf, env.NewPluralForm kv.1 ≠ Except.ok pf) ∨
            ∀ t, env.NewTemplate kv.2 ≠ Except.ok t)) ∧
      ∀ t, NewMessageTemplate env id data = Except.ok t →
        t.ID = id ∧
        (∀ v, ("description".toList, v) ∈ data → t.Description = v) ∧
        ((∀ v, ("description".toList, v) ∉ data) → t.Description = []) ∧
        (∀ pf, t.PluralForms pf ≠ none ↔
          ∃ kv ∈ data, kv.1 ≠ "description".toList ∧ env.NewPluralForm kv.1 = Except.ok pf) ∧
        ∀ pf tm, t.PluralForms pf = some tm →
          ∃ kv ∈ data, kv.1 ≠ "description".toList ∧ env.NewPluralForm kv.1 = Except.ok pf ∧
            env.NewTemplate kv.2 = Except.ok tm := by
  constructor
  · have hiff := newMessageTemplateLoop_ok_iff env data
      { ID := id, Description := [], PluralForms := fun _ => none }
    constructor
    · rintro ⟨e, he⟩
      by_contra hc
      have hall : ∀ kv ∈ data, kv.1 ≠ "description".toList →
          (∃ pf, env.NewPluralForm kv.1 = Except.ok pf) ∧
            ∃ t, env.NewTemplate kv.2 = Except.ok t := by
        intro kv hkv hne
        constructor
        · by_contra h1
          exact hc ⟨kv, hkv, hne, Or.inl (fun pf hpf => h1 ⟨pf, hpf⟩)⟩
        · by_contra h1
          exact hc ⟨kv, hkv, hne, Or.inr (fun t ht => h1 ⟨t, ht⟩)⟩
      obtain ⟨t, ht⟩ := hiff.2 hall
      unfold NewMessageTemplate at he
      rw [ht] at he
      cases he
    · rintro ⟨kv, hkv, hne, hbad⟩
      cases hr : NewMessageTemplate env id data with
      | error e => exact ⟨e, rfl⟩
      | ok t =>
        obtain ⟨⟨pf, hpf⟩, ⟨tm, htm⟩⟩ := hiff.1 ⟨t, hr⟩ kv hkv hne
        rcases hbad with hb | hb
        · exact absurd hpf (hb pf)
        · exact absurd htm (hb tm)
  · intro t ht
    obtain ⟨h1, h2, h3, h4⟩ := newMessageTemplateLoop_ok env data _ t ht
    refine ⟨h1, h3 hkeys, h2, ?_, ?_⟩
    · intro pf
      rcases h4 pf with ⟨e, hn⟩ | ⟨kv, hkv, hne, hpf, tm, _, htm⟩
      · constructor
        · intro hc
          exact absurd e hc
        · rintro ⟨kv, hkv, hne, hpf⟩
          exact absurd hpf (hn kv hkv hne)
      · constructor
        · intro _
          exact ⟨kv, hkv, hne, hpf⟩
        · intro _
          rw [htm]
          simp
    · intro pf tm htm
      rcases h4 pf with ⟨e, hn⟩ | ⟨kv, hkv, hne, hpf, tm1, h5, h6⟩
      · rw [htm] at e
        cases e
      · rw [htm] at h6
        simp only [Option.some.injEq] at h6
        exact ⟨kv, hkv, hne, hpf, by rw [h6]; exact h5⟩

end

theorem NewMessageTemplate_spec_witness :
    (everythingData.map Prod.fst).Nodup ∧
      ∀ t, NewMessageTemplate exEnv "everything".toList everythingData = Except.ok t →
        t.ID = "everything".toList ∧ t.Description = "everything description".toList ∧
          (t.PluralForms PluralForm.Few ≠ none ↔
            ∃ kv ∈ everythingData, kv.1 ≠ "description".toList ∧
              exEnv.NewPluralForm kv.1 = Except.ok PluralForm.Few) :=
  ⟨by decide, fun t ht =>
    ⟨((NewMessageTemplate_spec exEnv "everything".toList everythingData (by decide)).2 t ht).1,
      ((NewMessageTemplate_spec exEnv "everything".toList everythingData (by decide)).2 t ht).2.1
        _ (by decide),
      ((NewMessageTemplate_spec exEnv "everything".toList everythingData
        (by decide)).2 t ht).2.2.2.1 PluralForm.Few⟩⟩

/-- The data of `everythingMessageTemplate` compile, and a key that names no
category does not. -/
theorem NewMessageTemplate_examples :
    (∃ t, NewMessageTemplate exEnv "everything".toList everythingData = Except.ok t) ∧
      NewMessageTemplate exEnv "simple".toList [("others".toList, "simple translation".toList)] =
        Except.error (Error.external "invalid plural form".toList) :=
  ⟨⟨_, rfl⟩, rfl⟩

/-! ## The order of `range` -/

theorem value_unique_of_nodup_keys {V : Type} (l : List (Str × V))
    (hnd : (l.map Prod.fst).Nodup) (k : Str) (v1 v2 : V) (h1 : (k, v1) ∈ l) (h2 : (k, v2) ∈ l) :
    v1 = v2 := by
  induction l with
  | nil => simp at h1
  | cons x l ih =>
    simp only [List.map_cons, List.nodup_cons] at hnd
    rcases List.mem_cons.1 h1 with e1 | e1
    · rcases List.mem_cons.1 h2 with e2 | e2
      · rw [← e2] at e1
        simp only [Prod.mk.injEq, true_and] at e1
        exact e1
      · exact absurd (List.mem_map.2 ⟨(k, v2), e2, by rw [← e1]⟩) hnd.1
    · rcases List.mem_cons.1 h2 with e2 | e2
      · exact absurd (List.mem_map.2 ⟨(k, v1), e1, by rw [← e2]⟩) hnd.1
      · exact ih hnd.2 e1 e2

/-- The result of `NewMessageTemplate` does not depend on the order in which
`range` visits the entries of `data`, for a `NewPluralForm` that gives distinct
keys distinct categories: what it builds from one listing of the entries, it
builds from every other. -/
theorem NewMessageTemplate_perm {Operands : Type} (env : Env Operands)
    (hinj : ∀ k1 k2 pf, env.NewPluralForm k1 = Except.ok pf →
      env.NewPluralForm k2 = Except.ok pf → k1 = k2)
    (id : Str) (d1 d2 : List (Str × Str)) (hp : d1.Perm d2) (hnd : (d1.map Prod.fst).Nodup)
    (t1 : MessageTemplate Value) (h1 : NewMessageTemplate env id d1 = Except.ok t1) :
    NewMessageTemplate env id d2 = Except.ok t1 := by
  have hnd2 : (d2.map Prod.fst).Nodup := (hp.map Prod.fst).nodup_iff.1 hnd
  have hmem : ∀ kv, kv ∈ d1 ↔ kv ∈ d2 := fun kv => hp.mem_iff
  have hok2 : ∃ t2, NewMessageTemplate env id d2 = Except.ok t2 := by
    unfold NewMessageTemplate
    rw [newMessageTemplateLoop_ok_iff]
    intro kv hkv hne
    have := (newMessageTemplateLoop_ok_iff env d1
      { ID := id, Description := [], PluralForms := fun _ => none }).1 ⟨t1, h1⟩
    exact this kv ((hmem kv).2 hkv) hne
  obtain ⟨t2, h2⟩ := hok2
  rw [h2]
  obtain ⟨a1, a2, a3, a4⟩ := newMessageTemplateLoop_ok env d1 _ t1 h1
  obtain ⟨b1, b2, b3, b4⟩ := newMessageTemplateLoop_ok env d2 _ t2 h2
  have hID : t2.ID = t1.ID := by rw [a1, b1]
  have hD : t2.Description = t1.Description := by
    by_cases hd : ∃ v, ("description".toList, v) ∈ d1
    · obtain ⟨v, hv⟩ := hd
      rw [a3 hnd v hv, b3 hnd2 v ((hmem _).1 hv)]
    · have hno1 : ∀ v, ("description".toList, v) ∉ d1 := fun v hv => hd ⟨v, hv⟩
      have hno2 : ∀ v, ("description".toList, v) ∉ d2 := fun v hv => hd ⟨v, (hmem _).2 hv⟩
      rw [a2 hno1, b2 hno2]
  have hP : t2.PluralForms = t1.PluralForms := by
    funext pf
    rcases a4 pf with ⟨e1, n1⟩ | ⟨kv1, hkv1, hne1, hpf1, tm1, htm1, e1⟩
    · rcases b4 pf with ⟨e2, _⟩ | ⟨kv2, hkv2, hne2, hpf2, _⟩
      · rw [e1, e2]
      · exact absurd hpf2 (n1 kv2 ((hmem _).2 hkv2) hne2)
    · rcases b4 pf with ⟨_, n2⟩ | ⟨kv2, hkv2, hne2, hpf2, tm2, htm2, e2⟩
      · exact absurd hpf1 (n2 kv1 ((hmem _).1 hkv1) hne1)
      · have hk : kv1.1 = kv2.1 := hinj _ _ pf hpf1 hpf2
        have hv : kv1.2 = kv2.2 :=
          value_unique_of_nodup_keys d2 hnd2 kv2.1 kv1.2 kv2.2
            (by rw [← hk]; exact (hmem _).1 hkv1) hkv2
        rw [hv, htm2] at htm1
        simp only [Except.ok.injEq] at htm1
        rw [e1, e2, htm1]
  cases t1
  cases t2
  simp only at hID hD hP
  rw [hID, hD, hP]

/-! ## C24, C25: `ParseMessageFileBytes` -/

theorem strdataStrMap_strings (path id : Str) (m : List (Str × Str)) :
    strdataStrMap path id (m.map (fun kv => (kv.1, Value.str kv.2))) = Except.ok m := by
  induction m with
  | nil => rfl
  | cons kv m ih =>
    obtain ⟨k, s⟩ := kv
    simp only [List.map_cons, strdataStrMap, ih]

theorem strdataAnyMap_strings (path id : Str) (m : List (Str × Str)) :
    strdataAnyMap path id (m.map (fun kv => (Value.str kv.1, Value.str kv.2))) = Except.ok m := by
  induction m with
  | nil => rfl
  | cons kv m ih =>
    obtain ⟨k, s⟩ := kv
    simp only [List.map_cons, strdataAnyMap, ih]

theorem strdataStrMap_cons_str (path id k s : Str) (rest : List (Str × Value)) :
    strdataStrMap path id ((k, Value.str s) :: rest) =
      match strdataStrMap path id rest with
      | Except.error e => Except.error e
      | Except.ok strdata => Except.ok ((k, s) :: strdata) := by
  rw [strdataStrMap]

theorem strdataStrMap_cons_other (path id k : Str) (v : Value) (rest : List (Str × Value))
    (hv : ∀ s, v ≠ Value.str s) :
    strdataStrMap path id ((k, v) :: rest) = Except.error (Error.expectedString path id k) := by
  cases v with
  | str s => exact absurd rfl (hv s)
  | _ => rfl

theorem strdataAnyMap_cons_str (path id k s : Str) (rest : List (Value × Value)) :
    strdataAnyMap path id ((Value.str k, Value.str s) :: rest) =
      match strdataAnyMap path id rest with
      | Except.error e => Except.error e
      | Except.ok strdata => Except.ok ((k, s) :: strdata) := by
  rw [strdataAnyMap]

theorem strdataAnyMap_cons_value (path id k : Str) (v : Value) (rest : List (Value × Value))
    (hv : ∀ s, v ≠ Value.str s) :
    strdataAnyMap path id ((Value.str k, v) :: rest) =
      Except.error (Error.nonStringValue path id k) := by
  cases v with
  | str s => exact absurd rfl (hv s)
  | _ => rfl

theorem strdataAnyMap_cons_key (path id : Str) (k v : Value) (rest : List (Value × Value))
    (hk : ∀ s, k ≠ Value.str s) :
    strdataAnyMap path id ((k, v) :: rest) = Except.error (Error.nonStringKey path id) := by
  cases k with
  | str s => exact absurd rfl (hk s)
  | _ => cases v <;> rfl

theorem Value_str_or_not (v : Value) : (∃ s, v = Value.str s) ∨ ∀ s, v ≠ Value.str s := by
  cases v with
  | str s => exact Or.inl ⟨s, rfl⟩
  | _ => right; intro s h; cases h

/-- The string data of a `map[string]interface{}` are its entries, all strings. -/
theorem strdataStrMap_ok (path id : Str) (es : List (Str × Value)) (d : List (Str × Str))
    (h : strdataStrMap path id es = Except.ok d) :
    es = d.map (fun kv => (kv.1, Value.str kv.2)) := by
  induction es generalizing d with
  | nil =>
    simp only [strdataStrMap, Except.ok.injEq] at h
    subst h; rfl
  | cons kv es ih =>
    obtain ⟨k, v⟩ := kv
    rcases Value_str_or_not v with ⟨s, rfl⟩ | hv
    · rw [strdataStrMap_cons_str] at h
      cases hr : strdataStrMap path id es with
      | error e => rw [hr] at h; cases h
      | ok d1 =>
        rw [hr] at h
        simp only [Except.ok.injEq] at h
        subst h
        rw [ih d1 hr]
        rfl
    · rw [strdataStrMap_cons_other path id k v es hv] at h
      cases h

theorem strdataAnyMap_ok (path id : Str) (es : List (Value × Value)) (d : List (Str × Str))
    (h : strdataAnyMap path id es = Except.ok d) :
    es = d.map (fun kv => (Value.str kv.1, Value.str kv.2)) := by
  induction es generalizing d with
  | nil =>
    simp only [strdataAnyMap, Except.ok.injEq] at h
    subst h; rfl
  | cons kv es ih =>
    obtain ⟨k, v⟩ := kv
    rcases Value_str_or_not k with ⟨ks, rfl⟩ | hk
    · rcases Value_str_or_not v with ⟨s, rfl⟩ | hv
      · rw [strdataAnyMap_cons_str] at h
        cases hr : strdataAnyMap path id es with
        | error e => rw [hr] at h; cases h
        | ok d1 =>
          rw [hr] at h
          simp only [Except.ok.injEq] at h
          subst h
          rw [ih d1 hr]
          rfl
      · rw [strdataAnyMap_cons_value path id ks v es hv] at h
        cases h
    · rw [strdataAnyMap_cons_key path id k v es hk] at h
      cases h

/-- A value that is not a string makes the loop over a `map[string]interface{}`
fail. -/
theorem strdataStrMap_bad (path id : Str) (es : List (Str × Value)) (kv : Str × Value)
    (hkv : kv ∈ es) (hbad : ∀ s, kv.2 ≠ Value.str s) :
    ∃ e, strdataStrMap path id es = Except.error e := by
  cases h : strdataStrMap path id es with
  | error e => exact ⟨e, rfl⟩
  | ok d =>
    have e := strdataStrMap_ok path id es d h
    rw [e] at hkv
    obtain ⟨x, _, hx⟩ := List.mem_map.1 hkv
    exact absurd (by rw [← hx]) (hbad x.2)

/-- A key or a value that is not a string makes the loop over a
`map[interface{}]interface{}` fail. -/
theorem strdataAnyMap_bad (path id : Str) (es : List (Value × Value)) (kv : Value × Value)
    (hkv : kv ∈ es) (hbad : (∀ s, kv.1 ≠ Value.str s) ∨ ∀ s, kv.2 ≠ Value.str s) :
    ∃ e, strdataAnyMap path id es = Except.error e := by
  cases h : strdataAnyMap path id es with
  | error e => exact ⟨e, rfl⟩
  | ok d =>
    have e := strdataAnyMap_ok path id es d h
    rw [e] at hkv
    obtain ⟨x, _, hx⟩ := List.mem_map.1 hkv
    rcases hbad with hb | hb
    · exact absurd (by rw [← hx]) (hb x.1)
    · exact absurd (by rw [← hx]) (hb x.2)

/-- The shapes of raw value from which the type switch builds string data. -/
theorem strdataOf_ok (path id : Str) (v : Raw) (d : List (Str × Str))
    (h : strdataOf path id v = Except.ok d) :
    (∃ s, v = Raw.str s ∧ d = [("other".toList, s)]) ∨
      v = Raw.strMap (d.map (fun kv => (kv.1, Value.str kv.2))) ∨
      v = Raw.anyMap (d.map (fun kv => (Value.str kv.1, Value.str kv.2))) := by
  cases v with
  | str s =>
    simp only [strdataOf, Except.ok.injEq] at h
    exact Or.inl ⟨s, rfl, h.symm⟩
  | strMap es => exact Or.inr (Or.inl (by rw [strdataStrMap_ok path id es d h]))
  | anyMap es => exact Or.inr (Or.inr (by rw [strdataAnyMap_ok path id es d h]))
  | other => cases h

section
variable {Operands : Type}

/-- The loop over `raw`, when it succeeds: each id has string data that `mk`
accepts, and the list holds, for the id, the one template built from them. -/
theorem parseRawLoop_ok (mk : Str → List (Str × Str) → Except Error (MessageTemplate Value))
    (hID : ∀ id d t, mk id d = Except.ok t → t.ID = id) (path : Str)
    (raw : List (Str × Raw)) (ts : List (MessageTemplate Value))
    (h : parseRawLoop mk path raw = Except.ok ts) (hnd : (raw.map Prod.fst).Nodup) :
    (∀ t ∈ ts, t.ID ∈ raw.map Prod.fst) ∧
      ∀ id v, (id, v) ∈ raw → ∃ strdata t, strdataOf path id v = Except.ok strdata ∧
        mk id strdata = Except.ok t ∧
        (ts.filter (fun x => decide (x.ID = id))).getLast? = some t := by
  induction raw generalizing ts with
  | nil =>
    simp only [parseRawLoop, Except.ok.injEq] at h
    subst h
    exact ⟨fun t ht => by simp at ht, fun id v hv => by simp at hv⟩
  | cons iv raw ih =>
    obtain ⟨id0, v0⟩ := iv
    simp only [parseRawLoop] at h
    cases hd : strdataOf path id0 v0 with
    | error e => rw [hd] at h; cases h
    | ok d0 =>
      rw [hd] at h
      simp only at h
      cases hm : mk id0 d0 with
      | error e => rw [hm] at h; cases h
      | ok t0 =>
        rw [hm] at h
        simp only at h
        cases hr : parseRawLoop mk path raw with
        | error e => rw [hr] at h; cases h
        | ok ts0 =>
          rw [hr] at h
          simp only [Except.ok.injEq] at h
          subst h
          simp only [List.map_cons, List.nodup_cons] at hnd
          obtain ⟨ih1, ih2⟩ := ih ts0 hr hnd.2
          have ht0 : t0.ID = id0 := hID id0 d0 t0 hm
          constructor
          · intro t ht
            rcases List.mem_cons.1 ht with e | e
            · rw [e, ht0]; exact List.mem_cons_self _ _
            · exact List.mem_cons_of_mem _ (ih1 t e)
          · intro id v hv
            rcases List.mem_cons.1 hv with e | e
            · simp only [Prod.mk.injEq] at e
              obtain ⟨rfl, rfl⟩ := e
              refine ⟨d0, t0, hd, hm, ?_⟩
              have hnone : ts0.filter (fun x => decide (x.ID = id)) = [] := by
                rw [List.filter_eq_nil_iff]
                intro t ht hc
                simp only [decide_eq_true_eq] at hc
                exact hnd.1 (hc ▸ ih1 t ht)
              simp [List.filter, ht0, hnone]
            · obtain ⟨d, t, h1, h2, h3⟩ := ih2 id v e
              refine ⟨d, t, h1, h2, ?_⟩
              have hne : ¬ t0.ID = id := by
                rw [ht0]
                intro hc
                exact hnd.1 (hc ▸ List.mem_map.2 ⟨(id, v), e, rfl⟩)
              simp [List.filter, hne, h3]

/-- A value under an id from which no string data can be built makes the loop
over `raw` fail. -/
theorem parseRawLoop_bad {T : Type} (mk : Str → List (Str × Str) → Except Error T)
    (path : Str) (raw : List (Str × Raw)) (id : Str) (v : Raw) (hv : (id, v) ∈ raw)
    (hbad : ∃ e, strdataOf path id v = Except.error e) :
    ∃ e, parseRawLoop mk path raw = Except.error e := by
  induction raw with
  | nil => simp at hv
  | cons iv raw ih =>
    obtain ⟨id0, v0⟩ := iv
    simp only [parseRawLoop]
    cases hd : strdataOf path id0 v0 with
    | error e => exact ⟨e, rfl⟩
    | ok d0 =>
      simp only
      cases hm : mk id0 d0 with
      | error e => exact ⟨e, rfl⟩
      | ok t0 =>
        simp only
        rcases List.mem_cons.1 hv with e | e
        · simp only [Prod.mk.injEq] at e
          obtain ⟨rfl, rfl⟩ := e
          obtain ⟨e1, he1⟩ := hbad
          rw [hd] at he1
          cases he1
        · obtain ⟨e1, he1⟩ := ih e
          rw [he1]
          exact ⟨e1, rfl⟩

/-- The lookup under the tag of a successful `AddMessageTemplates`. -/
theorem AddMessageTemplates_lookup {Data UnmarshalFunc : Type}
    (cldr : Str → Option (PluralRule Operands)) (b : Bundle Operands Data UnmarshalFunc)
    (langTag : Str) (ts : List (MessageTemplate Data))
    (hok : (b.AddMessageTemplates cldr langTag ts).2 = none) (id : Str) (t : MessageTemplate Data)
    (ht : (ts.filter (fun x => decide (x.ID = id))).getLast? = some t) :
    (b.AddMessageTemplates cldr langTag ts).1.template langTag id = some t := by
  obtain ⟨pluralRule, _, h2⟩ := AddMessageTemplates_ok cldr b langTag ts hok
  rw [h2]
  simp [Bundle.template, Bundle.templates, mapSet, addTemplatesLoop_apply, ht]

/-- The method `ParseMessageFileBytes` once the bytes are unmarshaled. -/
theorem ParseMessageFileBytes_eq (env : Env Operands) (cldr : Str → Option (PluralRule Operands))
    (sep : Char → Bool) (b : Bundle Operands Value UnmarshalFn) (buf : List Nat) (path : Str)
    (f : UnmarshalFn) (raw : List (Str × Raw)) (hbuf : buf ≠ [])
    (hf : b.unmarshalFunc (parseFormat sep path) = some f) (hraw : f buf = Except.ok raw) :
    b.ParseMessageFileBytes env cldr sep buf path =
      match parseRawLoop (NewMessageTemplate env) path raw with
      | Except.error e => (b, some e)
      | Except.ok messageTemplates =>
        match (FindAllString (pathNoFormat sep path)).getLast? with
        | none => (b, some (Error.noLanguageTag path))
        | some langTag => b.AddMessageTemplates cldr langTag messageTemplates := by
  have hlen : ¬ buf.length = 0 := by
    intro h
    exact hbuf (List.length_eq_zero.1 h)
  unfold Bundle.ParseMessageFileBytes
  rw [if_neg hlen, hf]
  simp only [hraw]

theorem NewMessageTemplate_ID (env : Env Operands) (id : Str) (d : List (Str × Str))
    (t : MessageTemplate Value) (h : NewMessageTemplate env id d = Except.ok t) : t.ID = id :=
  (newMessageTemplateLoop_ok env d _ t h).1

theorem Malformed_strdataOf (path id : Str) (v : Raw) (h : v.Malformed) :
    ∃ e, strdataOf path id v = Except.error e := by
  cases v with
  | str s => exact absurd h (by simp [Raw.Malformed])
  | strMap es =>
    obtain ⟨kv, hkv, hbad⟩ := h
    exact strdataStrMap_bad path id es kv hkv hbad
  | anyMap es =>
    obtain ⟨kv, hkv, hbad⟩ := h
    exact strdataAnyMap_bad path id es kv hkv hbad
  | other => exact ⟨_, rfl⟩

/-- C24. For every id of the unmarshaled data, a successful
`ParseMessageFileBytes` registers, under the language tag of the path, the
template that `NewMessageTemplate` builds from the id and the mapping with the
string under `other` when the raw value is a string, or from the id and the raw
value itself when it is a mapping from strings to strings; a malformed raw
value (another shape, or a key or a value in the mapping that is not a string)
makes the call fail and leaves the bundle as it was.  The ids of the
unmarshaled data, the keys of a map, are distinct. -/
theorem ParseMessageFileBytes_templates (env : Env Operands)
    (cldr : Str → Option (PluralRule Operands)) (sep : Char → Bool)
    (b : Bundle Operands Value UnmarshalFn) (buf : List Nat) (path : Str)
    (f : UnmarshalFn) (raw : List (Str × Raw)) (hbuf : buf ≠ [])
    (hf : b.unmarshalFunc (parseFormat sep path) = some f) (hraw : f buf = Except.ok raw)
    (hids : (raw.map Prod.fst).Nodup) :
    ((b.ParseMessageFileBytes env cldr sep buf path).2 = none →
        ∃ langTag, ∀ id v, (id, v) ∈ raw →
          ∃ t, (b.ParseMessageFileBytes env cldr sep buf path).1.template langTag id = some t ∧
            ((∃ s, v = Raw.str s ∧
                NewMessageTemplate env id [("other".toList, s)] = Except.ok t) ∨
              ∃ m, (v = Raw.strMap (m.map (fun kv => (kv.1, Value.str kv.2))) ∨
                  v = Raw.anyMap (m.map (fun kv => (Value.str kv.1, Value.str kv.2)))) ∧
                NewMessageTemplate env id m = Except.ok t)) ∧
      ∀ id v, (id, v) ∈ raw → v.Malformed →
        ∃ e, b.ParseMessageFileBytes env cldr sep buf path = (b, some e) := by
  rw [ParseMessageFileBytes_eq env cldr sep b buf path f raw hbuf hf hraw]
  constructor
  · intro hok
    cases hts : parseRawLoop (NewMessageTemplate env) path raw with
    | error e => rw [hts] at hok; cases hok
    | ok ts =>
      rw [hts] at hok
      simp only at hok ⊢
      cases hl : (FindAllString (pathNoFormat sep path)).getLast? with
      | none => rw [hl] at hok; cases hok
      | some langTag =>
        rw [hl] at hok
        simp only at hok ⊢
        refine ⟨langTag, fun id v hv => ?_⟩
        obtain ⟨_, h2⟩ := parseRawLoop_ok (NewMessageTemplate env) (NewMessageTemplate_ID env)
          path raw ts hts hids
        obtain ⟨d, t, hd, hm, hlast⟩ := h2 id v hv
        refine ⟨t, AddMessageTemplates_lookup cldr b langTag ts hok id t hlast, ?_⟩
        rcases strdataOf_ok path id v d hd with ⟨s, hs, hd1⟩ | h3 | h3
        · exact Or.inl ⟨s, hs, by rw [← hd1]; exact hm⟩
        · exact Or.inr ⟨d, Or.inl h3, hm⟩
        · exact Or.inr ⟨d, Or.inr h3, hm⟩
  · intro id v hv hbad
    obtain ⟨e, he⟩ := parseRawLoop_bad (NewMessageTemplate env) path raw id v hv
      (Malformed_strdataOf path id v hbad)
    rw [he]
    exact ⟨e, rfl⟩

/-- C25 (amended): on a file that is not empty, `ParseMessageFileBytes` registers
the templates under the last match of the tag grammar in the path with its
format removed from the end: its result is that of `AddMessageTemplates` with
that match; when what is left of the path holds no match, the call returns an
error and the bundle is as it was.  On an empty file the call returns no error,
whatever the path. -/
theorem ParseMessageFileBytes_langTag (env : Env Operands)
    (cldr : Str → Option (PluralRule Operands)) (sep : Char → Bool)
    (b : Bundle Operands Value UnmarshalFn) (buf : List Nat) (path : Str)
    (hbuf : buf ≠ []) :
    pathNoFormat sep path ++ parseFormat sep path = path ∧
      (∀ f raw ts langTag, b.unmarshalFunc (parseFormat sep path) = some f →
        f buf = Except.ok raw →
        parseRawLoop (NewMessageTemplate env) path raw = Except.ok ts →
        (FindAllString (pathNoFormat sep path)).getLast? = some langTag →
        b.ParseMessageFileBytes env cldr sep buf path =
          b.AddMessageTemplates cldr langTag ts) ∧
      (FindAllString (pathNoFormat sep path) = [] →
        ∃ e, b.ParseMessageFileBytes env cldr sep buf path = (b, some e)) ∧
      b.ParseMessageFileBytes env cldr sep [] path = (b, none) := by
  refine ⟨pathNoFormat_append sep path, ?_, ?_, rfl⟩
  · intro f raw ts langTag hf hraw hts hl
    rw [ParseMessageFileBytes_eq env cldr sep b buf path f raw hbuf hf hraw, hts]
    simp only [hl]
  · intro hl
    have hlen : ¬ buf.length = 0 := by
      intro h
      exact hbuf (List.length_eq_zero.1 h)
    unfold Bundle.ParseMessageFileBytes
    rw [if_neg hlen]
    cases b.unmarshalFunc (parseFormat sep path) with
    | none => exact ⟨_, rfl⟩
    | some f =>
      simp only
      cases f buf with
      | error e => exact ⟨e, rfl⟩
      | ok raw =>
        simp only
        cases parseRawLoop (NewMessageTemplate env) path raw with
        | error e => exact ⟨e, rfl⟩
        | ok ts =>
          simp only [hl, List.getLast?_nil]
          exact ⟨_, rfl⟩

end

theorem ParseMessageFileBytes_templates_witness :
    (testBundle.ParseMessageFileBytes exEnv cldrEx IsPathSeparator [123, 125]
        "en-US.json".toList).2 = none ∧
      ∃ langTag, ∀ id v, (id, v) ∈ testRaw →
        ∃ t, (testBundle.ParseMessageFileBytes exEnv cldrEx IsPathSeparator [123, 125]
            "en-US.json".toList).1.template langTag id = some t ∧
          ((∃ s, v = Raw.str s ∧
              NewMessageTemplate exEnv id [("other".toList, s)] = Except.ok t) ∨
            ∃ m, (v = Raw.strMap (m.map (fun kv => (kv.1, Value.str kv.2))) ∨
                v = Raw.anyMap (m.map (fun kv => (Value.str kv.1, Value.str kv.2)))) ∧
              NewMessageTemplate exEnv id m = Except.ok t) :=
  ⟨by decide,
    (ParseMessageFileBytes_templates exEnv cldrEx IsPathSeparator testBundle [123, 125]
      "en-US.json".toList exUnmarshal testRaw (by decide) rfl rfl (by decide)).1 (by decide)⟩

theorem ParseMessageFileBytes_langTag_witness :
    testBundle.ParseMessageFileBytes exEnv cldrEx IsPathSeparator [123, 125]
        "en-US.json".toList =
        testBundle.AddMessageTemplates cldrEx "en-US".toList testTemplates ∧
      ∃ e, testBundle.ParseMessageFileBytes exEnv cldrEx IsPathSeparator [123, 125]
        "1.json".toList = (testBundle, some e) :=
  ⟨(ParseMessageFileBytes_langTag exEnv cldrEx IsPathSeparator testBundle [123, 125]
      "en-US.json".toList (by decide)).2.1 exUnmarshal testRaw testTemplates "en-US".toList
      rfl rfl rfl (by decide),
    (ParseMessageFileBytes_langTag exEnv cldrEx IsPathSeparator testBundle [123, 125]
      "1.json".toList (by decide)).2.2.1 (by decide)⟩

/-- C25 (counterexample): what is left of the path `1.json` without its format
holds no match of the tag grammar, and on an empty file `ParseMessageFileBytes`
returns no error; on a file that is not empty it returns the error that no
language tag is found. -/
theorem ParseMessageFileBytes_empty_file :
    FindAllString (pathNoFormat IsPathSeparator "1.json".toList) = [] ∧
      testBundle.ParseMessageFileBytes exEnv cldrEx IsPathSeparator [] "1.json".toList =
        (testBundle, none) ∧
      (testBundle.ParseMessageFileBytes exEnv cldrEx IsPathSeparator [123, 125]
        "1.json".toList).2 = some (Error.noLanguageTag "1.json".toList) :=
  ⟨by decide, rfl, by decide⟩

/-- The table of `TestJSON` (`bundle_test.go`), evaluated on the embedding: the
three templates are found under `en-US`. -/
theorem TestJSON :
    (testBundle.ParseMessageFileBytes exEnv cldrEx IsPathSeparator [123, 125]
        "en-US.json".toList).2 = none ∧
      ((testBundle.ParseMessageFileBytes exEnv cldrEx IsPathSeparator [123, 125]
        "en-US.json".toList).1.template "en-US".toList "simple".toList).map
          (fun t => (t.Description, t.Execute PluralForm.Other Value.nil)) =
        some ([], "simple translation".toList) ∧
      ((testBundle.ParseMessageFileBytes exEnv cldrEx IsPathSeparator [123, 125]
        "en-US.json".toList).1.template "en-US".toList "everything".toList).map
          (fun t => (t.Description, t.Execute PluralForm.Few Value.nil)) =
        some ("everything description".toList, "few translation".toList) := by
  refine ⟨by decide, by decide, by decide⟩

/-! ## C26: `ParseTranslationFileBytes` of `v2` -/

/-- The matches of the regular expression in a path `<tag>.<format>` whose
format is two or more letters: the tag, then the format. -/
theorem FindAllString_tag_dot_format (w : Str) (gs : List (Char × Str)) (hw : IsSegment w)
    (hgs : IsGroups gs) (fmt : Str) (hfmt : IsSegment fmt) :
    FindAllString (tagOf w gs ++ '.' :: fmt) = [tagOf w gs, fmt] := by
  have hstop : ∀ n, groupStar n ('.' :: fmt) = ([], '.' :: fmt) := by
    intro n
    cases n with
    | zero => rfl
    | succ n => rfl
  have h1 := matchPrefix_tag w gs hw hgs ('.' :: fmt) (by simp) hstop
  have h2 : matchPrefix ('.' :: fmt) = none := by
    rw [matchPrefix_eq_none_iff]
    simp [List.takeWhile]
  have h3 := FindAllString_tag fmt [] hfmt IsGroups_nil
  simp only [tagOf, groupsText, List.append_nil] at h3
  rw [FindAllString_of_match h1, FindAllString_of_no_match _ _ h2, h3]

/-- In `v2`, the translations of a file `<tag>.<format>` whose format is two or
more letters go to `AddTranslations` with the format for language tag. -/
theorem v2_ParseTranslationFileBytes_format {Operands : Type}
    (NewTranslation : Str → List (Str × Str) → Except Error (MessageTemplate Value))
    (cldr : Str → Option (PluralRule Operands)) (b : Bundle Operands Value UnmarshalFn)
    (buf : List Nat) (w : Str) (gs : List (Char × Str)) (fmt : Str) (f : UnmarshalFn)
    (raw : List (Str × Raw)) (ts : List (MessageTemplate Value))
    (hw : IsSegment w) (hgs : IsGroups gs) (hfmt : IsSegment fmt) (hbuf : buf ≠ [])
    (hf : b.unmarshalFunc (V2.parseFormat (tagOf w gs ++ '.' :: fmt)) = some f)
    (hraw : f buf = Except.ok raw)
    (hts : parseRawLoop NewTranslation (tagOf w gs ++ '.' :: fmt) raw = Except.ok ts) :
    V2.ParseTranslationFileBytes NewTranslation cldr b buf (tagOf w gs ++ '.' :: fmt) =
      some (V2.AddTranslations cldr b fmt ts) := by
  have hlen : ¬ buf.length = 0 := by
    intro h
    exact hbuf (List.length_eq_zero.1 h)
  unfold V2.ParseTranslationFileBytes
  rw [if_neg hlen, hf]
  simp only [hraw, hts, FindAllString_tag_dot_format w gs hw hgs fmt hfmt]
  rfl

/-- C26 (failing input): in `v2`, for the path `es.toml` of
`ExampleTranslator_MustTranslate` the format is `toml`, the matches of the
regular expression in the whole path are `es` and `toml`, and
`ParseTranslationFileBytes` takes the last one for language tag: it returns the
error that no plural rule is registered for `toml` and registers nothing under
`es`.  The method of `v2-beta`, which removes the format from the path first,
registers the message under `es`, where a localizer preferring `es-es` finds
it. -/
theorem v2_ParseTranslationFileBytes_es_toml :
    V2.parseFormat "es.toml".toList = "toml".toList ∧
      FindAllString "es.toml".toList = ["es".toList, "toml".toList] ∧
      (V2.ParseTranslationFileBytes (NewMessageTemplate exEnv) cldrEx tomlBundle [10]
          "es.toml".toList).map Prod.snd = some (some (Error.noPluralRule "toml".toList)) ∧
      (V2.ParseTranslationFileBytes (NewMessageTemplate exEnv) cldrEx tomlBundle [10]
          "es.toml".toList).map
          (fun r => (r.1.template "es".toList "HelloWorld".toList).isSome) = some false ∧
      (tomlBundle.ParseMessageFileBytes exEnv cldrEx IsPathSeparator [10]
          "es.toml".toList).2 = none ∧
      Localizer.Localize exEnv
          (NewLocalizer (tomlBundle.ParseMessageFileBytes exEnv cldrEx IsPathSeparator [10]
            "es.toml".toList).1 "es-es".toList) "HelloWorld".toList [] =
        some ("Hola Mundo!".toList, none) := by
  refine ⟨by decide, by decide, by decide, by decide, by decide, by decide⟩

/-! ## C31, C32: tags passed over, and calls without a quantity -/

section
variable {Operands Data UnmarshalFunc : Type}

/-- A category without a compiled form renders the empty text. -/
theorem Execute_of_no_form (template : MessageTemplate Data) (pluralForm : PluralForm)
    (data : Data) (h : template.PluralForms pluralForm = none) :
    template.Execute pluralForm data = [] := by
  simp [MessageTemplate.Execute, Template.ExecuteNilSafe, h]

/-- The loop of `localize` passes over a tag whose template renders the empty
text for a plural form other than `Invalid`, wherever the tag stands. -/
theorem localizeLoop_drop (l : Localizer Operands Data UnmarshalFunc) (id : Str)
    (operands : Option Operands) (data : Data) (pre rest : List Str) (tag : Str)
    (template : MessageTemplate Data) (ht : l.Bundle.template tag id = some template)
    (hform : l.pluralForm tag operands ≠ PluralForm.Invalid)
    (hempty : template.Execute (l.pluralForm tag operands) data = []) :
    l.localizeLoop id operands data (pre ++ tag :: rest) =
      l.localizeLoop id operands data (pre ++ rest) := by
  induction pre with
  | nil =>
    rw [List.nil_append, List.nil_append,
      localizeLoop_cons_some l id operands data tag rest template ht, if_neg hform, hempty]
    simp
  | cons p pre ih =>
    cases hp : l.Bundle.template p id with
    | none =>
      rw [List.cons_append, List.cons_append, localizeLoop_cons_none l id operands data p _ hp,
        localizeLoop_cons_none l id operands data p _ hp, ih]
    | some tp =>
      rw [List.cons_append, List.cons_append, localizeLoop_cons_some l id operands data p _ tp hp,
        localizeLoop_cons_some l id operands data p _ tp hp, ih]

/-- The loop of `localize` passes over a tag that holds no template for the id,
wherever the tag stands. -/
theorem localizeLoop_drop_missing (l : Localizer Operands Data UnmarshalFunc) (id : Str)
    (operands : Option Operands) (data : Data) (pre rest : List Str) (tag : Str)
    (ht : l.Bundle.template tag id = none) :
    l.localizeLoop id operands data (pre ++ tag :: rest) =
      l.localizeLoop id operands data (pre ++ rest) := by
  induction pre with
  | nil =>
    rw [List.nil_append, List.nil_append, localizeLoop_cons_none l id operands data tag rest ht]
  | cons p pre ih =>
    cases hp : l.Bundle.template p id with
    | none =>
      rw [List.cons_append, List.cons_append, localizeLoop_cons_none l id operands data p _ hp,
        localizeLoop_cons_none l id operands data p _ hp, ih]
    | some tp =>
      rw [List.cons_append, List.cons_append, localizeLoop_cons_some l id operands data p _ tp hp,
        localizeLoop_cons_some l id operands data p _ tp hp, ih]

/-- The loop of `localize` reads, of the localizer, the templates for the id under
the tags of the list and the plural forms of these tags. -/
theorem localizeLoop_congr (l1 l2 : Localizer Operands Data UnmarshalFunc) (id : Str)
    (operands : Option Operands) (data : Data) (tags : List Str)
    (h : ∀ t ∈ tags, l1.Bundle.template t id = l2.Bundle.template t id ∧
      l1.pluralForm t operands = l2.pluralForm t operands) :
    l1.localizeLoop id operands data tags = l2.localizeLoop id operands data tags := by
  induction tags with
  | nil => rfl
  | cons t tags ih =>
    have ih1 := ih (fun x hx => h x (List.mem_cons_of_mem _ hx))
    obtain ⟨h1, h2⟩ := h t (List.mem_cons_self _ _)
    cases ht : l1.Bundle.template t id with
    | none =>
      rw [localizeLoop_cons_none l1 id operands data t tags ht,
        localizeLoop_cons_none l2 id operands data t tags (by rw [← h1]; exact ht), ih1]
    | some tmpl =>
      rw [localizeLoop_cons_some l1 id operands data t tags tmpl ht,
        localizeLoop_cons_some l2 id operands data t tags tmpl (by rw [← h1]; exact ht), ih1, h2]

/-- The loop of `localize` reads, of the localizer, the bundle only. -/
theorem localizeLoop_bundle (l1 l2 : Localizer Operands Data UnmarshalFunc)
    (hb : l1.Bundle = l2.Bundle) (id : Str) (operands : Option Operands) (data : Data)
    (tags : List Str) :
    l1.localizeLoop id operands data tags = l2.localizeLoop id operands data tags := by
  apply localizeLoop_congr
  intro t _
  unfold Localizer.pluralForm
  rw [hb]
  exact ⟨rfl, rfl⟩

/-- C31. A preferred tag whose template for the id renders the empty text, or
has no compiled form for the selected category, is treated like a tag with no
template for the id: provided the plural category obtained for the tag is not
`Invalid`, `localize` returns what it returns on the list of tags without that
tag; for the first tag of the list, this is the result of `localize` over the
later tags.  A tag with no template for the id is passed over in the same way. -/
theorem localize_empty_like_missing (bundle : Bundle Operands Data UnmarshalFunc) (id : Str)
    (operands : Option Operands) (data : Data) (pre rest : List Str) (tag : Str)
    (template : MessageTemplate Data) (ht : bundle.template tag id = some template)
    (hform : Localizer.pluralForm { Bundle := bundle, LanguageTags := pre ++ tag :: rest } tag
      operands ≠ PluralForm.Invalid)
    (hempty : template.PluralForms
        (Localizer.pluralForm { Bundle := bundle, LanguageTags := pre ++ tag :: rest } tag
          operands) = none ∨
      template.Execute
        (Localizer.pluralForm { Bundle := bundle, LanguageTags := pre ++ tag :: rest } tag
          operands) data = []) :
    Localizer.localize { Bundle := bundle, LanguageTags := pre ++ tag :: rest } id operands data =
        Localizer.localize { Bundle := bundle, LanguageTags := pre ++ rest } id operands data ∧
      Localizer.localize { Bundle := bundle, LanguageTags := tag :: rest } id operands data =
        Localizer.localize { Bundle := bundle, LanguageTags := rest } id operands data ∧
      ∀ missing, bundle.template missing id = none →
        Localizer.localize { Bundle := bundle, LanguageTags := pre ++ missing :: rest } id
            operands data =
          Localizer.localize { Bundle := bundle, LanguageTags := pre ++ rest } id operands data := by
  have he : template.Execute
      (Localizer.pluralForm { Bundle := bundle, LanguageTags := pre ++ tag :: rest } tag
        operands) data = [] := by
    rcases hempty with h | h
    · exact Execute_of_no_form template _ data h
    · exact h
  refine ⟨?_, ?_, ?_⟩
  · exact (localizeLoop_drop { Bundle := bundle, LanguageTags := pre ++ tag :: rest } id operands
      data pre rest tag template ht hform he).trans
      (localizeLoop_bundle { Bundle := bundle, LanguageTags := pre ++ tag :: rest }
        { Bundle := bundle, LanguageTags := pre ++ rest } rfl id operands data (pre ++ rest))
  · exact (localizeLoop_drop { Bundle := bundle, LanguageTags := tag :: rest } id operands
      data [] rest tag template ht hform he).trans
      (localizeLoop_bundle { Bundle := bundle, LanguageTags := tag :: rest }
        { Bundle := bundle, LanguageTags := rest } rfl id operands data rest)
  · intro missing hm
    exact (localizeLoop_drop_missing { Bundle := bundle, LanguageTags := pre ++ missing :: rest }
      id operands data pre rest missing hm).trans
      (localizeLoop_bundle { Bundle := bundle, LanguageTags := pre ++ missing :: rest }
        { Bundle := bundle, LanguageTags := pre ++ rest } rfl id operands data (pre ++ rest))

/-- C32. Without operands (no quantity supplied), `Localizer.localize` returns no
error, for every bundle, id, data and list of tags; the plural form of every
tag is then `Other`, and no plural rule is consulted. -/
theorem localize_no_operands_no_error (l : Localizer Operands Data UnmarshalFunc) (id : Str)
    (data : Data) :
    (l.localize id none data).2 = none ∧ ∀ tag, l.pluralForm tag none = PluralForm.Other :=
  ⟨localizeLoop_none_no_error l id data l.LanguageTags, fun _ => rfl⟩

end

theorem localize_empty_like_missing_witness :
    Localizer.localize { Bundle := fallbackBundle, LanguageTags := ["en-us".toList, "en".toList] }
        "HelloWorld".toList (some 2) () =
      Localizer.localize { Bundle := fallbackBundle, LanguageTags := ["en".toList] }
        "HelloWorld".toList (some 2) () :=
  (localize_empty_like_missing fallbackBundle "HelloWorld".toList (some 2) () []
    ["en".toList] "en-us".toList oneTemplate rfl (by decide) (Or.inl rfl)).2.1

/-- The preference `en-US` on `fallbackBundle`: with the quantity 2 the template
under `en-us` has no form for `Other` and the text of `en` is returned; with the
quantity 1 the text of `en-us` is returned; on a bundle without any plural
rule, a call without quantity returns no error. -/
theorem localize_fallback_examples :
    (NewLocalizer fallbackBundle "en-US".toList).LanguageTags = ["en-us".toList, "en".toList] ∧
      (NewLocalizer fallbackBundle "en-US".toList).localize "HelloWorld".toList (some 2) () =
        ("Hello World!".toList, none) ∧
      (NewLocalizer fallbackBundle "en-US".toList).localize "HelloWorld".toList (some 1) () =
        ("One World!".toList, none) ∧
      (NewLocalizer xxBundle "xx".toList).localize "HelloWorld".toList none () =
        ("Hello World!".toList, none) := by
  refine ⟨by decide, by decide, by decide, by decide⟩

/-! ## C33, C34: the shape of the language tags -/

theorem upper_facts : ∀ n, n ≤ 122 → (Char.ofNat n).toLower.isUpper = false := by
  decide

/-- A lowercased rune is not an uppercase ASCII letter. -/
theorem toLower_not_upper (c : Char) : c.toLower.isUpper = false := by
  by_cases hc : c.toNat ≤ 122
  · exact forall_small_char (fun c => c.toLower.isUpper = false) upper_facts c hc
  · have ha : c.isAlpha = false := by
      cases h : c.isAlpha
      · rfl
      · rcases (isAlpha_iff c).1 h with h1 | h1 <;> omega
    rw [toLower_of_not_isAlpha ha]
    cases hu : c.isUpper
    · rfl
    · have : c.isAlpha = true := by simp [Char.isAlpha, hu]
      rw [this] at ha
      cases ha

theorem ToLower_no_upper (s : Str) : ∀ c ∈ ToLower s, c.isUpper = false := by
  intro c hc
  simp only [ToLower, List.mem_map] at hc
  obtain ⟨a, _, rfl⟩ := hc
  exact toLower_not_upper a

theorem IsGroups_of_prefix {r gs : List (Char × Str)} (h : r <+: gs) (hgs : IsGroups gs) :
    IsGroups r := by
  intro g hg
  obtain ⟨t, rfl⟩ := h
  exact hgs g (List.mem_append_left _ hg)

/-- Every language tag of a preference string is a lowercased well-formed tag. -/
theorem mem_languageTags (prefs t : Str) (ht : t ∈ languageTags prefs) :
    ∃ w gs, IsSegment w ∧ IsGroups gs ∧ t = ToLower (tagOf w gs) := by
  have h : languageTags prefs =
      dedupeLoop [] [] ((FindAllString prefs).map expandTag).flatten := by
    show dedupe (expandAll [] (FindAllString prefs)) = _
    rw [expandAll_eq]; rfl
  rw [h, mem_dedupeLoop] at ht
  obtain ⟨l, hl, htl⟩ := List.mem_flatten.1 ht.1
  obtain ⟨m, hm, rfl⟩ := List.mem_map.1 hl
  obtain ⟨w, gs, hw, hgs, rfl⟩ := FindAllString_mem prefs.length prefs (Nat.le_refl _) m hm
  rw [expandTag_tag w hw gs hgs] at htl
  simp only [List.mem_map, List.mem_reverse, List.mem_inits] at htl
  obtain ⟨r, hr, rfl⟩ := htl
  exact ⟨w, r, hw, IsGroups_of_prefix hr hgs, rfl⟩

/-- A well-formed tag starts and ends with a letter. -/
theorem tagOf_head_last (w : Str) (gs : List (Char × Str)) (hw : IsSegment w)
    (hgs : IsGroups gs) :
    (∀ c ∈ (tagOf w gs).head?, c.isAlpha = true) ∧
      ∀ c ∈ (tagOf w gs).getLast?, c.isAlpha = true := by
  constructor
  · intro c hc
    cases w with
    | nil => have := hw.1; simp at this
    | cons a w =>
      simp only [tagOf, List.cons_append, List.head?_cons, Option.mem_def,
        Option.some.injEq] at hc
      rw [← hc]
      exact hw.2 a (List.mem_cons_self _ _)
  · intro c hc
    rcases List.eq_nil_or_concat gs with h | ⟨gs1, g, h⟩
    · rw [h] at hc
      simp only [tagOf, groupsText, List.append_nil] at hc
      exact hw.2 c (List.mem_of_mem_getLast? hc)
    · have e : gs = gs1 ++ [g] := by rw [h]; simp
      rw [e, tagOf_snoc] at hc
      have hg := hgs g (by rw [e]; simp)
      have hne : g.2 ≠ [] := by
        intro h0
        have := hg.2.1
        rw [h0] at this
        simp at this
      have e2 : tagOf w gs1 ++ g.1 :: g.2 = (tagOf w gs1 ++ [g.1]) ++ g.2 := by simp
      rw [e2, List.getLast?_append_of_ne_nil _ hne] at hc
      exact hg.2.2 c (List.mem_of_mem_getLast? hc)

/-- C33. Every element of the `LanguageTags` that `NewLocalizer` produces, for
every preference string, is non-empty, holds no uppercase ASCII letter, and is
a well-formed tag: segments of two or more letters joined by single `-` or `_`,
which the regular expression matches in full, starting and ending with a
letter. -/
theorem NewLocalizer_tags_wellformed {Operands Data UnmarshalFunc : Type}
    (bundle : Bundle Operands Data UnmarshalFunc) (prefs : Str) :
    ∀ t ∈ (NewLocalizer bundle prefs).LanguageTags,
      t ≠ [] ∧ (∀ c ∈ t, c.isUpper = false) ∧
        (∃ w gs, IsSegment w ∧ IsGroups gs ∧ t = tagOf w gs) ∧
        FindAllString t = [t] ∧
        (∀ c ∈ t.head?, c.isAlpha = true) ∧ ∀ c ∈ t.getLast?, c.isAlpha = true := by
  intro t ht
  obtain ⟨w, gs, hw, hgs, rfl⟩ := mem_languageTags prefs t ht
  have hw1 := IsSegment_ToLower hw
  have hgs1 := IsGroups_ToLower hgs
  refine ⟨?_, ToLower_no_upper _, ⟨_, _, hw1, hgs1, ToLower_tagOf w gs⟩, ?_, ?_⟩
  · rw [ToLower_tagOf]
    exact tagOf_ne_nil _ _ hw1
  · rw [ToLower_tagOf]
    exact FindAllString_tag _ _ hw1 hgs1
  · rw [ToLower_tagOf]
    exact tagOf_head_last _ _ hw1 hgs1

theorem NewLocalizer_tags_wellformed_witness :
    "en-us".toList ≠ [] ∧ (∀ c ∈ "en-us".toList, c.isUpper = false) ∧
      (∃ w gs, IsSegment w ∧ IsGroups gs ∧ "en-us".toList = tagOf w gs) ∧
      FindAllString "en-us".toList = ["en-us".toList] ∧
      (∀ c ∈ "en-us".toList.head?, c.isAlpha = true) ∧
      ∀ c ∈ "en-us".toList.getLast?, c.isAlpha = true :=
  NewLocalizer_tags_wellformed zeroBundle "en-US;q=0.8, fr".toList "en-us".toList (by decide)

section
variable {Operands Data UnmarshalFunc : Type}

/-- C34. Template lookup is by exact tag, and the tags of `NewLocalizer` hold no
uppercase letter: what `localize` returns, for every preference string, does
not depend on the templates registered under tags that hold an uppercase
letter; when the id has templates under such tags only, `localize` returns the
empty text and no error. -/
theorem localize_ignores_uppercase_tags (b1 b2 : Bundle Operands Data UnmarshalFunc)
    (prefs id : Str) (operands : Option Operands) (data : Data)
    (hrules : b1.PluralRules = b2.PluralRules)
    (hlow : ∀ tag, (∀ c ∈ tag, c.isUpper = false) → b1.template tag id = b2.template tag id) :
    (NewLocalizer b1 prefs).localize id operands data =
        (NewLocalizer b2 prefs).localize id operands data ∧
      ((∀ tag, (∀ c ∈ tag, c.isUpper = false) → b1.template tag id = none) →
        (NewLocalizer b1 prefs).localize id operands data = ([], none)) := by
  have hup : ∀ t ∈ languageTags prefs, ∀ c ∈ t, c.isUpper = false := by
    intro t ht
    obtain ⟨w, gs, _, _, rfl⟩ := mem_languageTags prefs t ht
    exact ToLower_no_upper _
  constructor
  · apply localizeLoop_congr
    intro t ht
    refine ⟨hlow t (hup t ht), ?_⟩
    show Localizer.pluralForm _ t operands = Localizer.pluralForm _ t operands
    unfold Localizer.pluralForm Bundle.rule
    show (match operands with
      | none => PluralForm.Other
      | some ops =>
        match (match b1.PluralRules with
          | none => none
          | some rules => rules t) with
        | none => PluralForm.Invalid
        | some pluralRule => pluralRule.PluralFormFunc ops) = _
    rw [hrules]
    rfl
  · intro hnone
    have := localizeLoop_skip (NewLocalizer b1 prefs) id operands data (languageTags prefs) []
      (fun t ht => Or.inl (hnone t (hup t ht)))
    rw [List.append_nil] at this
    exact this

end

/-- The only tag of `parsedBundle` that holds templates is `en-US`. -/
theorem parsedBundle_template (tag id : Str) (h : tag ≠ "en-US".toList) :
    parsedBundle.template tag id = none := by
  have e : parsedBundle = (testBundle.AddMessageTemplates cldrEx "en-US".toList testTemplates).1 :=
    rfl
  have e2 : testBundle.rulesOrDefault cldrEx (pluralID "en-US".toList) = some enRule := rfl
  rw [e, AddMessageTemplates_of_rule cldrEx testBundle "en-US".toList testTemplates enRule e2]
  have h1 : ¬ tag = ['e', 'n', '-', 'U', 'S'] := h
  simp [Bundle.template, Bundle.templates, mapSet, h1, testBundle, Bundle.RegisterUnmarshalFunc]

theorem parsedBundle_lowercase (tag : Str) (htag : ∀ c ∈ tag, c.isUpper = false) (id : Str) :
    parsedBundle.template tag id = none := by
  apply parsedBundle_template
  intro e
  rw [e] at htag
  exact absurd htag (by decide)

theorem localize_ignores_uppercase_tags_witness :
    (NewLocalizer parsedBundle "en-US".toList).localize "simple".toList none Value.nil =
        (NewLocalizer { parsedBundle with MessageTemplates := none } "en-US".toList).localize
          "simple".toList none Value.nil ∧
      (NewLocalizer parsedBundle "en-US".toList).localize "simple".toList none Value.nil =
        ([], none) :=
  ⟨(localize_ignores_uppercase_tags parsedBundle { parsedBundle with MessageTemplates := none }
      "en-US".toList "simple".toList none Value.nil rfl
      (fun tag htag => (parsedBundle_lowercase tag htag _).trans rfl)).1,
    (localize_ignores_uppercase_tags parsedBundle { parsedBundle with MessageTemplates := none }
      "en-US".toList "simple".toList none Value.nil rfl
      (fun tag htag => (parsedBundle_lowercase tag htag _).trans rfl)).2
      (fun tag htag => parsedBundle_lowercase tag htag _)⟩

/-- The file `en-US.json` of `TestJSON`: its templates are registered under
`en-US`, and a localizer that prefers `en-US` looks under `en-us` and `en` and
returns the empty text. -/
theorem TestJSON_not_localized :
    (parsedBundle.template "en-US".toList "simple".toList).isSome = true ∧
      (NewLocalizer parsedBundle "en-US".toList).LanguageTags =
        ["en-us".toList, "en".toList] ∧
      Localizer.Localize exEnv (NewLocalizer parsedBundle "en-US".toList) "simple".toList [] =
        some ([], none) := by
  refine ⟨by decide, by decide, by decide⟩

/-! ## C35: a failed registration -/

section
variable {Operands : Type}

/-- C35. Registration is atomic on failure: whenever `AddMessageTemplates` or
`ParseMessageFileBytes` returns an error, the `MessageTemplates` of the bundle
are what they were before the call. -/
theorem registration_atomic (env : Env Operands) (cldr : Str → Option (PluralRule Operands))
    (sep : Char → Bool) (b : Bundle Operands Value UnmarshalFn) (langTag : Str)
    (messageTemplates : List (MessageTemplate Value)) (buf : List Nat) (path : Str) :
    ((b.AddMessageTemplates cldr langTag messageTemplates).2 ≠ none →
        (b.AddMessageTemplates cldr langTag messageTemplates).1.MessageTemplates =
          b.MessageTemplates) ∧
      ((b.ParseMessageFileBytes env cldr sep buf path).2 ≠ none →
        (b.ParseMessageFileBytes env cldr sep buf path).1.MessageTemplates =
          b.MessageTemplates) := by
  have hadd : ∀ tag (ts : List (MessageTemplate Value)),
      (b.AddMessageTemplates cldr tag ts).2 ≠ none →
        (b.AddMessageTemplates cldr tag ts).1.MessageTemplates = b.MessageTemplates := by
    intro tag ts h
    unfold Bundle.AddMessageTemplates at h ⊢
    cases hr : b.rulesOrDefault cldr (pluralID tag) with
    | none => rfl
    | some r =>
      rw [hr] at h
      exact absurd rfl h
  refine ⟨hadd langTag messageTemplates, ?_⟩
  intro h
  by_cases hlen : buf.length = 0
  · simp only [Bundle.ParseMessageFileBytes, hlen, if_true]
  · cases hf : b.unmarshalFunc (parseFormat sep path) with
    | none => simp only [Bundle.ParseMessageFileBytes, hlen, if_false, hf]
    | some f =>
      cases hraw : f buf with
      | error e => simp only [Bundle.ParseMessageFileBytes, hlen, if_false, hf, hraw]
      | ok raw =>
        cases hts : parseRawLoop (NewMessageTemplate env) path raw with
        | error e => simp only [Bundle.ParseMessageFileBytes, hlen, if_false, hf, hraw, hts]
        | ok ts =>
          cases htag : (FindAllString (pathNoFormat sep path)).getLast? with
          | none =>
            simp only [Bundle.ParseMessageFileBytes, hlen, if_false, hf, hraw, hts, htag]
          | some tag =>
            simp only [Bundle.ParseMessageFileBytes, hlen, if_false, hf, hraw, hts, htag] at h ⊢
            exact hadd tag ts h

end

/-- A file whose language tag has no plural rule, parsed into the bundle of
`TestJSON`: the call returns an error and the templates of the bundle stay. -/
theorem registration_atomic_witness :
    (parsedBundle.ParseMessageFileBytes exEnv cldrEx IsPathSeparator [123, 125]
        "xx.json".toList).2 = some (Error.noPluralRule "xx".toList) ∧
      (parsedBundle.ParseMessageFileBytes exEnv cldrEx IsPathSeparator [123, 125]
        "xx.json".toList).1.MessageTemplates = parsedBundle.MessageTemplates :=
  ⟨by decide,
    (registration_atomic exEnv cldrEx IsPathSeparator parsedBundle [] [] [123, 125]
      "xx.json".toList).2 (by decide)⟩

/-! ## C36: the faults of `parseArgs` -/

theorem toMap_pointee : (d : Value) → toMap d = toMap d.pointee
  | Value.ptr elem => by
    have ih := toMap_pointee elem
    simpa [toMap, Value.pointee] using ih
  | Value.nil => rfl
  | Value.int _ _ => rfl
  | Value.str _ => rfl
  | Value.map _ => rfl
  | Value.nilMap => rfl
  | Value.struct _ => rfl
  | Value.nilPtr => rfl
  | Value.other _ => rfl

theorem pointee_not_ptr : (d : Value) → ∀ e, d.pointee ≠ Value.ptr e
  | Value.ptr elem => by
    have ih := pointee_not_ptr elem
    simpa [Value.pointee] using ih
  | Value.nil => fun e h => by cases h
  | Value.int _ _ => fun e h => by cases h
  | Value.str _ => fun e h => by cases h
  | Value.map _ => fun e h => by cases h
  | Value.nilMap => fun e h => by cases h
  | Value.struct _ => fun e h => by cases h
  | Value.nilPtr => fun e h => by cases h
  | Value.other _ => fun e h => by cases h

/-- What `toMap` does, by the value at the end of the chain of pointers: it
faults on a nil pointer, finds entries in a mapping and in a record, and
returns the nil map for every other value. -/
theorem toMap_cases (d : Value) :
    (toMap d = none ↔ d.pointee.isNilPtr = true) ∧
      ((∃ m, toMap d = some (some m)) ↔ d.pointee.holdsEntries = true) := by
  rw [toMap_pointee d]
  have hp := pointee_not_ptr d
  cases h : d.pointee with
  | ptr e => exact absurd h (hp e)
  | _ => simp [toMap, Value.isNilPtr, Value.holdsEntries]

/-- The faults of the second statement of `parseArgs`. -/
theorem mergeCount_eq_none_iff (count data : Value) :
    mergeCount count data = none ↔
      toMap data = none ∨
        (count.isNil = false ∧ data.isNil = false ∧ toMap data = some none) := by
  unfold mergeCount
  by_cases hc : count.isNil = false
  · rw [if_pos hc]
    by_cases hd : data.isNil = true
    · rw [if_pos hd]
      have hn : data = Value.nil := by
        cases data <;> simp_all [Value.isNil]
      subst hn
      simp [toMap, Value.isNil]
    · rw [if_neg hd]
      have hd1 : data.isNil = false := by simpa using hd
      cases ht : toMap data with
      | none => simp
      | some o =>
        cases o with
        | none => simp [hc, hd1]
        | some m => simp
  · rw [if_neg hc]
    cases ht : toMap data with
    | none => simp
    | some o =>
      cases o with
      | none => simp [hc]
      | some m =>
        simp only [false_or, reduceCtorEq, and_false, iff_false]
        cases m "Count".toList <;> simp

/-- C36 (amended): the faults of `parseArgs`.  With a quantity as first argument,
`parseArgs` faults exactly when the data that follow are not nil and `toMap`
finds no entries in them: the data are not, at the end of a chain of non-nil
pointers, a non-nil mapping or a record (they are a string, a number, a slice, a
nil mapping, a nil pointer).  With data as first argument, `parseArgs` faults
exactly when the data are, or point through non-nil pointers to, a nil
pointer.  Without data it returns. -/
theorem parseArgs_faults_iff (q d : Value) (rest : List Value) :
    (parseArgs [] ≠ none) ∧
      (isNumber q = true → parseArgs [q] ≠ none) ∧
      (isNumber q = true →
        (parseArgs (q :: d :: rest) = none ↔
          d.isNil = false ∧ d.pointee.holdsEntries = false)) ∧
      (isNumber d = false →
        (parseArgs (d :: rest) = none ↔ d.pointee.isNilPtr = true)) := by
  have hne : ∀ {x : Bool}, ¬ x = true ↔ x = false := by
    intro x; cases x <;> simp
  refine ⟨by simp [parseArgs, splitArgs, mergeCount, Value.isNil, toMap], ?_, ?_, ?_⟩
  · intro hq
    rw [parseArgs_of_number q [] hq]
    simp [indexOrNil, mergeCount_no_data q (isNil_of_isNumber hq)]
  · intro hq
    rw [parseArgs_of_number q (d :: rest) hq, indexOrNil_cons_zero, mergeCount_eq_none_iff]
    obtain ⟨h1, h2⟩ := toMap_cases d
    constructor
    · rintro (h | ⟨_, hd, h⟩)
      · refine ⟨?_, ?_⟩
        · cases d <;> simp_all [Value.isNil, toMap]
        · rw [← hne, ← h2, h]
          rintro ⟨m, hm⟩
          cases hm
      · refine ⟨hd, ?_⟩
        rw [← hne, ← h2, h]
        rintro ⟨m, hm⟩
        cases hm
    · rintro ⟨hd, he⟩
      cases ht : toMap d with
      | none => exact Or.inl rfl
      | some o =>
        cases o with
        | none => exact Or.inr ⟨isNil_of_isNumber hq, hd, rfl⟩
        | some m =>
          have := h2.1 ⟨m, ht⟩
          rw [he] at this
          cases this
  · intro hd
    rw [parseArgs_of_not_number d rest hd, mergeCount_eq_none_iff, (toMap_cases d).1]
    constructor
    · rintro (h | ⟨h, _⟩)
      · exact h
      · cases h
    · exact Or.inl

/-- C36 (counterexample): with the quantity 3, the nil mapping for data makes
`parseArgs` fault, and a pointer to a mapping, which is neither a mapping nor a
record nor a pointer to a record, makes it return; a string for data makes it
fault, as the claim says. -/
theorem parseArgs_nil_map_faults :
    parseArgs [Value.int IntKind.int 3, Value.nilMap] = none ∧
      (parseArgs [Value.int IntKind.int 3, Value.ptr (Value.map bobMap)]).isSome = true ∧
      (parseArgs [Value.int IntKind.int 3, Value.ptr (Value.ptr (Value.struct bobStruct))]).isSome
        = true ∧
      parseArgs [Value.int IntKind.int 3, Value.str "Bob".toList] = none ∧
      parseArgs [Value.nilPtr] = none := by
  refine ⟨rfl, rfl, rfl, rfl, rfl⟩

/-! ## C37: the text of an `invocationError` -/

/-- The text of a format without `%` is copied. -/
theorem sprintf_text (fmt : Fmt) (text : Str) (htext : ∀ c ∈ text, c ≠ '%') (format : Str)
    (operands : List Value) :
    sprintf fmt FmtState.text (text ++ format) operands =
      text ++ sprintf fmt FmtState.text format operands := by
  induction text with
  | nil => rfl
  | cons c text ih =>
    have hc : c ≠ '%' := htext c (List.mem_cons_self _ _)
    have ih1 := ih (fun x hx => htext x (List.mem_cons_of_mem _ hx))
    rw [List.cons_append, sprintf, if_neg hc, ih1, List.cons_append]

theorem sprintf_verbS (fmt : Fmt) (a : Value) (format : Str) (operands : List Value) :
    sprintf fmt FmtState.text ('%' :: 's' :: format) (a :: operands) =
      fmt.verbS a ++ sprintf fmt FmtState.text format operands := by
  rw [sprintf, if_pos rfl, sprintf, if_pos rfl]

theorem sprintf_sharpV (fmt : Fmt) (a : Value) (format : Str) (operands : List Value) :
    sprintf fmt FmtState.text ('%' :: '#' :: 'v' :: format) (a :: operands) =
      fmt.sharpV a ++ sprintf fmt FmtState.text format operands := by
  rw [sprintf, if_pos rfl, sprintf, if_neg (by decide), if_pos rfl, sprintf, if_pos rfl]

/-- The verbs `, %#v` repeated once for each operand of a list print the
operands, each after a comma and a blank. -/
theorem sprintf_repeat (fmt : Fmt) (args : List Value) (format : Str) (operands : List Value) :
    sprintf fmt FmtState.text (Repeat ", %#v".toList args.length ++ format) (args ++ operands) =
      (args.map (fun a => ", ".toList ++ fmt.sharpV a)).flatten ++
        sprintf fmt FmtState.text format operands := by
  induction args with
  | nil => rfl
  | cons a args ih =>
    have e : Repeat ", %#v".toList (a :: args).length ++ format =
        ", ".toList ++ ('%' :: '#' :: 'v' :: (Repeat ", %#v".toList args.length ++ format)) := by
      simp [Repeat]
    rw [e, sprintf_text fmt ", ".toList (by decide), List.cons_append, sprintf_sharpV, ih]
    simp

theorem Join_cons (a : Str) (rest : List Str) (sep : Str) :
    Join (a :: rest) sep = a ++ (rest.map (fun x => sep ++ x)).flatten := by
  induction rest generalizing a with
  | nil => simp [Join]
  | cons b rest ih => simp [Join, ih b]

/-- The end of the format: the text `); `, the reason, and nothing more. -/
theorem sprintf_reason (fmt : Fmt) (reason : Str) :
    sprintf fmt FmtState.text (")".toList ++ "; %s".toList) [Value.str reason] =
      "); ".toList ++ reason := by
  have e : ")".toList ++ "; %s".toList = "); ".toList ++ ('%' :: 's' :: []) := by decide
  rw [e, sprintf_text fmt "); ".toList (by decide), sprintf_verbS]
  simp [Fmt.verbS, sprintf, sprintfEnd]

/-- C37. For every `invocationError` with name `N`, arguments `a1..an` and reason
`R`, `Error()` is `invalid invocation N(`, then the renderings of the arguments
in Go syntax (the verb `%#v`) joined by a comma and a blank, then `); R`. -/
theorem invocationError_Error (fmt : Fmt) (err : invocationError) :
    err.Error fmt =
      "invalid invocation ".toList ++ err.name ++ "(".toList ++
        Join (err.args.map fmt.sharpV) ", ".toList ++ "); ".toList ++ err.reason := by
  obtain ⟨name, args, reason⟩ := err
  have e0 : "invalid invocation %s".toList = "invalid invocation ".toList ++ ('%' :: 's' :: []) := by
    decide
  have hhead : ∀ (format : Str) (operands : List Value),
      sprintf fmt FmtState.text ("invalid invocation %s".toList ++ format)
          (Value.str name :: operands) =
        "invalid invocation ".toList ++ name ++ sprintf fmt FmtState.text format operands := by
    intro format operands
    rw [e0, List.append_assoc, sprintf_text fmt "invalid invocation ".toList (by decide),
      List.cons_append, List.cons_append, List.nil_append, sprintf_verbS]
    simp [Fmt.verbS]
  unfold invocationError.Error Sprintf invocationError.format
  simp only [List.singleton_append, List.append_assoc]
  rw [hhead]
  cases args with
  | nil =>
    have e1 : "()".toList ++ "; %s".toList = "(".toList ++ (")".toList ++ "; %s".toList) := by
      decide
    simp only [List.length_nil, List.nil_append, List.map_nil, Join]
    rw [e1, sprintf_text fmt "(".toList (by decide), sprintf_reason]
    simp
  | cons a args =>
    cases args with
    | nil =>
      have e1 : "(%#v)".toList ++ "; %s".toList =
          "(".toList ++ ('%' :: '#' :: 'v' :: (")".toList ++ "; %s".toList)) := by decide
      simp only [List.length_cons, List.length_nil, List.map_cons, List.map_nil, Join]
      rw [e1, sprintf_text fmt "(".toList (by decide), List.cons_append, sprintf_sharpV]
      simp only [List.nil_append]
      rw [sprintf_reason]
      simp
    | cons b rest =>
      have e1 : "(%#v".toList = "(".toList ++ ('%' :: '#' :: 'v' :: []) := by decide
      have e2 : (a :: b :: rest).length = rest.length + 2 := by simp
      rw [e2]
      simp only [Nat.add_sub_cancel]
      have e3 : rest.length + 2 - 1 = (b :: rest).length := by simp
      rw [e3, e1]
      simp only [List.append_assoc]
      rw [sprintf_text fmt "(".toList (by decide), List.cons_append, List.cons_append,
        List.cons_append, List.cons_append, List.nil_append, sprintf_sharpV,
        sprintf_repeat fmt (b :: rest), sprintf_reason]
      have ej : Join (List.map fmt.sharpV (a :: b :: rest)) ", ".toList =
          fmt.sharpV a ++
            ((b :: rest).map (fun x => ", ".toList ++ fmt.sharpV x)).flatten := by
        rw [List.map_cons, Join_cons, List.map_map]
        rfl
      rw [ej]
      simp

theorem TestInvocationError :
    invocationError.Error exFmt { name := "Foo".toList, args := [], reason := "reason".toList } =
        "invalid invocation Foo(); reason".toList ∧
      invocationError.Error exFmt
          { name := "Foo".toList, args := [Value.str "arg1".toList], reason := "reason".toList } =
        "invalid invocation Foo(\"arg1\"); reason".toList ∧
      invocationError.Error exFmt
          { name := "Foo".toList, args := [Value.str "arg1".toList, Value.str "arg2".toList],
            reason := "reason".toList } =
        "invalid invocation Foo(\"arg1\", \"arg2\"); reason".toList ∧
      invocationError.Error exFmt
          { name := "Foo".toList
            args := [Value.str "arg1".toList, Value.str "arg2".toList, Value.str "arg3".toList]
            reason := "reason".toList } =
        "invalid invocation Foo(\"arg1\", \"arg2\", \"arg3\"); reason".toList := by
  refine ⟨by decide, by decide, by decide, by decide⟩

end I18n
